import Mathlib

/-! gmrtd: BER-TLV codec, security-info classifier and response APDU

A shallow embedding of the decoding core of the gmrtd e-passport reader
(packages `tlv`, `document` and `iso7816`) together with the properties stated
for it.

Conventions of the embedding:

* a Go `[]byte` is a `List Byte` with `Byte = Fin 256`;
* a Go `int` that only ever holds sizes, tags or counters is a `Nat` or an
  `Int` (no wrap-around is modelled: the values stay far below `2^63`);
* a Go function returning `(*T, error)` returns a pair
  `Option T × Option Error`, so that "nil result and non-nil error" is a
  statement about the pair and not a consequence of the type;
* a Go `panic` is a separate outcome, never an error value.
-/

/-- One octet of a Go byte slice. -/
abbrev Byte := Fin 256

namespace tlv

/-! ## Node model (package `tlv`)

The source file of package `tlv` is not part of the sample: only its tests
(`tlv_test.go`, `nil_node_test.go`) and its callers (`dg1.go`, `dg13.go`,
`dg15.go`) are. The definitions of this section follow sections 3 and 4.1 of
the specification, and the names follow the calls made by tests and callers. -/

/-- Modelled from the spec: the failure kind of the missing `tlv.Decode`
(`MalformedTlv`). `fuelExhausted` is not a behaviour of the program: it is the
result of the bounded recursion below when its bound is too small, and
`decodeNodes_fuel` shows that `Decode` never returns it. -/
inductive TlvError where
  | malformedTlv
  | fuelExhausted
deriving DecidableEq, Repr

/-- Modelled from the spec: the missing node type of package `tlv` (section 3).
A node is primitive (tag and value), constructed (tag and ordered children) or
the absent-node sentinel returned by `NewTlvNilNode`. -/
inductive TlvNode where
  | simple (tag : Int) (value : List Byte)
  | constructed (tag : Int) (children : List TlvNode)
  | nilNode
deriving Repr

/-- Modelled from the spec: the missing forest type `TlvNodes`, an ordered
sequence of top-level nodes. -/
abbrev TlvNodes := List TlvNode

/-- Modelled from the spec: the missing constructor `NewTlvNilNode`. -/
def NewTlvNilNode : TlvNode := TlvNode.nilNode

/-- Modelled from the spec: the length field of an element header, definite
(a byte count) or indefinite (value closed by a `00 00` marker). -/
inductive TlvLength where
  | definite (n : Nat)
  | indefinite
deriving DecidableEq, Repr

/-- Big-endian value of a byte string. -/
def beNat (bs : List Byte) : Nat :=
  bs.foldl (fun acc b => acc * 256 + b.val) 0

/-- Worker of `natBytes`: peels base-256 digits off `n`, least significant
first, pushing them in front of `acc`. -/
def natBytesAux : Nat → Nat → List Byte → List Byte
  | 0, _, acc => acc
  | fuel + 1, n, acc =>
    if n = 0 then acc else natBytesAux fuel (n / 256) (Fin.ofNat (n % 256) :: acc)

/-- Shortest big-endian byte string of a number (empty for zero). -/
def natBytes (n : Nat) : List Byte := natBytesAux n n []

/-- Modelled from the spec: continuation octets of a multi-byte tag of the
missing `tlv.GetTag`; octets are consumed while the continuation bit (0x80) is
set, and the last one (bit clear) closes the tag. -/
def getTagMore : List Byte → Nat → Except TlvError (Nat × List Byte)
  | [], _ => .error .malformedTlv
  | b :: rest, acc =>
    if 128 ≤ b.val then getTagMore rest (acc * 256 + b.val)
    else .ok (acc * 256 + b.val, rest)

/-- Modelled from the spec: the missing `tlv.GetTag`. Reads one tag; when the
low 5 bits of the first octet equal 0x1F the continuation octets belong to the
tag. The tag is the integer whose big-endian bytes are the tag octets
(`dg1.go` looks up tag `0x5f1f`). Returns the tag and the unread bytes. -/
def GetTag : List Byte → Except TlvError (Int × List Byte)
  | [] => .error .malformedTlv
  | b :: rest =>
    if b.val % 32 = 31 then
      match getTagMore rest b.val with
      | .ok (t, rest') => .ok ((t : Int), rest')
      | .error e => .error e
    else .ok ((b.val : Int), rest)

/-- Modelled from the spec: the missing `tlv.GetLength`. High bit clear: the
octet is the length; `0x80`: indefinite; otherwise the low 7 bits count the
octets of a big-endian length. -/
def GetLength : List Byte → Except TlvError (TlvLength × List Byte)
  | [] => .error .malformedTlv
  | b :: rest =>
    if b.val < 128 then .ok (.definite b.val, rest)
    else if b.val = 128 then .ok (.indefinite, rest)
    else if rest.length < b.val % 128 then .error .malformedTlv
    else .ok (.definite (beNat (rest.take (b.val % 128))), rest.drop (b.val % 128))

/-- Modelled from the spec: the missing `tlv.GetTagAndLength` (called by
`dg13.go`): one tag followed by one length field. -/
def GetTagAndLength (buf : List Byte) : Except TlvError (Int × TlvLength × List Byte) :=
  match GetTag buf with
  | .error e => .error e
  | .ok (tag, rest) =>
    match GetLength rest with
    | .error e => .error e
    | .ok (len, rest') => .ok (tag, len, rest')

/-- Constructed bit (0x20) of the first tag octet of a buffer. -/
def constructedBit : List Byte → Bool
  | [] => false
  | b :: _ => (b.val / 32) % 2 = 1

/-- Modelled from the spec: the recursive worker of the missing `tlv.Decode`
(section 4.1). `indef` tells whether the elements being read are the content of
an indefinite-length element, in which case a `00 00` pair closes them. The
result is the decoded nodes and the bytes left unread. The first argument
bounds the recursion depth; any bound above the buffer length is enough.

* nothing left: end of a definite-length level, and a missing terminator in an
  indefinite-length one;
* one byte left: too short for a tag and length header;
* a declared definite length above the number of bytes left: malformed;
* constructed tag: the value bytes are decoded as the children;
* length `0x80` on a constructed tag: children are read up to `00 00`; the
  indefinite form is defined for constructed elements only, so on a primitive
  tag it is malformed. -/
def decodeNodes : Nat → Bool → List Byte → Except TlvError (List TlvNode × List Byte)
  | 0, _, _ => .error .fuelExhausted
  | fuel + 1, indef, buf =>
    match indef, buf with
    | false, [] => .ok ([], [])
    | true, [] => .error .malformedTlv
    | _, [_] => .error .malformedTlv
    | indef, b0 :: b1 :: tl =>
      if indef = true ∧ b0.val = 0 ∧ b1.val = 0 then .ok ([], tl)
      else
        match GetTagAndLength (b0 :: b1 :: tl) with
        | .error e => .error e
        | .ok (tag, .definite len, rest) =>
          if rest.length < len then .error .malformedTlv
          else if constructedBit (b0 :: b1 :: tl) then
            match decodeNodes fuel false (rest.take len) with
            | .error e => .error e
            | .ok (children, _) =>
              match decodeNodes fuel indef (rest.drop len) with
              | .error e => .error e
              | .ok (siblings, left) => .ok (.constructed tag children :: siblings, left)
          else
            match decodeNodes fuel indef (rest.drop len) with
            | .error e => .error e
            | .ok (siblings, left) => .ok (.simple tag (rest.take len) :: siblings, left)
        | .ok (tag, .indefinite, rest) =>
          if constructedBit (b0 :: b1 :: tl) then
            match decodeNodes fuel true rest with
            | .error e => .error e
            | .ok (children, rest') =>
              match decodeNodes fuel indef rest' with
              | .error e => .error e
              | .ok (siblings, left) => .ok (.constructed tag children :: siblings, left)
          else .error .malformedTlv

/-- Modelled from the spec: the missing `tlv.Decode`: decodes the whole buffer
into a forest, or fails with `MalformedTlv`. -/
def Decode (data : List Byte) : Except TlvError TlvNodes :=
  match decodeNodes (data.length + 1) false data with
  | .ok (nodes, _) => .ok nodes
  | .error e => .error e

/-- Modelled from the spec: tag octets written by the missing `Encode`: the
big-endian bytes of the tag, one octet at least. -/
def encodeTag (tag : Int) : List Byte :=
  if tag.toNat < 256 then [Fin.ofNat tag.toNat] else natBytes tag.toNat

/-- Modelled from the spec: length octets written by the missing `Encode`,
always in definite form: one octet below 128, otherwise `0x80 + k` followed by
the `k` octets of the shortest big-endian form. -/
def encodeLength (n : Nat) : List Byte :=
  if n < 128 then [Fin.ofNat n] else Fin.ofNat (128 + (natBytes n).length) :: natBytes n

mutual
/-- Modelled from the spec: the missing `TlvNode.Encode`: tag octets, length
octets, then the value or the encoded children; empty for the sentinel. -/
def TlvNode.Encode : TlvNode → List Byte
  | .simple tag value => encodeTag tag ++ encodeLength value.length ++ value
  | .constructed tag children =>
    encodeTag tag ++ encodeLength (encodeNodes children).length ++ encodeNodes children
  | .nilNode => []
/-- Encodings of the nodes of a list, concatenated in order. -/
def encodeNodes : List TlvNode → List Byte
  | [] => []
  | n :: rest => n.Encode ++ encodeNodes rest
end

/-- Modelled from the spec: the missing `TlvNodes.Encode`. -/
def TlvNodes.Encode (nodes : TlvNodes) : List Byte := encodeNodes nodes

/-- Modelled from the spec: the missing `TlvNode.GetTag`; the sentinel reads
as `-1`. -/
def TlvNode.GetTag : TlvNode → Int
  | .simple tag _ => tag
  | .constructed tag _ => tag
  | .nilNode => -1

/-- Modelled from the spec: the missing `TlvNode.GetValue`: the value of a
primitive node, empty for constructed nodes and for the sentinel. -/
def TlvNode.GetValue : TlvNode → List Byte
  | .simple _ value => value
  | .constructed _ _ => []
  | .nilNode => []

/-- Modelled from the spec: the missing `TlvNode.IsValidNode`. -/
def TlvNode.IsValidNode : TlvNode → Bool
  | .nilNode => false
  | _ => true

/-- Modelled from the spec: the missing `TlvNodes.IsValidNode`. -/
def TlvNodes.IsValidNode (_ : TlvNodes) : Bool := true

/-- Immediate children of a node: none for primitive nodes and the sentinel. -/
def TlvNode.children : TlvNode → List TlvNode
  | .constructed _ children => children
  | _ => []

/-- Scan of `GetNodeByOccur`: walks the nodes in order, counting those with
the wanted tag in `cur`, and returns the one that brings the count to
`occurrence`. -/
def scanOccur (tag : Int) (occurrence : Int) : List TlvNode → Int → TlvNode
  | [], _ => NewTlvNilNode
  | n :: rest, cur =>
    if n.GetTag = tag then
      if cur + 1 = occurrence then n else scanOccur tag occurrence rest (cur + 1)
    else scanOccur tag occurrence rest cur

/-- Modelled from the spec: the missing `TlvNodes.GetNodeByOccur`: the n-th
(1-indexed) node of the forest with the tag, scanning in order, else the
sentinel. -/
def TlvNodes.GetNodeByOccur (nodes : TlvNodes) (tag : Int) (occurrence : Int) : TlvNode :=
  scanOccur tag occurrence nodes 0

/-- Modelled from the spec: the missing `TlvNode.GetNodeByOccur`: the same
scan over the immediate children of the receiver. -/
def TlvNode.GetNodeByOccur (node : TlvNode) (tag : Int) (occurrence : Int) : TlvNode :=
  scanOccur tag occurrence node.children 0

/-- First node of a list with the tag, else the sentinel. -/
def firstWithTag (tag : Int) : List TlvNode → TlvNode
  | [] => NewTlvNilNode
  | n :: rest => if n.GetTag = tag then n else firstWithTag tag rest

/-- Modelled from the spec: the missing `TlvNodes.GetNode`: first node of the
forest matching the tag. -/
def TlvNodes.GetNode (nodes : TlvNodes) (tag : Int) : TlvNode := firstWithTag tag nodes

/-- Modelled from the spec: the missing `TlvNode.GetNode`: first immediate
child matching the tag. -/
def TlvNode.GetNode (node : TlvNode) (tag : Int) : TlvNode := firstWithTag tag node.children

/-- Hexadecimal rendering of a number. -/
def hexOfNat (n : Nat) : String := String.mk (Nat.toDigits 16 n)

/-- Hexadecimal rendering of a byte string. -/
def hexOfBytes (bs : List Byte) : String :=
  String.join (bs.map (fun b => hexOfNat b.val))

mutual
/-- Modelled from the spec: the missing `TlvNode.String`: an indented dump of
tag, length, value and children (the layout is not fixed by the spec); empty
for the sentinel. -/
def renderNode (indent : String) : TlvNode → String
  | .simple tag value =>
    indent ++ hexOfNat tag.toNat ++ " (" ++ toString value.length ++ ") " ++ hexOfBytes value ++ "\n"
  | .constructed tag children =>
    indent ++ hexOfNat tag.toNat ++ "\n" ++ renderNodes (indent ++ "  ") children
  | .nilNode => ""
/-- Dumps of the nodes of a list, one after the other. -/
def renderNodes (indent : String) : List TlvNode → String
  | [] => ""
  | n :: rest => renderNode indent n ++ renderNodes indent rest
end

/-- Modelled from the spec: the missing `TlvNode.String`. -/
def TlvNode.String (node : TlvNode) : String := renderNode "" node

/-- Modelled from the spec: the missing `TlvNodes.String`. -/
def TlvNodes.String (nodes : TlvNodes) : String := renderNodes "" nodes

end tlv

/-- A Go `error` value. -/
inductive Error where
  | tlv (e : tlv.TlvError)
  | asn1 (text : String)
  | text (s : String)
  | wrapped (text : String) (inner : Error)
deriving DecidableEq, Repr

/-- Result of running Go code that may panic: it returns, or the process
aborts with a message. -/
inductive Outcome (α : Type) where
  | returned (a : α)
  | panicked (msg : String)
deriving DecidableEq, Repr

namespace document

/-! ## Security-info classifier (`document/security_infos.go`) -/

/-- Go `asn1.ObjectIdentifier`: a sequence of arcs. -/
abbrev ObjectIdentifier := List Nat

/-- Type `cms.AlgorithmIdentifier` is declared outside the sample; this file
never looks inside it, and it is kept as the bytes it was decoded from. -/
structure AlgorithmIdentifier where
  Raw : List Byte
deriving DecidableEq, Repr

/-- Type `cms.SubjectPublicKeyInfo` is declared outside the sample; this file
never looks inside it, and it is kept as the bytes it was decoded from. -/
structure SubjectPublicKeyInfo where
  Raw : List Byte
deriving DecidableEq, Repr

structure SecurityInfoOid where
  Raw : List Byte
  Protocol : ObjectIdentifier
deriving DecidableEq, Repr

abbrev SecurityInfoOidSET := List SecurityInfoOid

structure PaceInfo where
  Raw : List Byte
  Protocol : ObjectIdentifier
  Version : Int
  ParameterId : Option Int
deriving DecidableEq, Repr

structure PaceDomainParameterInfo where
  Raw : List Byte
  Protocol : ObjectIdentifier
  DomainParameter : AlgorithmIdentifier
  ParameterId : Option Int
deriving DecidableEq, Repr

structure ActiveAuthenticationInfo where
  Raw : List Byte
  Protocol : ObjectIdentifier
  Version : Int
  SignatureAlgorithm : ObjectIdentifier
deriving DecidableEq, Repr

structure ChipAuthenticationInfo where
  Raw : List Byte
  Protocol : ObjectIdentifier
  Version : Int
  KeyId : Option Int
deriving DecidableEq, Repr

structure ChipAuthenticationPublicKeyInfo where
  Raw : List Byte
  Protocol : ObjectIdentifier
  ChipAuthenticationPublicKey : SubjectPublicKeyInfo
  KeyId : Option Int
deriving DecidableEq, Repr

structure TerminalAuthenticationInfo where
  Raw : List Byte
  Protocol : ObjectIdentifier
  Version : Int
deriving DecidableEq, Repr

structure EFDirInfo where
  Raw : List Byte
  Protocol : ObjectIdentifier
  EFDir : List Byte
deriving DecidableEq, Repr

structure UnhandledInfo where
  Raw : List Byte
  Protocol : ObjectIdentifier
deriving DecidableEq, Repr

structure SecurityInfos where
  RawData : List Byte
  PaceInfos : List PaceInfo
  PaceDomainParamInfos : List PaceDomainParameterInfo
  ActiveAuthInfos : List ActiveAuthenticationInfo
  ChipAuthInfos : List ChipAuthenticationInfo
  ChipAuthPubKeyInfos : List ChipAuthenticationPublicKeyInfo
  TermAuthInfos : List TerminalAuthenticationInfo
  EfDirInfos : List EFDirInfo
  UnhandledInfos : List UnhandledInfo
deriving DecidableEq, Repr

/-- What `security_infos.go` takes from packages outside the sample: the
object identifiers and `OidHasPrefix` of package `oid`, and `utils.ParseAsn1`,
one field per destination type it is called with (`ParseAsn1` is generic in
its destination). `parseUnhandledInfo` and `parseOidSet` are the calls with
`isPartiallyParsed = true`, the others those with `false`. -/
structure Env where
  OidPaceDhGm : ObjectIdentifier
  OidPaceEcdhGm : ObjectIdentifier
  OidPaceDhIm : ObjectIdentifier
  OidPaceEcdhIm : ObjectIdentifier
  OidPaceEcdhCam : ObjectIdentifier
  OidIcaoMrtdSecurityAaProtocolObject : ObjectIdentifier
  OidCaDh : ObjectIdentifier
  OidCaEcdh : ObjectIdentifier
  OidPkDh : ObjectIdentifier
  OidPkEcdh : ObjectIdentifier
  OidTa : ObjectIdentifier
  OidEfDir : ObjectIdentifier
  OidHasPrefix : ObjectIdentifier → ObjectIdentifier → Bool
  parseOidSet : List Byte → Except Error SecurityInfoOidSET
  parsePaceInfo : List Byte → Except Error PaceInfo
  parsePaceDomainParameterInfo : List Byte → Except Error PaceDomainParameterInfo
  parseActiveAuthenticationInfo : List Byte → Except Error ActiveAuthenticationInfo
  parseChipAuthenticationInfo : List Byte → Except Error ChipAuthenticationInfo
  parseChipAuthenticationPublicKeyInfo :
    List Byte → Except Error ChipAuthenticationPublicKeyInfo
  parseTerminalAuthenticationInfo : List Byte → Except Error TerminalAuthenticationInfo
  parseEFDirInfo : List Byte → Except Error EFDirInfo
  parseUnhandledInfo : List Byte → Except Error UnhandledInfo

def isPACEInfo (env : Env) (theOid : ObjectIdentifier) : Bool :=
  env.OidHasPrefix theOid env.OidPaceDhGm ||
    env.OidHasPrefix theOid env.OidPaceEcdhGm ||
    env.OidHasPrefix theOid env.OidPaceDhIm ||
    env.OidHasPrefix theOid env.OidPaceEcdhIm ||
    env.OidHasPrefix theOid env.OidPaceEcdhCam

def isPACEDomainParameterInfo (env : Env) (theOid : ObjectIdentifier) : Bool :=
  theOid == env.OidPaceDhGm ||
    theOid == env.OidPaceEcdhGm ||
    theOid == env.OidPaceDhIm ||
    theOid == env.OidPaceEcdhIm ||
    theOid == env.OidPaceEcdhCam

def isActiveAuthenticationInfo (env : Env) (theOid : ObjectIdentifier) : Bool :=
  theOid == env.OidIcaoMrtdSecurityAaProtocolObject

def isChipAuthenticationInfo (env : Env) (theOid : ObjectIdentifier) : Bool :=
  env.OidHasPrefix theOid env.OidCaDh ||
    env.OidHasPrefix theOid env.OidCaEcdh

def isChipAuthenticationPublicKeyInfo (env : Env) (theOid : ObjectIdentifier) : Bool :=
  theOid == env.OidPkDh ||
    theOid == env.OidPkEcdh

def isTerminalAuthenticationInfo (env : Env) (theOid : ObjectIdentifier) : Bool :=
  env.OidHasPrefix theOid env.OidTa ||
    theOid == env.OidTa || env.OidHasPrefix theOid env.OidTa

def isEFDIRInfo (env : Env) (theOid : ObjectIdentifier) : Bool :=
  theOid == env.OidEfDir

/-- What a handler hands back: the descriptor after its appends (the Go code
mutates it through a pointer), the `handled` flag and the error. -/
abbrev HandlerResult := Outcome (SecurityInfos × Bool × Option Error)

/-- Message of `log.Panicf("PaceInfo version must be 2 (Version:%d)", v)`. -/
def paceVersionPanic (version : Int) : String :=
  "PaceInfo version must be 2 (Version:" ++ toString version ++ ")"

def handlePaceInfo (env : Env) (oid : ObjectIdentifier) (data : List Byte)
    (secInfos : SecurityInfos) : HandlerResult :=
  if !isPACEInfo env oid then .returned (secInfos, false, none)
  else
    match env.parsePaceInfo data with
    | .error err => .returned (secInfos, false, some err)
    | .ok paceInfo =>
      if paceInfo.Version ≠ 2 then .panicked (paceVersionPanic paceInfo.Version)
      else .returned ({ secInfos with PaceInfos := secInfos.PaceInfos ++ [paceInfo] }, true, none)

def handlePaceDomainParameterInfo (env : Env) (oid : ObjectIdentifier) (data : List Byte)
    (secInfos : SecurityInfos) : HandlerResult :=
  if !isPACEDomainParameterInfo env oid then .returned (secInfos, false, none)
  else
    match env.parsePaceDomainParameterInfo data with
    | .error err => .returned (secInfos, false, some err)
    | .ok paceDomainParamInfo =>
      .returned ({ secInfos with
        PaceDomainParamInfos := secInfos.PaceDomainParamInfos ++ [paceDomainParamInfo] },
        true, none)

def handleActiveAuthenticationInfo (env : Env) (oid : ObjectIdentifier) (data : List Byte)
    (secInfos : SecurityInfos) : HandlerResult :=
  if !isActiveAuthenticationInfo env oid then .returned (secInfos, false, none)
  else
    match env.parseActiveAuthenticationInfo data with
    | .error err => .returned (secInfos, false, some err)
    | .ok activeAuthInfo =>
      .returned ({ secInfos with
        ActiveAuthInfos := secInfos.ActiveAuthInfos ++ [activeAuthInfo] }, true, none)

def handleChipAuthenticationInfo (env : Env) (oid : ObjectIdentifier) (data : List Byte)
    (secInfos : SecurityInfos) : HandlerResult :=
  if !isChipAuthenticationInfo env oid then .returned (secInfos, false, none)
  else
    match env.parseChipAuthenticationInfo data with
    | .error err => .returned (secInfos, false, some err)
    | .ok chipAuthInfo =>
      .returned ({ secInfos with
        ChipAuthInfos := secInfos.ChipAuthInfos ++ [chipAuthInfo] }, true, none)

def handleChipAuthenticationPublicKeyInfo (env : Env) (oid : ObjectIdentifier)
    (data : List Byte) (secInfos : SecurityInfos) : HandlerResult :=
  if !isChipAuthenticationPublicKeyInfo env oid then .returned (secInfos, false, none)
  else
    match env.parseChipAuthenticationPublicKeyInfo data with
    | .error err => .returned (secInfos, false, some err)
    | .ok chipAuthPubKeyInfo =>
      .returned ({ secInfos with
        ChipAuthPubKeyInfos := secInfos.ChipAuthPubKeyInfos ++ [chipAuthPubKeyInfo] },
        true, none)

def handleTerminalAuthenticationInfo (env : Env) (oid : ObjectIdentifier) (data : List Byte)
    (secInfos : SecurityInfos) : HandlerResult :=
  if !isTerminalAuthenticationInfo env oid then .returned (secInfos, false, none)
  else
    match env.parseTerminalAuthenticationInfo data with
    | .error err => .returned (secInfos, false, some err)
    | .ok termAuthInfo =>
      .returned ({ secInfos with
        TermAuthInfos := secInfos.TermAuthInfos ++ [termAuthInfo] }, true, none)

def handleEfDirInfo (env : Env) (oid : ObjectIdentifier) (data : List Byte)
    (secInfos : SecurityInfos) : HandlerResult :=
  if !isEFDIRInfo env oid then .returned (secInfos, false, none)
  else
    match env.parseEFDirInfo data with
    | .error err => .returned (secInfos, false, some err)
    | .ok efDirInfo =>
      .returned ({ secInfos with EfDirInfos := secInfos.EfDirInfos ++ [efDirInfo] }, true, none)

def handleUnsupportedInfo (env : Env) (_oid : ObjectIdentifier) (data : List Byte)
    (secInfos : SecurityInfos) : HandlerResult :=
  match env.parseUnhandledInfo data with
  | .error err => .returned (secInfos, false, some err)
  | .ok unhandledInfo =>
    .returned ({ secInfos with
      UnhandledInfos := secInfos.UnhandledInfos ++ [unhandledInfo] }, true, none)

abbrev SecurityInfoHandlerFn :=
  ObjectIdentifier → List Byte → SecurityInfos → HandlerResult

def securityInfoHandleFnArr (env : Env) : List SecurityInfoHandlerFn :=
  [handlePaceInfo env,
   handlePaceDomainParameterInfo env,
   handleActiveAuthenticationInfo env,
   handleChipAuthenticationInfo env,
   handleChipAuthenticationPublicKeyInfo env,
   handleTerminalAuthenticationInfo env,
   handleEfDirInfo env,
   handleUnsupportedInfo env]

/-- Inner loop of `DecodeSecurityInfos` (`for _, handleFn := range ...`) for
one record, with `handled` starting false: stops at the first handler that
reports an error or returns `handled = true`. -/
def runHandlers : List SecurityInfoHandlerFn → ObjectIdentifier → List Byte →
    SecurityInfos → HandlerResult
  | [], _, _, secInfos => .returned (secInfos, false, none)
  | handleFn :: fns, oid, data, secInfos =>
    match handleFn oid data secInfos with
    | .panicked msg => .panicked msg
    | .returned (secInfos', handled, some err) => .returned (secInfos', handled, some err)
    | .returned (secInfos', true, none) => .returned (secInfos', true, none)
    | .returned (secInfos', false, none) => runHandlers fns oid data secInfos'

/-- Message of the panic that closes the record loop. -/
def notHandledPanic : String :=
  "secInfo should have been handled by at least one of the handlers (e.g. handleUnsupportedInfo)"

/-- Outer loop of `DecodeSecurityInfos` (`for i := range secInfoOids`) from the
descriptor built so far. -/
def processRecords (env : Env) : List SecurityInfoOid → SecurityInfos →
    Outcome (Option SecurityInfos × Option Error)
  | [], secInfos => .returned (some secInfos, none)
  | r :: rs, secInfos =>
    match runHandlers (securityInfoHandleFnArr env) r.Protocol r.Raw secInfos with
    | .panicked msg => .panicked msg
    | .returned (_, _, some err) => .returned (none, some err)
    | .returned (secInfos', handled, none) =>
      if !handled then .panicked notHandledPanic
      else processRecords env rs secInfos'

/-- The descriptor `&SecurityInfos{}` with `RawData` set to a copy of the
input. -/
def emptySecurityInfos (secInfoData : List Byte) : SecurityInfos :=
  { RawData := secInfoData, PaceInfos := [], PaceDomainParamInfos := [],
    ActiveAuthInfos := [], ChipAuthInfos := [], ChipAuthPubKeyInfos := [],
    TermAuthInfos := [], EfDirInfos := [], UnhandledInfos := [] }

def DecodeSecurityInfos (env : Env) (secInfoData : List Byte) :
    Outcome (Option SecurityInfos × Option Error) :=
  match env.parseOidSet secInfoData with
  | .error err => .returned (none, some err)
  | .ok secInfoOids => processRecords env secInfoOids (emptySecurityInfos secInfoData)

/-- Inner loop of `Contains`: is there a record with these raw bytes. -/
def isPresentIn (raw : List Byte) : List SecurityInfoOid → Bool
  | [] => false
  | tmpSecInfo :: rest => if raw = tmpSecInfo.Raw then true else isPresentIn raw rest

/-- Outer loop of `Contains`: false at the first candidate record that is not
present, true at the end. -/
def containsLoop (tmpSecInfos : List SecurityInfoOid) : List SecurityInfoOid → Bool
  | [] => true
  | tmpSubsetSecInfo :: rest =>
    if !isPresentIn tmpSubsetSecInfo.Raw tmpSecInfos then false
    else containsLoop tmpSecInfos rest

def SecurityInfos.Contains (env : Env) (secInfos subsetSecInfos : SecurityInfos) : Bool :=
  match env.parseOidSet secInfos.RawData with
  | .error _ => false
  | .ok tmpSecInfos =>
    match env.parseOidSet subsetSecInfos.RawData with
    | .error _ => false
    | .ok tmpSubsetSecInfos => containsLoop tmpSecInfos tmpSubsetSecInfos

def SecurityInfos.GetTotalCnt (secInfos : SecurityInfos) : Nat :=
  0 + secInfos.PaceInfos.length
    + secInfos.PaceDomainParamInfos.length
    + secInfos.ActiveAuthInfos.length
    + secInfos.ChipAuthInfos.length
    + secInfos.ChipAuthPubKeyInfos.length
    + secInfos.TermAuthInfos.length
    + secInfos.EfDirInfos.length
    + secInfos.UnhandledInfos.length

end document

namespace document

/-! ## Document files built on the TLV codec (`dg1.go`, `dg15.go`, EF.DIR) -/

def DG1Tag : Int := 0x61

/-- `Mrz` is the `*mrz.MRZ` returned by `mrz.MrzDecode`; its type is declared
outside the sample and is a parameter. -/
structure DG1 (MRZ : Type) where
  RawData : List Byte
  Mrz : Option MRZ

/-- `mrz.MrzDecode` is outside the sample and is a parameter. The list model
does not tell a nil slice from an empty one: `mrzBytes == nil` is read as
"no value bytes". -/
def NewDG1 {MRZ : Type} (MrzDecode : List Byte → Option MRZ × Option Error)
    (data : List Byte) : Option (DG1 MRZ) × Option Error :=
  if data.length < 1 then (none, none)
  else
    match tlv.Decode data with
    | .error err => (none, some (.wrapped "[NewDG1] error: " (.tlv err)))
    | .ok nodes =>
      let rootNode := tlv.TlvNodes.GetNode nodes DG1Tag
      if !rootNode.IsValidNode then (none, some (.text "root node (61) missing"))
      else
        let mrzBytes := (rootNode.GetNode 0x5f1f).GetValue
        if mrzBytes = [] then (none, some (.text "MRZ Tag (5F1F) missing"))
        else
          match MrzDecode mrzBytes with
          | (_, some err) => (none, some err)
          | (mrz, none) => (some { RawData := data, Mrz := mrz }, none)

def DG15Tag : Int := 0x6F

structure DG15 where
  RawData : List Byte
  SubjectPublicKeyInfoBytes : List Byte
deriving DecidableEq, Repr

def NewDG15 (data : List Byte) : Option DG15 × Option Error :=
  if data.length < 1 then (none, none)
  else
    match tlv.Decode data with
    | .error err => (none, some (.wrapped "[NewDG15] error: " (.tlv err)))
    | .ok nodes =>
      let rootNode := tlv.TlvNodes.GetNode nodes DG15Tag
      if !rootNode.IsValidNode then (none, some (.text "(NewDG15) root node (6f) missing"))
      else
        let spki := (rootNode.GetNode 0x30).Encode
        if spki.length < 1 then (none, some (.text "(NewDG15) missing SubjectPublicKeyInfo"))
        else (some { RawData := data, SubjectPublicKeyInfoBytes := spki }, none)

/-- Modelled from the spec: the missing `NewEFDIR` (`ef_dir.go` is not in the
sample), after its test `ef_dir_test.go` and its sibling constructors: no data
gives no document and no error, a TLV decode failure gives no document and the
error. What it builds from a decoded forest is not described and is the
parameter `build`. -/
def NewEFDIR {EFDIR : Type} (build : List Byte → tlv.TlvNodes → Option EFDIR × Option Error)
    (data : List Byte) : Option EFDIR × Option Error :=
  if data.length < 1 then (none, none)
  else
    match tlv.Decode data with
    | .error err => (none, some (.wrapped "[NewEFDIR] error: " (.tlv err)))
    | .ok nodes => build data nodes

end document

namespace tlv

/-! ## Shapes of buffers used to state the properties -/

/-- Continuation octets of a multi-byte tag: octets with the high bit set,
closed by one with the high bit clear. -/
def isTagTail : List Byte → Bool
  | [] => false
  | [b] => decide (b.val < 128)
  | b :: rest => decide (128 ≤ b.val) && isTagTail rest

/-- Tag octets of one element (X.690 8.1.2): one octet whose low five bits are
not all ones, or a leading octet with these bits all ones and its continuation
octets. -/
def isTagOctets : List Byte → Bool
  | [] => false
  | b :: rest => if b.val % 32 = 31 then isTagTail rest else decide (rest = [])

/-- Definite length octets allowed by BER for a length `n` (X.690 8.1.3): the
short form, or the long form on any number `k` of octets from 1 to 126, leading
zero octets included. -/
def IsBerLength (n : Nat) (l : List Byte) : Prop :=
  (n < 128 ∧ l = [Fin.ofNat n]) ∨
    (∃ body : List Byte, 1 ≤ body.length ∧ body.length ≤ 126 ∧
      l = Fin.ofNat (128 + body.length) :: body ∧ beNat body = n)

/-- Shortest definite length octets for a length `n` (the DER rule): the
short form below 128, otherwise the long form without a leading zero octet. -/
def IsMinimalLength (n : Nat) (l : List Byte) : Prop :=
  (n < 128 ∧ l = [Fin.ofNat n]) ∨
    (128 ≤ n ∧ ∃ b : Byte, ∃ body : List Byte, b.val ≠ 0 ∧ body.length ≤ 125 ∧
      l = Fin.ofNat (128 + (body.length + 1)) :: b :: body ∧ beNat (b :: body) = n)

/-- Well-formed definite-length TLV buffers: a sequence of elements, each made
of tag octets, length octets accepted by `LenOk` for the number of value
octets, and the value octets; the value of a constructed element is itself
such a sequence. -/
inductive TlvBuffer (LenOk : Nat → List Byte → Prop) : List Byte → Prop where
  | nil : TlvBuffer LenOk []
  | primitive (t l v rest : List Byte) :
      isTagOctets t = true → constructedBit t = false → LenOk v.length l →
      TlvBuffer LenOk rest → TlvBuffer LenOk (t ++ l ++ v ++ rest)
  | constructed (t l v rest : List Byte) :
      isTagOctets t = true → constructedBit t = true → LenOk v.length l →
      TlvBuffer LenOk v → TlvBuffer LenOk rest → TlvBuffer LenOk (t ++ l ++ v ++ rest)

/-- Buffers in which some element declares a definite length greater than the
number of bytes that remain after its header. `indef` tells whether the buffer
is read as the content of an indefinite-length element, where a leading `00 00`
is the terminator and not an element.

* `here`: the first element overruns;
* `later`: the first element has a definite length that fits, and an element
  after it overruns;
* `inside`: the first element is constructed with a definite length that
  fits, and an element of its value overruns;
* `insideIndef`: the first element is constructed with indefinite length, and
  an element of its content overruns;
* `laterIndef`: the first element is constructed with indefinite length, its
  content decodes up to its terminator, and an element after the terminator
  overruns. -/
inductive Overrun : Bool → List Byte → Prop where
  | here (indef : Bool) (buf : List Byte) (tag : Int) (len : Nat) (rest : List Byte) :
      ¬ (indef = true ∧ buf.take 2 = [0, 0]) →
      GetTagAndLength buf = .ok (tag, .definite len, rest) → rest.length < len →
      Overrun indef buf
  | later (indef : Bool) (buf : List Byte) (tag : Int) (len : Nat) (rest : List Byte) :
      ¬ (indef = true ∧ buf.take 2 = [0, 0]) →
      GetTagAndLength buf = .ok (tag, .definite len, rest) → len ≤ rest.length →
      Overrun indef (rest.drop len) → Overrun indef buf
  | inside (indef : Bool) (buf : List Byte) (tag : Int) (len : Nat) (rest : List Byte) :
      ¬ (indef = true ∧ buf.take 2 = [0, 0]) →
      GetTagAndLength buf = .ok (tag, .definite len, rest) → len ≤ rest.length →
      constructedBit buf = true → Overrun false (rest.take len) → Overrun indef buf
  | insideIndef (indef : Bool) (buf : List Byte) (tag : Int) (rest : List Byte) :
      ¬ (indef = true ∧ buf.take 2 = [0, 0]) →
      GetTagAndLength buf = .ok (tag, .indefinite, rest) →
      constructedBit buf = true → Overrun true rest → Overrun indef buf
  | laterIndef (indef : Bool) (buf : List Byte) (tag : Int) (rest : List Byte)
      (children : List TlvNode) (rest' : List Byte) :
      ¬ (indef = true ∧ buf.take 2 = [0, 0]) →
      GetTagAndLength buf = .ok (tag, .indefinite, rest) →
      constructedBit buf = true →
      decodeNodes (rest.length + 1) true rest = .ok (children, rest') →
      Overrun indef rest' → Overrun indef buf

/-- The buffer of `TestDecodeAndEncode`. -/
def testRoundTripData : List Byte :=
  [0x31, 0x28, 0x30, 0x12, 0x06, 0x0a, 0x04, 0x00, 0x7f, 0x00, 0x07, 0x02, 0x02, 0x04, 0x02,
   0x04, 0x02, 0x01, 0x02, 0x02, 0x01, 0x10, 0x30, 0x12, 0x06, 0x0a, 0x04, 0x00, 0x7f, 0x00,
   0x07, 0x02, 0x02, 0x04, 0x06, 0x04, 0x02, 0x01, 0x02, 0x02, 0x01, 0x10]

/-- The buffer of `TestDecodeAndAccess`. -/
def testAccessData : List Byte :=
  [0x70, 0x11, 0x02, 0x03, 0x12, 0x34, 0x56, 0xA0, 0x0A, 0x01, 0x02, 0x78, 0x90,
   0x02, 0x01, 0x45, 0x01, 0x01, 0x67]

/-- The buffer of `TestNewEfDirBadTlv`: declares 16 value bytes, 2 follow. -/
def testBadTlv : List Byte := [0x02, 0x10, 0x12, 0x34]

end tlv

namespace document

/-! ## A concrete stand-in for the outside packages, to run the classifier -/

/-- Record format of the stand-in parser: one count octet `n`, then `n` arcs of
the identifier (one octet each), then one version octet. -/
def sampleRecords : Nat → List Byte → Except Error (List SecurityInfoOid)
  | 0, _ => .error (.asn1 "out of fuel")
  | _ + 1, [] => .ok []
  | fuel + 1, n :: rest =>
    if rest.length < n.val + 1 then .error (.asn1 "truncated record")
    else
      match sampleRecords fuel (rest.drop (n.val + 1)) with
      | .error e => .error e
      | .ok rs =>
        .ok ({ Raw := n :: rest.take (n.val + 1),
               Protocol := (rest.take n.val).map (fun b => b.val) } :: rs)

/-- Stand-in for the sniffing call of `utils.ParseAsn1`: an empty buffer is
not a record set. -/
def sampleParseOidSet (data : List Byte) : Except Error (List SecurityInfoOid) :=
  if data = [] then .error (.asn1 "empty input") else sampleRecords (data.length + 1) data

/-- Identifier arcs of a record of the stand-in format. -/
def sampleProtocol (raw : List Byte) : ObjectIdentifier :=
  ((raw.drop 1).take (raw.headD 0).val).map (fun b => b.val)

/-- Version octet of a record of the stand-in format; a version octet above
127 does not decode. -/
def sampleVersion (raw : List Byte) : Except Error Int :=
  match raw.drop ((raw.headD 0).val + 1) with
  | [v] => if v.val < 128 then .ok (v.val : Int) else .error (.asn1 "structure error")
  | _ => .error (.asn1 "structure error")

/-- A stand-in for package `oid` and `utils.ParseAsn1`, used to evaluate the
classifier on concrete records: the identifiers of ICAO Doc 9303 part 11,
`OidHasPrefix` as "starts with", and the record format of `sampleRecords`. -/
def sampleEnv : Env where
  OidPaceDhGm := [0, 4, 0, 127, 0, 7, 2, 2, 4, 1]
  OidPaceEcdhGm := [0, 4, 0, 127, 0, 7, 2, 2, 4, 2]
  OidPaceDhIm := [0, 4, 0, 127, 0, 7, 2, 2, 4, 3]
  OidPaceEcdhIm := [0, 4, 0, 127, 0, 7, 2, 2, 4, 4]
  OidPaceEcdhCam := [0, 4, 0, 127, 0, 7, 2, 2, 4, 6]
  OidIcaoMrtdSecurityAaProtocolObject := [2, 23, 136, 1, 1, 5]
  OidCaDh := [0, 4, 0, 127, 0, 7, 2, 2, 3, 1]
  OidCaEcdh := [0, 4, 0, 127, 0, 7, 2, 2, 3, 2]
  OidPkDh := [0, 4, 0, 127, 0, 7, 2, 2, 1, 1]
  OidPkEcdh := [0, 4, 0, 127, 0, 7, 2, 2, 1, 2]
  OidTa := [0, 4, 0, 127, 0, 7, 2, 2, 2]
  OidEfDir := [2, 23, 136, 1, 1, 13]
  OidHasPrefix := fun theOid pre => pre.isPrefixOf theOid
  parseOidSet := sampleParseOidSet
  parsePaceInfo := fun raw =>
    match sampleVersion raw with
    | .error e => .error e
    | .ok v => .ok { Raw := raw, Protocol := sampleProtocol raw, Version := v, ParameterId := none }
  parsePaceDomainParameterInfo := fun raw =>
    .ok { Raw := raw, Protocol := sampleProtocol raw, DomainParameter := ⟨raw⟩,
          ParameterId := none }
  parseActiveAuthenticationInfo := fun raw =>
    match sampleVersion raw with
    | .error e => .error e
    | .ok v => .ok { Raw := raw, Protocol := sampleProtocol raw, Version := v,
                     SignatureAlgorithm := [] }
  parseChipAuthenticationInfo := fun raw =>
    match sampleVersion raw with
    | .error e => .error e
    | .ok v => .ok { Raw := raw, Protocol := sampleProtocol raw, Version := v, KeyId := none }
  parseChipAuthenticationPublicKeyInfo := fun raw =>
    .ok { Raw := raw, Protocol := sampleProtocol raw, ChipAuthenticationPublicKey := ⟨raw⟩,
          KeyId := none }
  parseTerminalAuthenticationInfo := fun raw =>
    match sampleVersion raw with
    | .error e => .error e
    | .ok v => .ok { Raw := raw, Protocol := sampleProtocol raw, Version := v }
  parseEFDirInfo := fun raw => .ok { Raw := raw, Protocol := sampleProtocol raw, EFDir := raw }
  parseUnhandledInfo := fun raw => .ok { Raw := raw, Protocol := sampleProtocol raw }

/-- A PACE record (id-PACE-ECDH-GM-AES-CBC-CMAC-128), version 2. -/
def samplePaceRecord : List Byte := [11, 0, 4, 0, 127, 0, 7, 2, 2, 4, 2, 2, 2]

/-- The same PACE record with version 1. -/
def samplePaceRecordV1 : List Byte := [11, 0, 4, 0, 127, 0, 7, 2, 2, 4, 2, 2, 1]

/-- A record whose identifier is exactly id-PACE-ECDH-GM, version 2. -/
def samplePaceRootRecord : List Byte := [10, 0, 4, 0, 127, 0, 7, 2, 2, 4, 2, 2]

/-- A Terminal-Authentication record (id-TA), version 1. -/
def sampleTaRecord : List Byte := [9, 0, 4, 0, 127, 0, 7, 2, 2, 2, 1]

/-- A record with an identifier no handler knows. -/
def sampleUnknownRecord : List Byte := [3, 1, 2, 3, 0]

/-- A Chip-Authentication record that is sniffed but whose structured decode
fails (version octet above 127). -/
def sampleBadCaRecord : List Byte := [11, 0, 4, 0, 127, 0, 7, 2, 2, 3, 2, 2, 255]


/-- Three records: PACE, Terminal Authentication, unknown. -/
def sampleInput : List Byte := samplePaceRecord ++ sampleTaRecord ++ sampleUnknownRecord

/-- The descriptor that `DecodeSecurityInfos sampleEnv` returns for
`sampleInput`. -/
def sampleDescriptor : SecurityInfos :=
  { emptySecurityInfos sampleInput with
    PaceInfos := [{ Raw := samplePaceRecord, Protocol := [0, 4, 0, 127, 0, 7, 2, 2, 4, 2, 2],
                    Version := 2, ParameterId := none }],
    TermAuthInfos := [{ Raw := sampleTaRecord, Protocol := [0, 4, 0, 127, 0, 7, 2, 2, 2],
                        Version := 1 }],
    UnhandledInfos := [{ Raw := sampleUnknownRecord, Protocol := [1, 2, 3] }] }



/-- A handler that returns without taking the record leaves the descriptor as
it was; one that takes it reports no error, keeps `RawData` and adds exactly
one entry. -/
def HandlerOk (h : SecurityInfoHandlerFn) : Prop :=
  ∀ oid data s s' hd e, h oid data s = .returned (s', hd, e) →
    (hd = false → s' = s) ∧
    (hd = true → e = none ∧ s'.GetTotalCnt = s.GetTotalCnt + 1 ∧ s'.RawData = s.RawData)

/-- Position, in `securityInfoHandleFnArr`, of the first handler whose
predicate holds for the identifier (7, the catch-all, when none does). -/
def handlerIndex (env : Env) (oid : ObjectIdentifier) : Nat :=
  if isPACEInfo env oid then 0
  else if isPACEDomainParameterInfo env oid then 1
  else if isActiveAuthenticationInfo env oid then 2
  else if isChipAuthenticationInfo env oid then 3
  else if isChipAuthenticationPublicKeyInfo env oid then 4
  else if isTerminalAuthenticationInfo env oid then 5
  else if isEFDIRInfo env oid then 6
  else 7

/-- The error of a failed call, none for a successful one. -/
def errorOf {α : Type} : Except Error α → Option Error
  | .error e => some e
  | .ok _ => none

/-- The error, if any, of the structured decode made by the handler that a
record is dispatched to: the first handler whose predicate holds for its
identifier. -/
def matchedDecodeError (env : Env) (r : SecurityInfoOid) : Option Error :=
  if isPACEInfo env r.Protocol then errorOf (env.parsePaceInfo r.Raw)
  else if isPACEDomainParameterInfo env r.Protocol then
    errorOf (env.parsePaceDomainParameterInfo r.Raw)
  else if isActiveAuthenticationInfo env r.Protocol then
    errorOf (env.parseActiveAuthenticationInfo r.Raw)
  else if isChipAuthenticationInfo env r.Protocol then
    errorOf (env.parseChipAuthenticationInfo r.Raw)
  else if isChipAuthenticationPublicKeyInfo env r.Protocol then
    errorOf (env.parseChipAuthenticationPublicKeyInfo r.Raw)
  else if isTerminalAuthenticationInfo env r.Protocol then
    errorOf (env.parseTerminalAuthenticationInfo r.Raw)
  else if isEFDIRInfo env r.Protocol then errorOf (env.parseEFDirInfo r.Raw)
  else errorOf (env.parseUnhandledInfo r.Raw)

/-- Length of the list of the descriptor that the handler at position `k` of
`securityInfoHandleFnArr` appends to. -/
def SecurityInfos.listLength (secInfos : SecurityInfos) : Nat → Nat
  | 0 => secInfos.PaceInfos.length
  | 1 => secInfos.PaceDomainParamInfos.length
  | 2 => secInfos.ActiveAuthInfos.length
  | 3 => secInfos.ChipAuthInfos.length
  | 4 => secInfos.ChipAuthPubKeyInfos.length
  | 5 => secInfos.TermAuthInfos.length
  | 6 => secInfos.EfDirInfos.length
  | 7 => secInfos.UnhandledInfos.length
  | _ => 0

/-- The descriptor after the PACE record of `sampleInput`. -/
def sampleAfterPace (data : List Byte) : SecurityInfos :=
  { emptySecurityInfos data with
    PaceInfos := [{ Raw := samplePaceRecord, Protocol := [0, 4, 0, 127, 0, 7, 2, 2, 4, 2, 2],
                    Version := 2, ParameterId := none }] }

/-- Three records, the second of which does not decode. -/
def sampleBadInput : List Byte := samplePaceRecord ++ sampleBadCaRecord ++ sampleTaRecord

/-- Three records, the second of which is a PACE record with version 1. -/
def sampleVersionInput : List Byte := samplePaceRecord ++ samplePaceRecordV1 ++ sampleTaRecord

end document

namespace document

/-! ## DG13 (`dg13.go`) -/

def DG13Tag : Int := 0x6D

structure DG13 where
  RawData : List Byte
  Content : List Byte
deriving DecidableEq, Repr

/-- The conversion `int(length)` of `dg13.go`. The integer type behind the
missing `tlv.TlvLength` is not described: a definite length converts to its
byte count, and the integer standing for the indefinite form is the parameter
`indefinite`. -/
def lengthToInt (indefinite : Int) : tlv.TlvLength → Int
  | .definite n => (n : Int)
  | .indefinite => indefinite

/-- `utils.GetBytesFromBuffer` is outside the sample and is the parameter
`GetBytesFromBuffer`: from the unread bytes and a count, the bytes taken or an
error. `tmpBuf` is the buffer after `tlv.GetTagAndLength` has read the header. -/
def NewDG13 (GetBytesFromBuffer : List Byte → Int → Except Error (List Byte))
    (indefinite : Int) (data : List Byte) : Option DG13 × Option Error :=
  if data.length < 1 then (none, none)
  else
    match tlv.GetTagAndLength data with
    | .error err => (none, some (.wrapped "[NewDG13] GetTagAndLength error: " (.tlv err)))
    | .ok (tag, length, tmpBuf) =>
      if tag ≠ DG13Tag then
        (none, some (.text ("(NewDG13) invalid root tag (Exp:6d, Act:"
          ++ tlv.hexOfNat tag.toNat ++ ")")))
      else
        match GetBytesFromBuffer tmpBuf (lengthToInt indefinite length) with
        | .error err => (none, some (.wrapped "[NewDG13] ByteBuffer error: " err))
        | .ok content => (some { RawData := data, Content := content }, none)

/-! ## Package `oid` as the spec describes it -/

/-- Modelled from the spec: the missing `oid.OidHasPrefix`, read as "the
identifier is a child under the branch" (comments of `isPACEInfo` and
`isChipAuthenticationInfo`, spec section 4.3): the identifier starts with the
arcs of the branch and has at least one more arc. -/
def OidHasPrefix (theOid pre : ObjectIdentifier) : Bool :=
  decide (pre.length < theOid.length) && pre.isPrefixOf theOid

/-- The five PACE protocol root identifiers. -/
def paceRoots (env : Env) : List ObjectIdentifier :=
  [env.OidPaceDhGm, env.OidPaceEcdhGm, env.OidPaceDhIm, env.OidPaceEcdhIm, env.OidPaceEcdhCam]

/-- The stand-in `sampleEnv` with `OidHasPrefix` as the spec describes it. -/
def sampleEnvChild : Env := { sampleEnv with OidHasPrefix := OidHasPrefix }

/-- Two records: a PACE record, then a record whose identifier is exactly
id-PACE-ECDH-GM. -/
def sampleRootInput : List Byte := samplePaceRecord ++ samplePaceRootRecord

/-- Two records: a PACE record, then a record with an unknown identifier. -/
def sampleUnknownInput : List Byte := samplePaceRecord ++ sampleUnknownRecord

end document

namespace document

/-! ## The entries of the eight lists, seen as one type -/

/-- An entry of one of the eight lists of the descriptor. -/
inductive Entry where
  | pace (e : PaceInfo)
  | paceDomainParam (e : PaceDomainParameterInfo)
  | activeAuth (e : ActiveAuthenticationInfo)
  | chipAuth (e : ChipAuthenticationInfo)
  | chipAuthPubKey (e : ChipAuthenticationPublicKeyInfo)
  | termAuth (e : TerminalAuthenticationInfo)
  | efDir (e : EFDirInfo)
  | unhandled (e : UnhandledInfo)
deriving DecidableEq, Repr

/-- The entries of the list that the handler at position `k` of
`securityInfoHandleFnArr` appends to, in list order. -/
def SecurityInfos.entries (secInfos : SecurityInfos) : Nat → List Entry
  | 0 => secInfos.PaceInfos.map Entry.pace
  | 1 => secInfos.PaceDomainParamInfos.map Entry.paceDomainParam
  | 2 => secInfos.ActiveAuthInfos.map Entry.activeAuth
  | 3 => secInfos.ChipAuthInfos.map Entry.chipAuth
  | 4 => secInfos.ChipAuthPubKeyInfos.map Entry.chipAuthPubKey
  | 5 => secInfos.TermAuthInfos.map Entry.termAuth
  | 6 => secInfos.EfDirInfos.map Entry.efDir
  | 7 => secInfos.UnhandledInfos.map Entry.unhandled
  | _ => []

/-- The value of a successful call, none for a failed one. -/
def valueOf {α : Type} : Except Error α → Option α
  | .error _ => none
  | .ok a => some a

/-- The entry that the handler a record is dispatched to decodes from it: the
structured decode of the first handler whose predicate holds for the
identifier of the record. -/
def decodeEntry (env : Env) (r : SecurityInfoOid) : Option Entry :=
  if isPACEInfo env r.Protocol then
    (valueOf (env.parsePaceInfo r.Raw)).map Entry.pace
  else if isPACEDomainParameterInfo env r.Protocol then
    (valueOf (env.parsePaceDomainParameterInfo r.Raw)).map Entry.paceDomainParam
  else if isActiveAuthenticationInfo env r.Protocol then
    (valueOf (env.parseActiveAuthenticationInfo r.Raw)).map Entry.activeAuth
  else if isChipAuthenticationInfo env r.Protocol then
    (valueOf (env.parseChipAuthenticationInfo r.Raw)).map Entry.chipAuth
  else if isChipAuthenticationPublicKeyInfo env r.Protocol then
    (valueOf (env.parseChipAuthenticationPublicKeyInfo r.Raw)).map Entry.chipAuthPubKey
  else if isTerminalAuthenticationInfo env r.Protocol then
    (valueOf (env.parseTerminalAuthenticationInfo r.Raw)).map Entry.termAuth
  else if isEFDIRInfo env r.Protocol then
    (valueOf (env.parseEFDirInfo r.Raw)).map Entry.efDir
  else (valueOf (env.parseUnhandledInfo r.Raw)).map Entry.unhandled

/-- A second PACE record (id-PACE-ECDH-GM-AES-CBC-CMAC-256), version 2. -/
def samplePaceRecord256 : List Byte := [11, 0, 4, 0, 127, 0, 7, 2, 2, 4, 2, 4, 2]

/-- Four records: PACE, Terminal Authentication, unknown, PACE. -/
def sampleOrderInput : List Byte :=
  samplePaceRecord ++ sampleTaRecord ++ sampleUnknownRecord ++ samplePaceRecord256

/-- The records that the stand-in parser sniffs from `sampleOrderInput`. -/
def sampleOrderRecords : List SecurityInfoOid :=
  [⟨samplePaceRecord, [0, 4, 0, 127, 0, 7, 2, 2, 4, 2, 2]⟩,
   ⟨sampleTaRecord, [0, 4, 0, 127, 0, 7, 2, 2, 2]⟩,
   ⟨sampleUnknownRecord, [1, 2, 3]⟩,
   ⟨samplePaceRecord256, [0, 4, 0, 127, 0, 7, 2, 2, 4, 2, 4]⟩]

/-- The descriptor that `DecodeSecurityInfos sampleEnv` returns for
`sampleOrderInput`. -/
def sampleOrderDescriptor : SecurityInfos :=
  { emptySecurityInfos sampleOrderInput with
    PaceInfos := [{ Raw := samplePaceRecord, Protocol := [0, 4, 0, 127, 0, 7, 2, 2, 4, 2, 2],
                    Version := 2, ParameterId := none },
                  { Raw := samplePaceRecord256,
                    Protocol := [0, 4, 0, 127, 0, 7, 2, 2, 4, 2, 4],
                    Version := 2, ParameterId := none }],
    TermAuthInfos := [{ Raw := sampleTaRecord, Protocol := [0, 4, 0, 127, 0, 7, 2, 2, 2],
                        Version := 1 }],
    UnhandledInfos := [{ Raw := sampleUnknownRecord, Protocol := [1, 2, 3] }] }

end document

namespace tlv

/-! ## Chains of lookups and unterminated elements -/

/-- One lookup call of the navigation API. -/
inductive Lookup where
  | GetNode (tag : Int)
  | GetNodeByOccur (tag : Int) (occurrence : Int)
deriving DecidableEq, Repr

/-- The lookup, run over a list of nodes (a forest, or the children of a
node). -/
def Lookup.run : Lookup → List TlvNode → TlvNode
  | .GetNode tag, nodes => TlvNodes.GetNode nodes tag
  | .GetNodeByOccur tag occurrence, nodes => TlvNodes.GetNodeByOccur nodes tag occurrence

/-- The lookup, called on a node. -/
def Lookup.onNode : Lookup → TlvNode → TlvNode
  | .GetNode tag, node => node.GetNode tag
  | .GetNodeByOccur tag occurrence, node => node.GetNodeByOccur tag occurrence

/-- A lookup hits on a list of nodes when the node it asks for exists: some
node has the tag, or at least `occurrence >= 1` nodes have it. -/
def Lookup.hits : Lookup → List TlvNode → Bool
  | .GetNode tag, nodes => decide (0 < (nodes.filter (fun c => decide (c.GetTag = tag))).length)
  | .GetNodeByOccur tag occurrence, nodes =>
    decide (1 ≤ occurrence ∧
      (occurrence - 1).toNat < (nodes.filter (fun c => decide (c.GetTag = tag))).length)

/-- A chain of lookups `start.l1(..).l2(..)...`, each called on the result of
the one before. -/
def chain (start : TlvNode) (ls : List Lookup) : TlvNode :=
  ls.foldl (fun node l => l.onNode node) start

/-- All the lookups of a chain hit, each on the children of the node the one
before returned. -/
def chainHits (start : TlvNode) : List Lookup → Bool
  | [] => true
  | l :: ls => l.hits start.children && chainHits (l.onNode start) ls

mutual
/-- The sentinel occurs nowhere in the tree of the node. -/
def TlvNode.hasNoSentinel : TlvNode → Bool
  | .simple _ _ => true
  | .constructed _ children => noSentinel children
  | .nilNode => false
/-- The sentinel occurs nowhere in the trees of the nodes. -/
def noSentinel : List TlvNode → Bool
  | [] => true
  | n :: rest => n.hasNoSentinel && noSentinel rest
end

/-- Buffers in which the content of some indefinite-length element reaches the
end of the enclosing buffer without a `00 00` terminator. `indef` tells
whether the buffer is read as the content of an indefinite-length element.

* `atEnd`: the content of an indefinite-length element has fewer than two
  bytes left: there is no terminator;
* `later`: the first element has a definite length that fits, and what
  follows it is as described;
* `inside`: the first element is constructed with a definite length that
  fits, and its value is as described;
* `insideIndef`: the first element is constructed with indefinite length, and
  its content is as described (it runs to the end of the buffer);
* `laterIndef`: the first element is constructed with indefinite length, its
  content decodes up to its terminator, and what follows is as described. -/
inductive MissingTerminator : Bool → List Byte → Prop where
  | atEnd (buf : List Byte) : buf.length < 2 → MissingTerminator true buf
  | later (indef : Bool) (buf : List Byte) (tag : Int) (len : Nat) (rest : List Byte) :
      ¬ (indef = true ∧ buf.take 2 = [0, 0]) →
      GetTagAndLength buf = .ok (tag, .definite len, rest) → len ≤ rest.length →
      MissingTerminator indef (rest.drop len) → MissingTerminator indef buf
  | inside (indef : Bool) (buf : List Byte) (tag : Int) (len : Nat) (rest : List Byte) :
      ¬ (indef = true ∧ buf.take 2 = [0, 0]) →
      GetTagAndLength buf = .ok (tag, .definite len, rest) → len ≤ rest.length →
      constructedBit buf = true → MissingTerminator false (rest.take len) →
      MissingTerminator indef buf
  | insideIndef (indef : Bool) (buf : List Byte) (tag : Int) (rest : List Byte) :
      ¬ (indef = true ∧ buf.take 2 = [0, 0]) →
      GetTagAndLength buf = .ok (tag, .indefinite, rest) →
      constructedBit buf = true → MissingTerminator true rest → MissingTerminator indef buf
  | laterIndef (indef : Bool) (buf : List Byte) (tag : Int) (rest : List Byte)
      (children : List TlvNode) (rest' : List Byte) :
      ¬ (indef = true ∧ buf.take 2 = [0, 0]) →
      GetTagAndLength buf = .ok (tag, .indefinite, rest) →
      constructedBit buf = true →
      decodeNodes (rest.length + 1) true rest = .ok (children, rest') →
      MissingTerminator indef rest' → MissingTerminator indef buf

/-- An indefinite-length element without terminator: `A0 80 01 01 FF`. -/
def testNoTerminator : List Byte := [0xA0, 0x80, 0x01, 0x01, 0xFF]

/-- The buffer of `TestDecodeAndAccessIndefiniteLength`. -/
def testIndefData : List Byte :=
  [0x70, 0x19, 0x02, 0x03, 0x12, 0x34, 0x56, 0xA0, 0x80, 0x01, 0x02, 0x78, 0x90,
   0x02, 0x01, 0x45, 0x01, 0x01, 0x67, 0x00, 0x00, 0xA0, 0x04, 0x01, 0x02, 0x12, 0x34]

/-- The forest that `Decode` returns for `testIndefData` (and for the
definite-length `testIndefReencoded`). -/
def testIndefForest : TlvNodes :=
  [.constructed 0x70
    [.simple 0x02 [0x12, 0x34, 0x56],
     .constructed 0xA0 [.simple 0x01 [0x78, 0x90], .simple 0x02 [0x45], .simple 0x01 [0x67]],
     .constructed 0xA0 [.simple 0x01 [0x12, 0x34]]]]

/-- The definite-length encoding of `testIndefForest`. -/
def testIndefReencoded : List Byte :=
  [0x70, 0x17, 0x02, 0x03, 0x12, 0x34, 0x56, 0xA0, 0x0A, 0x01, 0x02, 0x78, 0x90,
   0x02, 0x01, 0x45, 0x01, 0x01, 0x67, 0xA0, 0x04, 0x01, 0x02, 0x12, 0x34]

/-- The forest that `Decode` returns for `testAccessData`. -/
def testAccessForest : TlvNodes :=
  [.constructed 0x70
    [.simple 0x02 [0x12, 0x34, 0x56],
     .constructed 0xA0 [.simple 0x01 [0x78, 0x90], .simple 0x02 [0x45], .simple 0x01 [0x67]]]]

end tlv

namespace document

/-! ## Reading the content of DG13 -/

/-- What `NewDG13` expects of `utils.GetBytesFromBuffer`, which is outside the
sample: asked for `n` bytes, it returns the next `n` bytes of the buffer when
that many are left, and an error when fewer are. -/
def ReadsBytes (GetBytesFromBuffer : List Byte → Int → Except Error (List Byte)) : Prop :=
  ∀ (buf : List Byte) (n : Nat),
    (n ≤ buf.length → GetBytesFromBuffer buf (n : Int) = .ok (buf.take n)) ∧
    (buf.length < n → ∃ err, GetBytesFromBuffer buf (n : Int) = .error err)

/-- A stand-in for `utils.GetBytesFromBuffer`, used to evaluate `NewDG13` on
concrete buffers. -/
def sampleGetBytes (buf : List Byte) (n : Int) : Except Error (List Byte) :=
  if n < 0 ∨ (buf.length : Int) < n then .error (.text "insufficient bytes in buffer")
  else .ok (buf.take n.toNat)

/-- A DG13 file: root `6D`, three content bytes that are not TLV, and one byte
after the content. -/
def testDG13 : List Byte := [0x6D, 0x03, 0xAA, 0xBB, 0xCC, 0xDD]

/-- A candidate with two of the three records of `sampleInput`, in another
order. -/
def sampleSubset : SecurityInfos := emptySecurityInfos (sampleUnknownRecord ++ samplePaceRecord)

/-- A candidate with one record of `sampleSubset`. -/
def sampleSubSubset : SecurityInfos := emptySecurityInfos samplePaceRecord

end document

namespace iso7816

/-! ## Response APDU (`iso7816/rapdu.go`) -/

def RAPDU_STATUS_SUCCESS : Nat := 0x9000
def RAPDU_STATUS_SELECTED_FILE_INVALIDATED : Nat := 0x6283
def RAPDU_SECURITY_CONDITION_NOT_SATIFIED : Nat := 0x6982
def RAPDU_STATUS_FUNCTION_NOT_SUPPORTED : Nat := 0x6A81
def RAPDU_STATUS_FILENOTFOUND : Nat := 0x6A82
def RAPDU_STATUS_INCORRECT_P1_OR_P2_PARAMETER : Nat := 0x6A86

/-- An R-APDU. `Status` is a Go `uint16`, a number below `65536`: `ParseRApdu`
only produces such values, and the theorems about `NewRApdu` take a status in
that range. -/
structure RApdu where
  Data : List Byte
  Status : Nat
deriving DecidableEq, Repr

def NewRApdu (status : Nat) (data : List Byte) : RApdu :=
  { Status := status, Data := data }

def RApdu.IsSuccess (apdu : RApdu) : Bool :=
  apdu.Status == RAPDU_STATUS_SUCCESS

def RApdu.FileNotFound (apdu : RApdu) : Bool :=
  apdu.Status == RAPDU_STATUS_FILENOTFOUND

/-- Go `binary.BigEndian.Uint16(b)`: `uint16(b[1]) | uint16(b[0])<<8`. It is
only called on slices of two bytes. -/
def BigEndianUint16 : List Byte → Nat
  | b0 :: b1 :: _ => (b1.val ||| (b0.val <<< 8)) % 65536
  | _ => 0

def ParseRApdu (data : List Byte) : Option RApdu × Option Error :=
  if data.length < 2 then
    (none, some (.text ("rApdu length must be >= 2 (Length:" ++ toString data.length ++ ")")))
  else
    (some { Status := BigEndianUint16 (data.drop (data.length - 2)),
            Data := data.take (data.length - 2) }, none)

/-- `utils.UInt16ToBytes` is outside the sample and is the parameter
`UInt16ToBytes`. -/
def RApdu.Encode (UInt16ToBytes : Nat → List Byte) (rApdu : RApdu) : List Byte :=
  rApdu.Data ++ UInt16ToBytes rApdu.Status

/-- The two bytes of a 16-bit number, most significant first: what the round
trip expects of `utils.UInt16ToBytes`. -/
def bigEndian16 (s : Nat) : List Byte := [Fin.ofNat (s / 256), Fin.ofNat (s % 256)]

end iso7816

namespace tlv

/-! ## Lookups on the node model -/

/-- The scan of `GetNodeByOccur`, started with `cur` matches already counted,
returns the match number `occurrence - cur` of the list, and the sentinel when
the count is already at or past `occurrence` or the matches run out. -/
theorem scanOccur_eq (tag : Int) (occurrence : Int) (l : List TlvNode) (cur : Int) :
    scanOccur tag occurrence l cur =
      if cur < occurrence then
        ((l.filter (fun c => decide (c.GetTag = tag)))[(occurrence - cur - 1).toNat]?).getD
          NewTlvNilNode
      else NewTlvNilNode := by
  induction l generalizing cur with
  | nil => simp [scanOccur]
  | cons n rest ih =>
    unfold scanOccur
    by_cases ht : n.GetTag = tag
    · simp only [ht, if_true, List.filter_cons, decide_True]
      by_cases h1 : cur + 1 = occurrence
      · have h2 : cur < occurrence := by omega
        have h3 : (occurrence - cur - 1).toNat = 0 := by omega
        simp [h1, h2, h3]
      · rw [if_neg h1, ih]
        by_cases h2 : cur < occurrence
        · have h4 : cur + 1 < occurrence := by omega
          have h5 : (occurrence - cur - 1).toNat = (occurrence - (cur + 1) - 1).toNat + 1 := by
            omega
          simp [h2, h4, h5]
        · have h4 : ¬ cur + 1 < occurrence := by omega
          simp [h2, h4]
    · simp only [ht, if_false, List.filter_cons, decide_False, Bool.false_eq_true]
      exact ih cur

theorem scanOccur_one (tag : Int) (l : List TlvNode) :
    scanOccur tag 1 l 0 = firstWithTag tag l := by
  induction l with
  | nil => rfl
  | cons n rest ih =>
    unfold scanOccur firstWithTag
    by_cases ht : n.GetTag = tag
    · simp [ht]
    · simp [ht, ih]

theorem firstWithTag_eq (tag : Int) (l : List TlvNode) :
    firstWithTag tag l
      = ((l.filter (fun c => decide (c.GetTag = tag))).head?).getD NewTlvNilNode := by
  induction l with
  | nil => rfl
  | cons n rest ih =>
    unfold firstWithTag
    by_cases ht : n.GetTag = tag
    · simp [ht]
    · simp [ht, ih]

/-- **C8** Occurrence indexing: `GetNodeByOccur(t, n)`, on a node and on a
forest, is the n-th (1-indexed) immediate child with tag `t` in child order
when `n >= 1` and at least `n` such children exist, and the sentinel otherwise;
a primitive or sentinel receiver gives the sentinel; a valid result is one of
the immediate children. On children tagged `[01, 02, 01]` with values `7890`,
`45`, `67`: occurrence 1 of `01` is `7890`, occurrence 2 of `01` is `67`,
occurrence 3 of `01` and occurrence 2 of `02` are the sentinel. -/
theorem GetNodeByOccur_nth :
    (∀ (node : TlvNode) (t n : Int),
      node.GetNodeByOccur t n =
        if 1 ≤ n then
          ((node.children.filter (fun c => decide (c.GetTag = t)))[(n - 1).toNat]?).getD
            NewTlvNilNode
        else NewTlvNilNode) ∧
    (∀ (nodes : TlvNodes) (t n : Int),
      TlvNodes.GetNodeByOccur nodes t n =
        if 1 ≤ n then
          ((nodes.filter (fun c => decide (c.GetTag = t)))[(n - 1).toNat]?).getD NewTlvNilNode
        else NewTlvNilNode) ∧
    (∀ (tag t n : Int) (value : List Byte),
      (TlvNode.simple tag value).GetNodeByOccur t n = NewTlvNilNode) ∧
    (∀ t n : Int, NewTlvNilNode.GetNodeByOccur t n = NewTlvNilNode) ∧
    (∀ (node : TlvNode) (t n : Int),
      (node.GetNodeByOccur t n).IsValidNode = true → node.GetNodeByOccur t n ∈ node.children) ∧
    (TlvNode.constructed 0xA0
        [.simple 0x01 [0x78, 0x90], .simple 0x02 [0x45], .simple 0x01 [0x67]]).GetNodeByOccur 0x01 1
      = .simple 0x01 [0x78, 0x90] ∧
    (TlvNode.constructed 0xA0
        [.simple 0x01 [0x78, 0x90], .simple 0x02 [0x45], .simple 0x01 [0x67]]).GetNodeByOccur 0x01 2
      = .simple 0x01 [0x67] ∧
    (TlvNode.constructed 0xA0
        [.simple 0x01 [0x78, 0x90], .simple 0x02 [0x45], .simple 0x01 [0x67]]).GetNodeByOccur 0x01 3
      = NewTlvNilNode ∧
    (TlvNode.constructed 0xA0
        [.simple 0x01 [0x78, 0x90], .simple 0x02 [0x45], .simple 0x01 [0x67]]).GetNodeByOccur 0x02 2
      = NewTlvNilNode := by
  have hform : ∀ (l : List TlvNode) (t n : Int),
      scanOccur t n l 0 =
        if 1 ≤ n then ((l.filter (fun c => decide (c.GetTag = t)))[(n - 1).toNat]?).getD
          NewTlvNilNode
        else NewTlvNilNode := by
    intro l t n
    rw [scanOccur_eq]
    by_cases h : 1 ≤ n
    · have h0 : (0 : Int) < n := by omega
      simp [h, h0]
    · have h0 : ¬ (0 : Int) < n := by omega
      simp [h, h0]
  refine ⟨fun node t n => hform node.children t n, fun nodes t n => hform nodes t n,
    fun _ _ _ _ => rfl, fun _ _ => rfl, ?_, rfl, rfl, rfl, rfl⟩
  intro node t n hv
  have h := hform node.children t n
  unfold TlvNode.GetNodeByOccur at hv ⊢
  rw [h] at hv ⊢
  by_cases h1 : 1 ≤ n
  · simp only [h1, if_true] at hv ⊢
    cases hget : (node.children.filter (fun c => decide (c.GetTag = t)))[(n - 1).toNat]? with
    | none => rw [hget] at hv; simp [NewTlvNilNode, TlvNode.IsValidNode] at hv
    | some c =>
      simp only [Option.getD_some]
      have hmem := List.getElem?_mem hget
      exact (List.mem_filter.1 hmem).1
  · simp [h1, NewTlvNilNode, TlvNode.IsValidNode] at hv

/-- **C9** `GetNode(t)` is `GetNodeByOccur(t, 1)` for every receiver, forest,
constructed node, primitive node or sentinel: the first immediate child with
tag `t`, or the sentinel when there is none. -/
theorem GetNode_eq_GetNodeByOccur_one :
    (∀ (nodes : TlvNodes) (t : Int),
      TlvNodes.GetNode nodes t = TlvNodes.GetNodeByOccur nodes t 1 ∧
      TlvNodes.GetNode nodes t
        = ((nodes.filter (fun c => decide (c.GetTag = t))).head?).getD NewTlvNilNode) ∧
    (∀ (node : TlvNode) (t : Int),
      node.GetNode t = node.GetNodeByOccur t 1 ∧
      node.GetNode t
        = ((node.children.filter (fun c => decide (c.GetTag = t))).head?).getD NewTlvNilNode) ∧
    (∀ (tag t : Int) (value : List Byte),
      (TlvNode.simple tag value).GetNode t = NewTlvNilNode ∧
      (TlvNode.simple tag value).GetNodeByOccur t 1 = NewTlvNilNode) ∧
    (∀ t : Int, NewTlvNilNode.GetNode t = NewTlvNilNode ∧
      NewTlvNilNode.GetNodeByOccur t 1 = NewTlvNilNode) :=
  ⟨fun nodes t => ⟨(scanOccur_one t nodes).symm, firstWithTag_eq t nodes⟩,
   fun node t => ⟨(scanOccur_one t node.children).symm, firstWithTag_eq t node.children⟩,
   fun _ _ _ => ⟨rfl, rfl⟩, fun _ => ⟨rfl, rfl⟩⟩

/-- **C10** Absent-node sentinel accessors: the node of `NewTlvNilNode` has
tag `-1`, and its value, its encoding and its string form have length 0. -/
theorem NewTlvNilNode_accessors :
    NewTlvNilNode.GetTag = -1 ∧ NewTlvNilNode.GetValue.length = 0 ∧
      NewTlvNilNode.Encode.length = 0 ∧ NewTlvNilNode.String.length = 0 :=
  ⟨rfl, rfl, rfl, rfl⟩

end tlv

namespace tlv

/-! ## The decoder: consumed bytes and recursion bound -/

theorem getTagMore_length (l : List Byte) (acc t : Nat) (rest : List Byte)
    (h : getTagMore l acc = .ok (t, rest)) : rest.length < l.length := by
  induction l generalizing acc with
  | nil => simp [getTagMore] at h
  | cons b tl ih =>
    rw [getTagMore] at h
    split at h
    · have := ih _ h
      simp only [List.length_cons]; omega
    · simp at h; obtain ⟨-, rfl⟩ := h; simp

theorem GetTag_length (buf : List Byte) (t : Int) (rest : List Byte)
    (h : GetTag buf = .ok (t, rest)) : rest.length < buf.length := by
  cases buf with
  | nil => simp [GetTag] at h
  | cons b tl =>
    rw [GetTag] at h
    split at h
    · split at h
      · next t' rest' heq =>
        simp at h; obtain ⟨-, rfl⟩ := h
        have := getTagMore_length _ _ _ _ heq
        simp only [List.length_cons]; omega
      · simp at h
    · simp at h; obtain ⟨-, rfl⟩ := h; simp

theorem GetLength_length (buf : List Byte) (len : TlvLength) (rest : List Byte)
    (h : GetLength buf = .ok (len, rest)) : rest.length < buf.length := by
  cases buf with
  | nil => simp [GetLength] at h
  | cons b tl =>
    rw [GetLength] at h
    split at h
    · simp at h; obtain ⟨-, rfl⟩ := h; simp
    · split at h
      · simp at h; obtain ⟨-, rfl⟩ := h; simp
      · split at h
        · simp at h
        · simp at h; obtain ⟨-, rfl⟩ := h
          simp only [List.length_drop, List.length_cons]; omega

theorem getTagMore_error (l : List Byte) (acc : Nat) (e : TlvError)
    (h : getTagMore l acc = .error e) : e = .malformedTlv := by
  induction l generalizing acc with
  | nil => simp [getTagMore] at h; exact h.symm
  | cons b tl ih =>
    rw [getTagMore] at h
    split at h
    · exact ih _ h
    · simp at h

theorem GetTagAndLength_error (buf : List Byte) (e : TlvError)
    (h : GetTagAndLength buf = .error e) : e = .malformedTlv := by
  unfold GetTagAndLength at h
  split at h
  · next e1 h1 =>
    simp at h; subst h
    cases buf with
    | nil => simp [GetTag] at h1; exact h1.symm
    | cons b tl =>
      rw [GetTag] at h1
      split at h1
      · split at h1
        · simp at h1
        · next e2 h2 => simp at h1; subst h1; exact getTagMore_error _ _ _ h2
      · simp at h1
  · next tag r1 h1 =>
    split at h
    · next e2 h2 =>
      simp at h; subst h
      cases r1 with
      | nil => simp [GetLength] at h2; exact h2.symm
      | cons b tl =>
        rw [GetLength] at h2
        split at h2
        · simp at h2
        · split at h2
          · simp at h2
          · split at h2
            · simp at h2; exact h2.symm
            · simp at h2
    · simp at h

theorem GetTagAndLength_length (buf : List Byte) (t : Int) (len : TlvLength)
    (rest : List Byte) (h : GetTagAndLength buf = .ok (t, len, rest)) :
    rest.length + 2 ≤ buf.length := by
  unfold GetTagAndLength at h
  split at h
  · simp at h
  · next tag r1 h1 =>
    split at h
    · simp at h
    · next len' r2 h2 =>
      simp at h; obtain ⟨-, -, rfl⟩ := h
      have := GetTag_length _ _ _ h1
      have := GetLength_length _ _ _ h2
      omega

/-- One step of the decoder on a buffer of two bytes or more. -/
theorem decodeNodes_succ (fuel : Nat) (indef : Bool) (b0 b1 : Byte) (tl : List Byte) :
    decodeNodes (fuel + 1) indef (b0 :: b1 :: tl) =
      if indef = true ∧ b0.val = 0 ∧ b1.val = 0 then .ok ([], tl)
      else
        match GetTagAndLength (b0 :: b1 :: tl) with
        | .error e => .error e
        | .ok (tag, .definite len, rest) =>
          if rest.length < len then .error .malformedTlv
          else if constructedBit (b0 :: b1 :: tl) then
            match decodeNodes fuel false (rest.take len) with
            | .error e => .error e
            | .ok (children, _) =>
              match decodeNodes fuel indef (rest.drop len) with
              | .error e => .error e
              | .ok (siblings, left) => .ok (.constructed tag children :: siblings, left)
          else
            match decodeNodes fuel indef (rest.drop len) with
            | .error e => .error e
            | .ok (siblings, left) => .ok (.simple tag (rest.take len) :: siblings, left)
        | .ok (tag, .indefinite, rest) =>
          if constructedBit (b0 :: b1 :: tl) then
            match decodeNodes fuel true rest with
            | .error e => .error e
            | .ok (children, rest') =>
              match decodeNodes fuel indef rest' with
              | .error e => .error e
              | .ok (siblings, left) => .ok (.constructed tag children :: siblings, left)
          else .error .malformedTlv := by
  cases indef <;> rw [decodeNodes]

/-- The bytes left unread by the decoder are not more than it was given. -/
theorem decodeNodes_left (fuel : Nat) (indef : Bool) (buf : List Byte)
    (nodes : List TlvNode) (left : List Byte)
    (h : decodeNodes fuel indef buf = .ok (nodes, left)) : left.length ≤ buf.length := by
  induction fuel generalizing indef buf nodes left with
  | zero => simp [decodeNodes] at h
  | succ fuel ih =>
    match buf, indef with
    | [], false => simp [decodeNodes] at h; simp [h.2]
    | [], true => simp [decodeNodes] at h
    | [_], false => simp [decodeNodes] at h
    | [_], true => simp [decodeNodes] at h
    | b0 :: b1 :: tl, indef =>
      rw [decodeNodes_succ] at h
      split at h
      · simp at h; obtain ⟨-, rfl⟩ := h; simp only [List.length_cons]; omega
      · split at h
        · simp at h
        · next tag len rest hdr =>
          have hl := GetTagAndLength_length _ _ _ _ hdr
          split at h
          · simp at h
          · split at h
            · split at h
              · simp at h
              · split at h
                · simp at h
                · next sib left' h2 =>
                  simp at h; obtain ⟨-, rfl⟩ := h
                  have := ih _ _ _ _ h2
                  simp only [List.length_drop] at this
                  omega
            · split at h
              · simp at h
              · next sib left' h2 =>
                simp at h; obtain ⟨-, rfl⟩ := h
                have := ih _ _ _ _ h2
                simp only [List.length_drop] at this
                omega
        · next tag rest hdr =>
          have hl := GetTagAndLength_length _ _ _ _ hdr
          split at h
          · split at h
            · simp at h
            · next ch rest' h1 =>
              split at h
              · simp at h
              · next sib left' h2 =>
                simp at h; obtain ⟨-, rfl⟩ := h
                have := ih _ _ _ _ h1
                have := ih _ _ _ _ h2
                omega
          · simp at h

/-- With a bound above the buffer length the decoder never stops for lack of
fuel. -/
theorem decodeNodes_fuel (fuel : Nat) (indef : Bool) (buf : List Byte)
    (hf : buf.length < fuel) : decodeNodes fuel indef buf ≠ .error .fuelExhausted := by
  induction fuel generalizing indef buf with
  | zero => omega
  | succ fuel ih =>
    match buf, indef with
    | [], false => simp [decodeNodes]
    | [], true => simp [decodeNodes]
    | [_], false => simp [decodeNodes]
    | [_], true => simp [decodeNodes]
    | b0 :: b1 :: tl, indef =>
      rw [decodeNodes_succ]
      split
      · simp
      · split
        · next e hdr =>
          intro he
          simp only [Except.error.injEq] at he
          subst he
          have := GetTagAndLength_error _ _ hdr
          simp at this
        · next tag len rest hdr =>
          have hl := GetTagAndLength_length _ _ _ _ hdr
          simp only [List.length_cons] at hl hf
          split
          · simp
          · have hd : (rest.drop len).length < fuel := by
              simp only [List.length_drop]; omega
            have ht : (rest.take len).length < fuel := by
              simp only [List.length_take]; omega
            split
            · split
              · next e h1 => intro he; simp at he; subst he; exact ih _ _ ht h1
              · split
                · next e h2 => intro he; simp at he; subst he; exact ih _ _ hd h2
                · simp
            · split
              · next e h2 => intro he; simp at he; subst he; exact ih _ _ hd h2
              · simp
        · next tag rest hdr =>
          have hl := GetTagAndLength_length _ _ _ _ hdr
          simp only [List.length_cons] at hl hf
          split
          · split
            · next e h1 => intro he; simp at he; subst he; exact ih _ _ (by omega) h1
            · next ch rest' h1 =>
              have := decodeNodes_left _ _ _ _ _ h1
              split
              · next e h2 => intro he; simp at he; subst he; exact ih _ _ (by omega) h2
              · simp
          · simp

end tlv

namespace tlv

/-- A result obtained with some recursion bound is obtained with any larger
one. -/
theorem decodeNodes_mono_succ (fuel : Nat) (indef : Bool) (buf : List Byte)
    (r : List TlvNode × List Byte) (h : decodeNodes fuel indef buf = .ok r) :
    decodeNodes (fuel + 1) indef buf = .ok r := by
  induction fuel generalizing indef buf r with
  | zero => simp [decodeNodes] at h
  | succ fuel ih =>
    match buf, indef with
    | [], false => simp [decodeNodes] at h ⊢; exact h
    | [], true => simp [decodeNodes] at h
    | [_], false => simp [decodeNodes] at h
    | [_], true => simp [decodeNodes] at h
    | b0 :: b1 :: tl, indef =>
      rw [decodeNodes_succ] at h ⊢
      split at h
      · next hc => rw [if_pos hc]; exact h
      · next hc =>
        rw [if_neg hc]
        split at h
        · simp at h
        · next tag len rest hdr =>
          split at h
          · simp at h
          · next hlen =>
            rw [if_neg hlen]
            split at h
            · next hcb =>
              rw [if_pos hcb]
              split at h
              · simp at h
              · next ch lf h1 =>
                rw [ih _ _ _ h1]
                simp only
                split at h
                · simp at h
                · next sib left h2 =>
                  rw [ih _ _ _ h2]
                  exact h
            · next hcb =>
              rw [if_neg hcb]
              split at h
              · simp at h
              · next sib left h2 =>
                rw [ih _ _ _ h2]
                exact h
        · next tag rest hdr =>
          split at h
          · next hcb =>
            rw [if_pos hcb]
            split at h
            · simp at h
            · next ch rest' h1 =>
              rw [ih _ _ _ h1]
              simp only
              split at h
              · simp at h
              · next sib left h2 =>
                rw [ih _ _ _ h2]
                exact h
          · simp at h

theorem decodeNodes_mono (fuel k : Nat) (indef : Bool) (buf : List Byte)
    (r : List TlvNode × List Byte) (h : decodeNodes fuel indef buf = .ok r) :
    decodeNodes (fuel + k) indef buf = .ok r := by
  induction k with
  | zero => exact h
  | succ k ih => exact decodeNodes_mono_succ _ _ _ _ ih

/-- Two successful runs of the decoder on the same buffer agree, whatever
their recursion bounds. -/
theorem decodeNodes_agree (f1 f2 : Nat) (indef : Bool) (buf : List Byte)
    (r1 r2 : List TlvNode × List Byte) (h1 : decodeNodes f1 indef buf = .ok r1)
    (h2 : decodeNodes f2 indef buf = .ok r2) : r1 = r2 := by
  have a := decodeNodes_mono f1 f2 indef buf r1 h1
  have b := decodeNodes_mono f2 f1 indef buf r2 h2
  rw [Nat.add_comm] at b
  rw [a] at b
  simpa using b

/-- A buffer on which a header is read has two bytes or more. -/
theorem GetTagAndLength_two (buf : List Byte) (t : Int) (len : TlvLength) (rest : List Byte)
    (h : GetTagAndLength buf = .ok (t, len, rest)) :
    ∃ b0 b1 tl, buf = b0 :: b1 :: tl := by
  have := GetTagAndLength_length _ _ _ _ h
  match buf, this with
  | b0 :: b1 :: tl, _ => exact ⟨b0, b1, tl, rfl⟩

/-- An element that declares more bytes than are left makes the decoder fail,
whatever the recursion bound. -/
theorem decodeNodes_overrun (fuel : Nat) (indef : Bool) (buf : List Byte)
    (h : Overrun indef buf) : ∃ e, decodeNodes fuel indef buf = .error e := by
  induction h generalizing fuel with
  | here indef buf tag len rest hnt hdr hlen =>
    cases fuel with
    | zero => exact ⟨_, rfl⟩
    | succ fuel =>
      obtain ⟨b0, b1, tl, rfl⟩ := GetTagAndLength_two _ _ _ _ hdr
      rw [decodeNodes_succ, if_neg, hdr]
      · simp only [if_pos hlen]; exact ⟨_, rfl⟩
      · rintro ⟨h1, h2, h3⟩
        apply hnt
        refine ⟨h1, ?_⟩
        have e0 : b0 = 0 := Fin.ext h2
        have e1 : b1 = 0 := Fin.ext h3
        simp [e0, e1]
  | later indef buf tag len rest hnt hdr hlen _ ih =>
    cases fuel with
    | zero => exact ⟨_, rfl⟩
    | succ fuel =>
      obtain ⟨b0, b1, tl, rfl⟩ := GetTagAndLength_two _ _ _ _ hdr
      obtain ⟨e, he⟩ := ih fuel
      rw [decodeNodes_succ, if_neg, hdr]
      · simp only [if_neg (Nat.not_lt.2 hlen), he]
        split
        · split <;> exact ⟨_, rfl⟩
        · exact ⟨_, rfl⟩
      · rintro ⟨h1, h2, h3⟩
        apply hnt
        refine ⟨h1, ?_⟩
        have e0 : b0 = 0 := Fin.ext h2
        have e1 : b1 = 0 := Fin.ext h3
        simp [e0, e1]
  | inside indef buf tag len rest hnt hdr hlen hcb _ ih =>
    cases fuel with
    | zero => exact ⟨_, rfl⟩
    | succ fuel =>
      obtain ⟨b0, b1, tl, rfl⟩ := GetTagAndLength_two _ _ _ _ hdr
      obtain ⟨e, he⟩ := ih fuel
      rw [decodeNodes_succ, if_neg, hdr]
      · simp only [if_neg (Nat.not_lt.2 hlen), hcb, if_true, he]
        exact ⟨_, rfl⟩
      · rintro ⟨h1, h2, h3⟩
        apply hnt
        refine ⟨h1, ?_⟩
        have e0 : b0 = 0 := Fin.ext h2
        have e1 : b1 = 0 := Fin.ext h3
        simp [e0, e1]
  | insideIndef indef buf tag rest hnt hdr hcb _ ih =>
    cases fuel with
    | zero => exact ⟨_, rfl⟩
    | succ fuel =>
      obtain ⟨b0, b1, tl, rfl⟩ := GetTagAndLength_two _ _ _ _ hdr
      obtain ⟨e, he⟩ := ih fuel
      rw [decodeNodes_succ, if_neg, hdr]
      · simp only [hcb, if_true, he]
        exact ⟨_, rfl⟩
      · rintro ⟨h1, h2, h3⟩
        apply hnt
        refine ⟨h1, ?_⟩
        have e0 : b0 = 0 := Fin.ext h2
        have e1 : b1 = 0 := Fin.ext h3
        simp [e0, e1]
  | laterIndef indef buf tag rest children rest' hnt hdr hcb hch _ ih =>
    cases fuel with
    | zero => exact ⟨_, rfl⟩
    | succ fuel =>
      obtain ⟨b0, b1, tl, rfl⟩ := GetTagAndLength_two _ _ _ _ hdr
      obtain ⟨e, he⟩ := ih fuel
      rw [decodeNodes_succ, if_neg, hdr]
      · simp only [hcb, if_true]
        cases hc : decodeNodes fuel true rest with
        | error e1 => exact ⟨_, rfl⟩
        | ok r =>
          have := decodeNodes_agree _ _ _ _ _ _ hc hch
          subst this
          simp only [he]
          exact ⟨_, rfl⟩
      · rintro ⟨h1, h2, h3⟩
        apply hnt
        refine ⟨h1, ?_⟩
        have e0 : b0 = 0 := Fin.ext h2
        have e1 : b1 = 0 := Fin.ext h3
        simp [e0, e1]

/-- `Decode` never reports the model's fuel error. -/
theorem Decode_error (data : List Byte) (e : TlvError) (h : Decode data = .error e) :
    e = .malformedTlv := by
  unfold Decode at h
  split at h
  · simp at h
  · next e' he =>
    simp at h; subst h
    have := decodeNodes_fuel (data.length + 1) false data (by omega)
    cases e' with
    | malformedTlv => rfl
    | fuelExhausted => exact absurd he this

/-- `Decode` fails on a buffer in which an element declares more bytes than
are left. -/
theorem Decode_overrun (data : List Byte) (h : Overrun false data) :
    Decode data = .error .malformedTlv := by
  obtain ⟨e, he⟩ := decodeNodes_overrun (data.length + 1) false data h
  have hd : Decode data = .error e := by simp [Decode, he]
  rw [hd, Decode_error data e hd]

/-- A buffer with an overrunning element is not empty. -/
theorem Overrun_length (indef : Bool) (buf : List Byte) (h : Overrun indef buf) :
    1 ≤ buf.length := by
  cases h with
  | here _ _ _ _ _ _ hdr _ => have := GetTagAndLength_length _ _ _ _ hdr; omega
  | later _ _ _ _ _ _ hdr _ _ => have := GetTagAndLength_length _ _ _ _ hdr; omega
  | inside _ _ _ _ _ _ hdr _ _ _ => have := GetTagAndLength_length _ _ _ _ hdr; omega
  | insideIndef _ _ _ _ _ hdr _ _ => have := GetTagAndLength_length _ _ _ _ hdr; omega
  | laterIndef _ _ _ _ _ _ _ hdr _ _ _ => have := GetTagAndLength_length _ _ _ _ hdr; omega

end tlv

namespace document

/-- **C7** Length overrun is rejected: for every buffer in which an element
declares a definite length greater than the number of bytes remaining after
its header, `tlv.Decode` returns the error `MalformedTlv` and no forest, and
`NewEFDIR`, `NewDG1` and `NewDG15` return a nil document with a non-nil error
(for `NewDG1` and `NewDG15`, the decode error wrapped with their name). -/
theorem overrun_rejected {MRZ EFDIR : Type} (MrzDecode : List Byte → Option MRZ × Option Error)
    (build : List Byte → tlv.TlvNodes → Option EFDIR × Option Error)
    (data : List Byte) (h : tlv.Overrun false data) :
    tlv.Decode data = .error .malformedTlv ∧
    ((NewEFDIR build data).1 = none ∧ (NewEFDIR build data).2 ≠ none) ∧
    NewDG1 MrzDecode data = (none, some (.wrapped "[NewDG1] error: " (.tlv .malformedTlv))) ∧
    NewDG15 data = (none, some (.wrapped "[NewDG15] error: " (.tlv .malformedTlv))) := by
  have hd := tlv.Decode_overrun data h
  have hl : ¬ data.length < 1 := by
    have := tlv.Overrun_length _ _ h
    omega
  refine ⟨hd, ?_, ?_, ?_⟩
  · simp [NewEFDIR, hl, hd]
  · simp [NewDG1, hl, hd]
  · simp [NewDG15, hl, hd]

/-- The buffer `02 10 12 34` of `TestNewEfDirBadTlv`: 16 bytes declared, 2
available. -/
theorem overrun_rejected_witness :
    tlv.Overrun false tlv.testBadTlv ∧
    tlv.Decode tlv.testBadTlv = .error .malformedTlv ∧
    ((NewEFDIR (fun (_ : List Byte) (_ : tlv.TlvNodes) => ((none : Option Unit), none))
        tlv.testBadTlv).1 = none ∧
      (NewEFDIR (fun (_ : List Byte) (_ : tlv.TlvNodes) => ((none : Option Unit), none))
        tlv.testBadTlv).2 ≠ none) ∧
    NewDG1 (fun (_ : List Byte) => ((none : Option Unit), none)) tlv.testBadTlv
      = (none, some (.wrapped "[NewDG1] error: " (.tlv .malformedTlv))) ∧
    NewDG15 tlv.testBadTlv = (none, some (.wrapped "[NewDG15] error: " (.tlv .malformedTlv))) :=
  have h : tlv.Overrun false tlv.testBadTlv :=
    tlv.Overrun.here false tlv.testBadTlv 2 16 [0x12, 0x34] (by decide) rfl (by decide)
  ⟨h, overrun_rejected _ _ tlv.testBadTlv h⟩

end document

namespace tlv

/-! ## Big-endian numbers -/

theorem natBytesAux_eq (fuel : Nat) :
    ∀ n, n ≤ fuel → ∀ acc, natBytesAux fuel n acc = natBytesAux n n [] ++ acc := by
  induction fuel using Nat.strong_induction_on with
  | _ fuel ih =>
    intro n hn acc
    cases fuel with
    | zero =>
      have : n = 0 := by omega
      subst this
      simp [natBytesAux]
    | succ fuel =>
      by_cases h0 : n = 0
      · subst h0; simp [natBytesAux]
      · obtain ⟨m, rfl⟩ := Nat.exists_eq_succ_of_ne_zero h0
        have hdiv : (m + 1) / 256 ≤ m := by omega
        rw [natBytesAux, if_neg h0, natBytesAux, if_neg h0]
        rw [ih fuel (by omega) _ (by omega)]
        by_cases hm : m = fuel
        · subst hm
          rw [ih m (by omega) _ hdiv [_]]
          simp
        · rw [ih m (by omega) _ hdiv [_]]
          simp

theorem Byte_ofNat_val (b : Byte) : (Fin.ofNat b.val : Byte) = b := by
  apply Fin.ext
  show b.val % 256 = b.val
  omega

theorem Byte_val_ofNat (n : Nat) : ((Fin.ofNat n : Byte)).val = n % 256 := rfl

theorem natBytes_zero : natBytes 0 = [] := rfl

theorem natBytes_pos (n : Nat) (h : 0 < n) :
    natBytes n = natBytes (n / 256) ++ [Fin.ofNat (n % 256)] := by
  obtain ⟨m, rfl⟩ := Nat.exists_eq_succ_of_ne_zero (Nat.pos_iff_ne_zero.1 h)
  have hdiv : (m + 1) / 256 ≤ m := by omega
  unfold natBytes
  rw [natBytesAux, if_neg (by omega), natBytesAux_eq m _ hdiv]

theorem beNat_append_singleton (l : List Byte) (b : Byte) :
    beNat (l ++ [b]) = beNat l * 256 + b.val := by
  simp [beNat, List.foldl_append]

theorem foldl_be_ge (l : List Byte) (acc : Nat) :
    acc ≤ l.foldl (fun a b => a * 256 + b.val) acc := by
  induction l generalizing acc with
  | nil => simp
  | cons b tl ih =>
    simp only [List.foldl_cons]
    have := ih (acc * 256 + b.val)
    omega

theorem beNat_cons_pos (b : Byte) (tl : List Byte) (h : b.val ≠ 0) : 0 < beNat (b :: tl) := by
  have := foldl_be_ge tl (0 * 256 + b.val)
  simp only [beNat, List.foldl_cons]
  omega

theorem beNat_cons_cons_ge (b c : Byte) (tl : List Byte) (h : b.val ≠ 0) :
    256 ≤ beNat (b :: c :: tl) := by
  have := foldl_be_ge tl ((0 * 256 + b.val) * 256 + c.val)
  simp only [beNat, List.foldl_cons]
  omega

/-- The shortest big-endian form of the value of a byte string without a
leading zero is the byte string. -/
theorem natBytes_beNat (l : List Byte) (h : ∀ b tl, l = b :: tl → b.val ≠ 0) :
    natBytes (beNat l) = l := by
  induction l using List.reverseRecOn with
  | nil => rfl
  | append_singleton l b ih =>
    rw [beNat_append_singleton]
    cases l with
    | nil =>
      have hb : b.val ≠ 0 := h b [] rfl
      have hlt := b.isLt
      rw [natBytes_pos _ (by have h0 : beNat [] = 0 := rfl; rw [h0]; omega)]
      have h0 : beNat [] = 0 := rfl
      have h1 : (beNat [] * 256 + b.val) / 256 = 0 := by rw [h0]; omega
      have h2 : (beNat [] * 256 + b.val) % 256 = b.val := by rw [h0]; omega
      rw [h1, h2, natBytes_zero, Byte_ofNat_val]
    | cons c tl =>
      have hc : c.val ≠ 0 := h c (tl ++ [b]) rfl
      have hpos := beNat_cons_pos c tl hc
      have hlt := b.isLt
      rw [natBytes_pos _ (by omega)]
      have h1 : (beNat (c :: tl) * 256 + b.val) / 256 = beNat (c :: tl) := by omega
      have h2 : (beNat (c :: tl) * 256 + b.val) % 256 = b.val := by omega
      rw [h1, h2, ih (fun b' tl' hb' => by
        cases hb'
        exact hc)]
      rw [Byte_ofNat_val]

/-! ## Headers of well-formed elements -/

theorem getTagMore_tail (tail rest : List Byte) (acc : Nat) (h : isTagTail tail = true) :
    getTagMore (tail ++ rest) acc
      = .ok (tail.foldl (fun a b => a * 256 + b.val) acc, rest) := by
  induction tail generalizing acc with
  | nil => simp [isTagTail] at h
  | cons b tl ih =>
    cases tl with
    | nil =>
      simp only [isTagTail, decide_eq_true_eq] at h
      simp only [List.singleton_append, getTagMore, List.foldl_cons, List.foldl_nil]
      rw [if_neg (by omega)]
      rfl
    | cons c tl' =>
      simp only [isTagTail, Bool.and_eq_true, decide_eq_true_eq] at h
      have := ih (acc * 256 + b.val) h.2
      rw [List.cons_append, getTagMore, if_pos h.1, List.foldl_cons]
      exact this

/-- Well-formed tag octets are read as the tag whose big-endian bytes they
are, and nothing more is consumed; the tag is written back as these octets. -/
theorem GetTag_tagOctets (t rest : List Byte) (h : isTagOctets t = true) :
    GetTag (t ++ rest) = .ok ((beNat t : Nat), rest) ∧ encodeTag (beNat t : Nat) = t := by
  cases t with
  | nil => simp [isTagOctets] at h
  | cons b tail =>
    rw [isTagOctets] at h
    by_cases h31 : b.val % 32 = 31
    · rw [if_pos h31] at h
      have hb : b.val ≠ 0 := by omega
      constructor
      · simp only [List.cons_append, GetTag]
        rw [if_pos h31, getTagMore_tail tail rest _ h]
        simp [beNat]
      · cases tail with
        | nil => simp [isTagTail] at h
        | cons c tl =>
          have hge := beNat_cons_cons_ge b c tl hb
          unfold encodeTag
          simp only [Int.toNat_ofNat]
          rw [if_neg (by omega)]
          exact natBytes_beNat _ (fun b' tl' hb' => by cases hb'; exact hb)
    · rw [if_neg h31] at h
      simp only [decide_eq_true_eq] at h
      subst h
      have hlt := b.isLt
      have hbe : beNat [b] = b.val := by simp [beNat]
      constructor
      · simp only [List.cons_append, GetTag, List.nil_append]
        rw [if_neg h31, hbe]
      · unfold encodeTag
        simp only [Int.toNat_ofNat, hbe]
        rw [if_pos hlt, Byte_ofNat_val]

/-- The shortest definite length octets are read as the length they stand
for, and are the octets `Encode` writes for it. -/
theorem GetLength_minimal (n : Nat) (l rest : List Byte) (h : IsMinimalLength n l) :
    GetLength (l ++ rest) = .ok (.definite n, rest) ∧ encodeLength n = l := by
  rcases h with ⟨hn, rfl⟩ | ⟨hn, b, body, hb, hlen, rfl, hval⟩
  · have hv : ((Fin.ofNat n : Byte)).val = n := by rw [Byte_val_ofNat]; omega
    constructor
    · simp only [List.singleton_append, GetLength, hv]
      rw [if_pos hn]
    · simp [encodeLength, hn]
  · have hv : ((Fin.ofNat (128 + (body.length + 1)) : Byte)).val = 128 + (body.length + 1) := by
      rw [Byte_val_ofNat]; omega
    have hnb : natBytes n = b :: body := by
      rw [← hval]
      exact natBytes_beNat _ (fun b' tl' hb' => by cases hb'; exact hb)
    constructor
    · simp only [List.cons_append, GetLength, hv]
      rw [if_neg (by omega), if_neg (by omega), if_neg (by simp; omega)]
      have hm : (128 + (body.length + 1)) % 128 = (b :: body).length := by
        simp only [List.length_cons]; omega
      rw [hm, ← List.cons_append, List.take_left, List.drop_left, hval]
    · unfold encodeLength
      rw [if_neg (by omega), hnb]
      rfl

theorem isTagOctets_ne_nil (t : List Byte) (h : isTagOctets t = true) : t ≠ [] := by
  intro ht; subst ht; simp [isTagOctets] at h

theorem IsMinimalLength_ne_nil (n : Nat) (l : List Byte) (h : IsMinimalLength n l) : l ≠ [] := by
  rcases h with ⟨_, rfl⟩ | ⟨_, b, body, _, _, rfl, _⟩ <;> simp

theorem constructedBit_append (t rest : List Byte) (h : t ≠ []) :
    constructedBit (t ++ rest) = constructedBit t := by
  cases t with
  | nil => exact absurd rfl h
  | cons b tl => rfl

/-- The header of a well-formed element with shortest length octets. -/
theorem GetTagAndLength_wf (t l v rest : List Byte) (ht : isTagOctets t = true)
    (hl : IsMinimalLength v.length l) :
    GetTagAndLength (t ++ l ++ v ++ rest) = .ok ((beNat t : Nat), .definite v.length, v ++ rest) := by
  unfold GetTagAndLength
  have h1 := (GetTag_tagOctets t (l ++ (v ++ rest)) ht).1
  have h2 := (GetLength_minimal v.length l (v ++ rest) hl).1
  simp only [List.append_assoc]
  rw [h1]
  simp only
  rw [h2]

end tlv

namespace tlv

/-! ## Round trip -/

theorem encodeNodes_cons (n : TlvNode) (rest : List TlvNode) :
    encodeNodes (n :: rest) = n.Encode ++ encodeNodes rest := by
  rw [encodeNodes]

theorem Encode_simple (tag : Int) (value : List Byte) :
    (TlvNode.simple tag value).Encode = encodeTag tag ++ encodeLength value.length ++ value := by
  rw [TlvNode.Encode]

theorem Encode_constructed (tag : Int) (children : List TlvNode) :
    (TlvNode.constructed tag children).Encode
      = encodeTag tag ++ encodeLength (encodeNodes children).length ++ encodeNodes children := by
  rw [TlvNode.Encode]

/-- A well-formed definite-length buffer with shortest length octets is
decoded entirely, with any recursion bound above its length, into nodes whose
encoding is the buffer. -/
theorem decodeNodes_wf (buf : List Byte) (h : TlvBuffer IsMinimalLength buf) :
    ∀ fuel, buf.length < fuel →
      ∃ f, decodeNodes fuel false buf = .ok (f, []) ∧ encodeNodes f = buf := by
  induction h with
  | nil =>
    intro fuel hf
    cases fuel with
    | zero => omega
    | succ fuel => exact ⟨[], by simp [decodeNodes], rfl⟩
  | primitive t l v rest ht hcb hl _ ih =>
    intro fuel hf
    cases fuel with
    | zero => omega
    | succ fuel =>
      have hdr := GetTagAndLength_wf t l v rest ht hl
      obtain ⟨b0, b1, tl, hb⟩ := GetTagAndLength_two _ _ _ _ hdr
      have hcb' : constructedBit (t ++ l ++ v ++ rest) = false := by
        rw [List.append_assoc, List.append_assoc,
          constructedBit_append _ _ (isTagOctets_ne_nil t ht)]
        exact hcb
      have ht1 : 1 ≤ t.length := List.length_pos.2 (isTagOctets_ne_nil t ht)
      simp only [List.length_append] at hf
      obtain ⟨f, hf1, hf2⟩ := ih fuel (by omega)
      refine ⟨.simple (beNat t : Nat) v :: f, ?_, ?_⟩
      · rw [hb] at hdr hcb' ⊢
        rw [decodeNodes_succ, if_neg (by simp), hdr]
        simp only [hcb', List.length_append, List.take_left, List.drop_left, hf1]
        rw [if_neg (by omega)]
        simp
      · rw [encodeNodes_cons, Encode_simple, (GetTag_tagOctets t [] ht).2,
          (GetLength_minimal v.length l [] hl).2, hf2]
  | constructed t l v rest ht hcb hl _ _ ihv ih =>
    intro fuel hf
    cases fuel with
    | zero => omega
    | succ fuel =>
      have hdr := GetTagAndLength_wf t l v rest ht hl
      obtain ⟨b0, b1, tl, hb⟩ := GetTagAndLength_two _ _ _ _ hdr
      have hcb' : constructedBit (t ++ l ++ v ++ rest) = true := by
        rw [List.append_assoc, List.append_assoc,
          constructedBit_append _ _ (isTagOctets_ne_nil t ht)]
        exact hcb
      have ht1 : 1 ≤ t.length := List.length_pos.2 (isTagOctets_ne_nil t ht)
      simp only [List.length_append] at hf
      obtain ⟨f, hf1, hf2⟩ := ih fuel (by omega)
      obtain ⟨ch, hc1, hc2⟩ := ihv fuel (by omega)
      refine ⟨.constructed (beNat t : Nat) ch :: f, ?_, ?_⟩
      · rw [hb] at hdr hcb' ⊢
        rw [decodeNodes_succ, if_neg (by simp), hdr]
        simp only [hcb', List.length_append, List.take_left, List.drop_left, hf1, hc1]
        rw [if_neg (by omega)]
        simp
      · rw [encodeNodes_cons, Encode_constructed, hc2, (GetTag_tagOctets t [] ht).2,
          (GetLength_minimal v.length l [] hl).2, hf2]

/-- TLV round trip on shortest-form lengths: for every well-formed
definite-length BER-TLV buffer whose length fields all have the shortest
definite form (one octet below 128, otherwise the long form without a leading
zero octet), `Decode` succeeds and `Encode` of the resulting forest returns
exactly the buffer, whatever the number of top-level elements and the nesting
of constructed elements. This is the part of the round trip that does not
depend on whether a node remembers the form of its length field. -/
theorem Decode_Encode_roundtrip (b : List Byte) (h : TlvBuffer IsMinimalLength b) :
    ∃ f, Decode b = .ok f ∧ TlvNodes.Encode f = b := by
  obtain ⟨f, h1, h2⟩ := decodeNodes_wf b h (b.length + 1) (by omega)
  exact ⟨f, by simp [Decode, h1], h2⟩

/-- The buffer of `TestDecodeAndEncode` is well-formed with shortest length
octets. -/
theorem testRoundTripData_wf : TlvBuffer IsMinimalLength testRoundTripData :=
  have short : ∀ n : Nat, n < 128 → IsMinimalLength n [Fin.ofNat n] :=
    fun _ hn => Or.inl ⟨hn, rfl⟩
  have ints : TlvBuffer IsMinimalLength [0x02, 0x01, 0x02, 0x02, 0x01, 0x10] :=
    .primitive [0x02] [0x01] [0x02] [0x02, 0x01, 0x10] (by decide) (by decide)
      (short 1 (by decide))
      (.primitive [0x02] [0x01] [0x10] [] (by decide) (by decide) (short 1 (by decide)) .nil)
  have seq1 : TlvBuffer IsMinimalLength
      [0x06, 0x0a, 0x04, 0x00, 0x7f, 0x00, 0x07, 0x02, 0x02, 0x04, 0x02, 0x04,
       0x02, 0x01, 0x02, 0x02, 0x01, 0x10] :=
    .primitive [0x06] [0x0a] [0x04, 0x00, 0x7f, 0x00, 0x07, 0x02, 0x02, 0x04, 0x02, 0x04]
      [0x02, 0x01, 0x02, 0x02, 0x01, 0x10] (by decide) (by decide) (short 10 (by decide)) ints
  have seq2 : TlvBuffer IsMinimalLength
      [0x06, 0x0a, 0x04, 0x00, 0x7f, 0x00, 0x07, 0x02, 0x02, 0x04, 0x06, 0x04,
       0x02, 0x01, 0x02, 0x02, 0x01, 0x10] :=
    .primitive [0x06] [0x0a] [0x04, 0x00, 0x7f, 0x00, 0x07, 0x02, 0x02, 0x04, 0x06, 0x04]
      [0x02, 0x01, 0x02, 0x02, 0x01, 0x10] (by decide) (by decide) (short 10 (by decide)) ints
  .constructed [0x31] [0x28]
    [0x30, 0x12, 0x06, 0x0a, 0x04, 0x00, 0x7f, 0x00, 0x07, 0x02, 0x02, 0x04, 0x02, 0x04,
     0x02, 0x01, 0x02, 0x02, 0x01, 0x10,
     0x30, 0x12, 0x06, 0x0a, 0x04, 0x00, 0x7f, 0x00, 0x07, 0x02, 0x02, 0x04, 0x06, 0x04,
     0x02, 0x01, 0x02, 0x02, 0x01, 0x10] [] (by decide) (by decide) (short 40 (by decide))
    (.constructed [0x30] [0x12]
      [0x06, 0x0a, 0x04, 0x00, 0x7f, 0x00, 0x07, 0x02, 0x02, 0x04, 0x02, 0x04,
       0x02, 0x01, 0x02, 0x02, 0x01, 0x10]
      [0x30, 0x12, 0x06, 0x0a, 0x04, 0x00, 0x7f, 0x00, 0x07, 0x02, 0x02, 0x04, 0x06, 0x04,
       0x02, 0x01, 0x02, 0x02, 0x01, 0x10] (by decide) (by decide) (short 18 (by decide)) seq1
      (.constructed [0x30] [0x12]
        [0x06, 0x0a, 0x04, 0x00, 0x7f, 0x00, 0x07, 0x02, 0x02, 0x04, 0x06, 0x04,
         0x02, 0x01, 0x02, 0x02, 0x01, 0x10] [] (by decide) (by decide) (short 18 (by decide))
        seq2 .nil))
    .nil

/-- The round trip on the 42-byte buffer of `TestDecodeAndEncode`. -/
theorem Decode_Encode_roundtrip_witness :
    TlvBuffer IsMinimalLength testRoundTripData ∧
      ∃ f, Decode testRoundTripData = .ok f ∧ TlvNodes.Encode f = testRoundTripData :=
  ⟨testRoundTripData_wf, Decode_Encode_roundtrip testRoundTripData testRoundTripData_wf⟩

/-- A limit of the node model of this file, in which a node holds a tag and
a value or children but not the form of its length field. The buffer
`04 81 01 FF` is a well-formed definite-length BER element (long-form length
on one octet, which BER allows for any length); the modelled `Decode` accepts
it, and the modelled `Encode` of the result is `04 01 FF`, not the buffer. The
buffer `04 01 FF` decodes to the same forest of the model, so that no encoder
on these forests gives back every well-formed definite-length buffer. Package
`tlv` is not part of the sample, so this says nothing about a node type that
keeps the length octets. -/
theorem Decode_Encode_not_identity :
    TlvBuffer IsBerLength [0x04, 0x81, 0x01, 0xFF] ∧
      Decode [0x04, 0x81, 0x01, 0xFF] = .ok [.simple 0x04 [0xFF]] ∧
      TlvNodes.Encode [.simple 0x04 [0xFF]] = [0x04, 0x01, 0xFF] ∧
      (¬ ∃ f, Decode [0x04, 0x81, 0x01, 0xFF] = .ok f ∧
        TlvNodes.Encode f = [0x04, 0x81, 0x01, 0xFF]) ∧
      TlvBuffer IsBerLength [0x04, 0x01, 0xFF] ∧
      Decode [0x04, 0x01, 0xFF] = Decode [0x04, 0x81, 0x01, 0xFF] ∧
      ¬ ∃ enc : TlvNodes → List Byte, ∀ b, TlvBuffer IsBerLength b →
        ∃ f, Decode b = .ok f ∧ enc f = b := by
  have hlong : TlvBuffer IsBerLength [0x04, 0x81, 0x01, 0xFF] :=
    .primitive [0x04] [0x81, 0x01] [0xFF] [] (by decide) (by decide)
      (Or.inr ⟨[0x01], by decide, by decide, rfl, rfl⟩) .nil
  have hshort : TlvBuffer IsBerLength [0x04, 0x01, 0xFF] :=
    .primitive [0x04] [0x01] [0xFF] [] (by decide) (by decide)
      (Or.inl ⟨by decide, rfl⟩) .nil
  have hd : Decode [0x04, 0x81, 0x01, 0xFF] = .ok [.simple 0x04 [0xFF]] := rfl
  have hd' : Decode [0x04, 0x01, 0xFF] = .ok [.simple 0x04 [0xFF]] := rfl
  refine ⟨hlong, rfl, by decide, ?_, hshort, rfl, ?_⟩
  · rintro ⟨f, h1, h2⟩
    rw [hd] at h1
    simp only [Except.ok.injEq] at h1
    subst h1
    revert h2
    decide
  · rintro ⟨enc, henc⟩
    obtain ⟨f1, h1, e1⟩ := henc _ hlong
    obtain ⟨f2, h2, e2⟩ := henc _ hshort
    rw [hd] at h1
    rw [hd'] at h2
    simp only [Except.ok.injEq] at h1 h2
    subst h1
    subst h2
    rw [e1] at e2
    revert e2
    decide

end tlv

namespace document

/-! ## Properties of the classifier -/

theorem handlePaceInfo_ok (env : Env) : HandlerOk (handlePaceInfo env) := by
  intro oid data s s' hd e h
  unfold handlePaceInfo at h
  split at h
  · simp at h; obtain ⟨rfl, rfl, rfl⟩ := h; simp
  · split at h
    · simp at h; obtain ⟨rfl, rfl, rfl⟩ := h; simp
    · split at h
      · simp at h
      · simp at h; obtain ⟨rfl, rfl, rfl⟩ := h
        simp [SecurityInfos.GetTotalCnt]; omega

theorem handlePaceDomainParameterInfo_ok (env : Env) :
    HandlerOk (handlePaceDomainParameterInfo env) := by
  intro oid data s s' hd e h
  unfold handlePaceDomainParameterInfo at h
  split at h
  · simp at h; obtain ⟨rfl, rfl, rfl⟩ := h; simp
  · split at h
    · simp at h; obtain ⟨rfl, rfl, rfl⟩ := h; simp
    · simp at h; obtain ⟨rfl, rfl, rfl⟩ := h
      simp [SecurityInfos.GetTotalCnt]; omega

theorem handleActiveAuthenticationInfo_ok (env : Env) :
    HandlerOk (handleActiveAuthenticationInfo env) := by
  intro oid data s s' hd e h
  unfold handleActiveAuthenticationInfo at h
  split at h
  · simp at h; obtain ⟨rfl, rfl, rfl⟩ := h; simp
  · split at h
    · simp at h; obtain ⟨rfl, rfl, rfl⟩ := h; simp
    · simp at h; obtain ⟨rfl, rfl, rfl⟩ := h
      simp [SecurityInfos.GetTotalCnt]; omega

theorem handleChipAuthenticationInfo_ok (env : Env) :
    HandlerOk (handleChipAuthenticationInfo env) := by
  intro oid data s s' hd e h
  unfold handleChipAuthenticationInfo at h
  split at h
  · simp at h; obtain ⟨rfl, rfl, rfl⟩ := h; simp
  · split at h
    · simp at h; obtain ⟨rfl, rfl, rfl⟩ := h; simp
    · simp at h; obtain ⟨rfl, rfl, rfl⟩ := h
      simp [SecurityInfos.GetTotalCnt]; omega

theorem handleChipAuthenticationPublicKeyInfo_ok (env : Env) :
    HandlerOk (handleChipAuthenticationPublicKeyInfo env) := by
  intro oid data s s' hd e h
  unfold handleChipAuthenticationPublicKeyInfo at h
  split at h
  · simp at h; obtain ⟨rfl, rfl, rfl⟩ := h; simp
  · split at h
    · simp at h; obtain ⟨rfl, rfl, rfl⟩ := h; simp
    · simp at h; obtain ⟨rfl, rfl, rfl⟩ := h
      simp [SecurityInfos.GetTotalCnt]; omega

theorem handleTerminalAuthenticationInfo_ok (env : Env) :
    HandlerOk (handleTerminalAuthenticationInfo env) := by
  intro oid data s s' hd e h
  unfold handleTerminalAuthenticationInfo at h
  split at h
  · simp at h; obtain ⟨rfl, rfl, rfl⟩ := h; simp
  · split at h
    · simp at h; obtain ⟨rfl, rfl, rfl⟩ := h; simp
    · simp at h; obtain ⟨rfl, rfl, rfl⟩ := h
      simp [SecurityInfos.GetTotalCnt]; omega

theorem handleEfDirInfo_ok (env : Env) : HandlerOk (handleEfDirInfo env) := by
  intro oid data s s' hd e h
  unfold handleEfDirInfo at h
  split at h
  · simp at h; obtain ⟨rfl, rfl, rfl⟩ := h; simp
  · split at h
    · simp at h; obtain ⟨rfl, rfl, rfl⟩ := h; simp
    · simp at h; obtain ⟨rfl, rfl, rfl⟩ := h
      simp [SecurityInfos.GetTotalCnt]; omega

theorem handleUnsupportedInfo_ok (env : Env) : HandlerOk (handleUnsupportedInfo env) := by
  intro oid data s s' hd e h
  unfold handleUnsupportedInfo at h
  split at h
  · simp at h; obtain ⟨rfl, rfl, rfl⟩ := h; simp
  · simp at h; obtain ⟨rfl, rfl, rfl⟩ := h
    simp [SecurityInfos.GetTotalCnt]; omega

/-- The handler loop over handlers that all satisfy `HandlerOk`: a record that
was taken added exactly one entry. -/
theorem runHandlers_ok (fns : List SecurityInfoHandlerFn) (hfns : ∀ f ∈ fns, HandlerOk f)
    (oid : ObjectIdentifier) (data : List Byte) (s s' : SecurityInfos) (e : Option Error)
    (h : runHandlers fns oid data s = .returned (s', true, e)) :
    s'.GetTotalCnt = s.GetTotalCnt + 1 ∧ s'.RawData = s.RawData := by
  induction fns generalizing s with
  | nil => simp [runHandlers] at h
  | cons f fns ih =>
    have hf := hfns f (List.mem_cons_self _ _)
    unfold runHandlers at h
    split at h
    · simp at h
    · next s1 hd1 err heq =>
      simp at h; obtain ⟨rfl, rfl, rfl⟩ := h
      exact ⟨((hf _ _ _ _ _ _ heq).2 rfl).2.1, ((hf _ _ _ _ _ _ heq).2 rfl).2.2⟩
    · next s1 heq =>
      simp at h; obtain ⟨rfl, rfl⟩ := h
      exact ⟨((hf _ _ _ _ _ _ heq).2 rfl).2.1, ((hf _ _ _ _ _ _ heq).2 rfl).2.2⟩
    · next s1 heq =>
      have hs := (hf _ _ _ _ _ _ heq).1 rfl
      rw [hs] at h
      exact ih (fun g hg => hfns g (List.mem_cons_of_mem _ hg)) s h

theorem securityInfoHandleFnArr_ok (env : Env) :
    ∀ f ∈ securityInfoHandleFnArr env, HandlerOk f := by
  intro f hf
  simp only [securityInfoHandleFnArr, List.mem_cons, List.mem_singleton, List.not_mem_nil,
    or_false] at hf
  rcases hf with rfl | rfl | rfl | rfl | rfl | rfl | rfl | rfl
  · exact handlePaceInfo_ok env
  · exact handlePaceDomainParameterInfo_ok env
  · exact handleActiveAuthenticationInfo_ok env
  · exact handleChipAuthenticationInfo_ok env
  · exact handleChipAuthenticationPublicKeyInfo_ok env
  · exact handleTerminalAuthenticationInfo_ok env
  · exact handleEfDirInfo_ok env
  · exact handleUnsupportedInfo_ok env

/-- The record loop adds one entry per record to the descriptor it started
from, and keeps `RawData`. -/
theorem processRecords_count (env : Env) (recs : List SecurityInfoOid)
    (s d : SecurityInfos) (e : Option Error)
    (h : processRecords env recs s = .returned (some d, e)) :
    d.GetTotalCnt = s.GetTotalCnt + recs.length ∧ d.RawData = s.RawData := by
  induction recs generalizing s with
  | nil => simp [processRecords] at h; obtain ⟨rfl, -⟩ := h; simp
  | cons r rs ih =>
    unfold processRecords at h
    split at h
    · simp at h
    · simp at h
    · next s1 hd heq =>
      cases hd with
      | false => simp at h
      | true =>
        simp at h
        have h1 := runHandlers_ok _ (securityInfoHandleFnArr_ok env) _ _ _ _ _ heq
        have h2 := ih s1 h
        simp only [List.length_cons]
        exact ⟨by omega, h2.2.trans h1.2⟩

/-- A handler that does not take the record and reports no error hands the
record to the next handler. -/
theorem runHandlers_cons_skip (f : SecurityInfoHandlerFn) (fns : List SecurityInfoHandlerFn)
    (oid : ObjectIdentifier) (data : List Byte) (s : SecurityInfos)
    (h : f oid data s = .returned (s, false, none)) :
    runHandlers (f :: fns) oid data s = runHandlers fns oid data s := by
  rw [runHandlers, h]

/-- A handler that takes the record, fails or panics ends the loop with its
own result. -/
theorem runHandlers_cons_take (f : SecurityInfoHandlerFn) (fns : List SecurityInfoHandlerFn)
    (oid : ObjectIdentifier) (data : List Byte) (s : SecurityInfos)
    (h : ∀ s', f oid data s ≠ .returned (s', false, none)) :
    runHandlers (f :: fns) oid data s = f oid data s := by
  unfold runHandlers
  split
  · next heq => rw [heq]
  · next heq => rw [heq]
  · next heq => rw [heq]
  · next s1 heq => exact absurd heq (h s1)

theorem handlePaceInfo_skip (env : Env) (oid : ObjectIdentifier) (data : List Byte)
    (s : SecurityInfos) (h : isPACEInfo env oid = false) :
    handlePaceInfo env oid data s = .returned (s, false, none) := by
  simp [handlePaceInfo, h]

theorem handlePaceInfo_take (env : Env) (oid : ObjectIdentifier) (data : List Byte)
    (s : SecurityInfos) (h : isPACEInfo env oid = true) (s' : SecurityInfos) :
    handlePaceInfo env oid data s ≠ .returned (s', false, none) := by
  unfold handlePaceInfo
  simp only [h, Bool.not_true, Bool.false_eq_true, if_false]
  split
  · simp
  · split <;> simp

theorem handlePaceDomainParameterInfo_skip (env : Env) (oid : ObjectIdentifier) (data : List Byte)
    (s : SecurityInfos) (h : isPACEDomainParameterInfo env oid = false) :
    handlePaceDomainParameterInfo env oid data s = .returned (s, false, none) := by
  simp [handlePaceDomainParameterInfo, h]

theorem handlePaceDomainParameterInfo_take (env : Env) (oid : ObjectIdentifier) (data : List Byte)
    (s : SecurityInfos) (h : isPACEDomainParameterInfo env oid = true) (s' : SecurityInfos) :
    handlePaceDomainParameterInfo env oid data s ≠ .returned (s', false, none) := by
  unfold handlePaceDomainParameterInfo
  simp only [h, Bool.not_true, Bool.false_eq_true, if_false]
  split
  · simp
  · simp

theorem handleActiveAuthenticationInfo_skip (env : Env) (oid : ObjectIdentifier) (data : List Byte)
    (s : SecurityInfos) (h : isActiveAuthenticationInfo env oid = false) :
    handleActiveAuthenticationInfo env oid data s = .returned (s, false, none) := by
  simp [handleActiveAuthenticationInfo, h]

theorem handleActiveAuthenticationInfo_take (env : Env) (oid : ObjectIdentifier) (data : List Byte)
    (s : SecurityInfos) (h : isActiveAuthenticationInfo env oid = true) (s' : SecurityInfos) :
    handleActiveAuthenticationInfo env oid data s ≠ .returned (s', false, none) := by
  unfold handleActiveAuthenticationInfo
  simp only [h, Bool.not_true, Bool.false_eq_true, if_false]
  split
  · simp
  · simp

theorem handleChipAuthenticationInfo_skip (env : Env) (oid : ObjectIdentifier) (data : List Byte)
    (s : SecurityInfos) (h : isChipAuthenticationInfo env oid = false) :
    handleChipAuthenticationInfo env oid data s = .returned (s, false, none) := by
  simp [handleChipAuthenticationInfo, h]

theorem handleChipAuthenticationInfo_take (env : Env) (oid : ObjectIdentifier) (data : List Byte)
    (s : SecurityInfos) (h : isChipAuthenticationInfo env oid = true) (s' : SecurityInfos) :
    handleChipAuthenticationInfo env oid data s ≠ .returned (s', false, none) := by
  unfold handleChipAuthenticationInfo
  simp only [h, Bool.not_true, Bool.false_eq_true, if_false]
  split
  · simp
  · simp

theorem handleChipAuthenticationPublicKeyInfo_skip (env : Env) (oid : ObjectIdentifier) (data : List Byte)
    (s : SecurityInfos) (h : isChipAuthenticationPublicKeyInfo env oid = false) :
    handleChipAuthenticationPublicKeyInfo env oid data s = .returned (s, false, none) := by
  simp [handleChipAuthenticationPublicKeyInfo, h]

theorem handleChipAuthenticationPublicKeyInfo_take (env : Env) (oid : ObjectIdentifier) (data : List Byte)
    (s : SecurityInfos) (h : isChipAuthenticationPublicKeyInfo env oid = true) (s' : SecurityInfos) :
    handleChipAuthenticationPublicKeyInfo env oid data s ≠ .returned (s', false, none) := by
  unfold handleChipAuthenticationPublicKeyInfo
  simp only [h, Bool.not_true, Bool.false_eq_true, if_false]
  split
  · simp
  · simp

theorem handleTerminalAuthenticationInfo_skip (env : Env) (oid : ObjectIdentifier) (data : List Byte)
    (s : SecurityInfos) (h : isTerminalAuthenticationInfo env oid = false) :
    handleTerminalAuthenticationInfo env oid data s = .returned (s, false, none) := by
  simp [handleTerminalAuthenticationInfo, h]

theorem handleTerminalAuthenticationInfo_take (env : Env) (oid : ObjectIdentifier) (data : List Byte)
    (s : SecurityInfos) (h : isTerminalAuthenticationInfo env oid = true) (s' : SecurityInfos) :
    handleTerminalAuthenticationInfo env oid data s ≠ .returned (s', false, none) := by
  unfold handleTerminalAuthenticationInfo
  simp only [h, Bool.not_true, Bool.false_eq_true, if_false]
  split
  · simp
  · simp

theorem handleEfDirInfo_skip (env : Env) (oid : ObjectIdentifier) (data : List Byte)
    (s : SecurityInfos) (h : isEFDIRInfo env oid = false) :
    handleEfDirInfo env oid data s = .returned (s, false, none) := by
  simp [handleEfDirInfo, h]

theorem handleEfDirInfo_take (env : Env) (oid : ObjectIdentifier) (data : List Byte)
    (s : SecurityInfos) (h : isEFDIRInfo env oid = true) (s' : SecurityInfos) :
    handleEfDirInfo env oid data s ≠ .returned (s', false, none) := by
  unfold handleEfDirInfo
  simp only [h, Bool.not_true, Bool.false_eq_true, if_false]
  split
  · simp
  · simp

/-- First-match form of the handler chain: the loop over
`securityInfoHandleFnArr` ends with the result of the first handler, in the
order of the array, whose predicate holds, and with the catch-all when none
does. -/
theorem runHandlers_dispatch (env : Env) (oid : ObjectIdentifier) (data : List Byte)
    (s : SecurityInfos) :
    runHandlers (securityInfoHandleFnArr env) oid data s =
      if isPACEInfo env oid then handlePaceInfo env oid data s
      else if isPACEDomainParameterInfo env oid then handlePaceDomainParameterInfo env oid data s
      else if isActiveAuthenticationInfo env oid then
        handleActiveAuthenticationInfo env oid data s
      else if isChipAuthenticationInfo env oid then handleChipAuthenticationInfo env oid data s
      else if isChipAuthenticationPublicKeyInfo env oid then
        handleChipAuthenticationPublicKeyInfo env oid data s
      else if isTerminalAuthenticationInfo env oid then
        handleTerminalAuthenticationInfo env oid data s
      else if isEFDIRInfo env oid then handleEfDirInfo env oid data s
      else handleUnsupportedInfo env oid data s := by
  unfold securityInfoHandleFnArr
  cases h_isPACEInfo : isPACEInfo env oid with
  | true =>
    simp only [if_true, Bool.false_eq_true, if_false]
    exact runHandlers_cons_take _ _ _ _ _ (handlePaceInfo_take env oid data s h_isPACEInfo)
  | false =>
    rw [runHandlers_cons_skip _ _ _ _ _ (handlePaceInfo_skip env oid data s h_isPACEInfo)]
    cases h_isPACEDomainParameterInfo : isPACEDomainParameterInfo env oid with
    | true =>
      simp only [if_true, Bool.false_eq_true, if_false]
      exact runHandlers_cons_take _ _ _ _ _ (handlePaceDomainParameterInfo_take env oid data s h_isPACEDomainParameterInfo)
    | false =>
      rw [runHandlers_cons_skip _ _ _ _ _ (handlePaceDomainParameterInfo_skip env oid data s h_isPACEDomainParameterInfo)]
      cases h_isActiveAuthenticationInfo : isActiveAuthenticationInfo env oid with
      | true =>
        simp only [if_true, Bool.false_eq_true, if_false]
        exact runHandlers_cons_take _ _ _ _ _ (handleActiveAuthenticationInfo_take env oid data s h_isActiveAuthenticationInfo)
      | false =>
        rw [runHandlers_cons_skip _ _ _ _ _ (handleActiveAuthenticationInfo_skip env oid data s h_isActiveAuthenticationInfo)]
        cases h_isChipAuthenticationInfo : isChipAuthenticationInfo env oid with
        | true =>
          simp only [if_true, Bool.false_eq_true, if_false]
          exact runHandlers_cons_take _ _ _ _ _ (handleChipAuthenticationInfo_take env oid data s h_isChipAuthenticationInfo)
        | false =>
          rw [runHandlers_cons_skip _ _ _ _ _ (handleChipAuthenticationInfo_skip env oid data s h_isChipAuthenticationInfo)]
          cases h_isChipAuthenticationPublicKeyInfo : isChipAuthenticationPublicKeyInfo env oid with
          | true =>
            simp only [if_true, Bool.false_eq_true, if_false]
            exact runHandlers_cons_take _ _ _ _ _ (handleChipAuthenticationPublicKeyInfo_take env oid data s h_isChipAuthenticationPublicKeyInfo)
          | false =>
            rw [runHandlers_cons_skip _ _ _ _ _ (handleChipAuthenticationPublicKeyInfo_skip env oid data s h_isChipAuthenticationPublicKeyInfo)]
            cases h_isTerminalAuthenticationInfo : isTerminalAuthenticationInfo env oid with
            | true =>
              simp only [if_true, Bool.false_eq_true, if_false]
              exact runHandlers_cons_take _ _ _ _ _ (handleTerminalAuthenticationInfo_take env oid data s h_isTerminalAuthenticationInfo)
            | false =>
              rw [runHandlers_cons_skip _ _ _ _ _ (handleTerminalAuthenticationInfo_skip env oid data s h_isTerminalAuthenticationInfo)]
              cases h_isEFDIRInfo : isEFDIRInfo env oid with
              | true =>
                simp only [if_true, Bool.false_eq_true, if_false]
                exact runHandlers_cons_take _ _ _ _ _ (handleEfDirInfo_take env oid data s h_isEFDIRInfo)
              | false =>
                rw [runHandlers_cons_skip _ _ _ _ _ (handleEfDirInfo_skip env oid data s h_isEFDIRInfo)]
                simp only [Bool.false_eq_true, if_false]
                unfold runHandlers
                split
                · next heq => rw [heq]
                · next heq => rw [heq]
                · next heq => rw [heq]
                · next s1 heq =>
                  exfalso
                  unfold handleUnsupportedInfo at heq
                  split at heq <;> simp at heq

end document

namespace document

theorem isPresentIn_iff (raw : List Byte) (l : List SecurityInfoOid) :
    isPresentIn raw l = true ↔ ∃ y ∈ l, raw = y.Raw := by
  induction l with
  | nil => simp [isPresentIn]
  | cons y ys ih =>
    unfold isPresentIn
    by_cases h : raw = y.Raw
    · simp [h]
    · simp [h, ih]

theorem containsLoop_iff (ra rs : List SecurityInfoOid) :
    containsLoop ra rs = true ↔ ∀ x ∈ rs, ∃ y ∈ ra, x.Raw = y.Raw := by
  induction rs with
  | nil => simp [containsLoop]
  | cons x xs ih =>
    unfold containsLoop
    cases hp : isPresentIn x.Raw ra with
    | true =>
      have := (isPresentIn_iff x.Raw ra).1 hp
      simp [ih, this]
    | false =>
      have hn : ¬ ∃ y ∈ ra, x.Raw = y.Raw := by
        intro hex
        have := (isPresentIn_iff x.Raw ra).2 hex
        rw [hp] at this
        exact Bool.false_ne_true this
      simp only [Bool.not_false, if_true, Bool.false_eq_true, false_iff]
      intro hall
      exact hn (hall x (List.mem_cons_self _ _))

/-- **C4** Containment: when the raw data of both descriptors sniff into
record sequences, `Contains` is true exactly when every record of the candidate
has the raw bytes of some record of the receiver; hence it is true for a
candidate without records and false when one candidate record is missing. -/
theorem Contains_iff_subset (env : Env) (secInfos subset : SecurityInfos)
    (ra rs : List SecurityInfoOid)
    (ha : env.parseOidSet secInfos.RawData = .ok ra)
    (hs : env.parseOidSet subset.RawData = .ok rs) :
    (secInfos.Contains env subset = true ↔ ∀ x ∈ rs, ∃ y ∈ ra, x.Raw = y.Raw) ∧
    (rs = [] → secInfos.Contains env subset = true) ∧
    ((∃ x ∈ rs, ∀ y ∈ ra, x.Raw ≠ y.Raw) → secInfos.Contains env subset = false) := by
  have hc : secInfos.Contains env subset = containsLoop ra rs := by
    simp [SecurityInfos.Contains, ha, hs]
  rw [hc]
  refine ⟨containsLoop_iff ra rs, ?_, ?_⟩
  · intro h; subst h; rfl
  · rintro ⟨x, hx, hne⟩
    cases hl : containsLoop ra rs with
    | false => rfl
    | true =>
      obtain ⟨y, hy, hxy⟩ := (containsLoop_iff ra rs).1 hl x hx
      exact absurd hxy (hne y hy)

/-- A candidate holding two of the three records of the receiver, in another
order. -/
theorem Contains_iff_subset_witness :
    (sampleDescriptor.Contains sampleEnv (emptySecurityInfos (sampleUnknownRecord ++ samplePaceRecord))
        = true ↔
      ∀ x ∈ [(⟨sampleUnknownRecord, [1, 2, 3]⟩ : SecurityInfoOid),
              ⟨samplePaceRecord, [0, 4, 0, 127, 0, 7, 2, 2, 4, 2, 2]⟩],
        ∃ y ∈ [(⟨samplePaceRecord, [0, 4, 0, 127, 0, 7, 2, 2, 4, 2, 2]⟩ : SecurityInfoOid),
                ⟨sampleTaRecord, [0, 4, 0, 127, 0, 7, 2, 2, 2]⟩,
                ⟨sampleUnknownRecord, [1, 2, 3]⟩], x.Raw = y.Raw) ∧
    sampleDescriptor.Contains sampleEnv (emptySecurityInfos (sampleUnknownRecord ++ samplePaceRecord))
        = true :=
  ⟨(Contains_iff_subset sampleEnv sampleDescriptor
      (emptySecurityInfos (sampleUnknownRecord ++ samplePaceRecord)) _ _ rfl rfl).1, by decide⟩

end document

namespace document

theorem processRecords_cons (env : Env) (r : SecurityInfoOid) (rs : List SecurityInfoOid)
    (s : SecurityInfos) :
    processRecords env (r :: rs) s =
      match runHandlers (securityInfoHandleFnArr env) r.Protocol r.Raw s with
      | .panicked msg => .panicked msg
      | .returned (_, _, some err) => .returned (none, some err)
      | .returned (secInfos', handled, none) =>
        if !handled then .panicked notHandledPanic
        else processRecords env rs secInfos' := by
  rw [processRecords]

/-- The record loop over a concatenation: the second part starts from the
descriptor the first part ended with, and a panic or an error of the first part
is the result. -/
theorem processRecords_append (env : Env) (pre rest : List SecurityInfoOid)
    (s : SecurityInfos) :
    processRecords env (pre ++ rest) s =
      match processRecords env pre s with
      | .panicked msg => .panicked msg
      | .returned (some s', none) => processRecords env rest s'
      | .returned x => .returned x := by
  induction pre generalizing s with
  | nil => simp [processRecords]
  | cons r rs ih =>
    simp only [List.cons_append, processRecords_cons]
    split
    · rfl
    · rfl
    · next s1 hd heq =>
      cases hd with
      | false => rfl
      | true => simp only [Bool.not_true, Bool.false_eq_true, if_false]; exact ih s1

/-- The record loop never returns a descriptor together with an error, nor
neither of them. -/
theorem processRecords_shape (env : Env) (recs : List SecurityInfoOid) (s : SecurityInfos)
    (d : Option SecurityInfos) (e : Option Error)
    (h : processRecords env recs s = .returned (d, e)) :
    (d = none ∧ e ≠ none) ∨ (d ≠ none ∧ e = none) := by
  induction recs generalizing s with
  | nil => simp [processRecords] at h; obtain ⟨rfl, rfl⟩ := h; simp
  | cons r rs ih =>
    unfold processRecords at h
    split at h
    · simp at h
    · simp at h; obtain ⟨rfl, rfl⟩ := h; simp
    · next s1 hd heq =>
      cases hd with
      | false => simp at h
      | true => simp at h; exact ih s1 h

/-- A PACE record whose decoded version is not 2 makes the handler chain
panic. -/
theorem runHandlers_pace_version (env : Env) (oid : ObjectIdentifier) (data : List Byte)
    (s : SecurityInfos) (p : PaceInfo) (hd : isPACEInfo env oid = true)
    (hp : env.parsePaceInfo data = .ok p) (hv : p.Version ≠ 2) :
    runHandlers (securityInfoHandleFnArr env) oid data s = .panicked (paceVersionPanic p.Version) := by
  rw [runHandlers_dispatch]
  simp [hd, handlePaceInfo, hp, hv]

/-- **C5, as amended** PACE version invariant: when the sniffed records hold a
record whose identifier satisfies `isPACEInfo` and that decodes as a `PaceInfo`
with `Version != 2`, `DecodeSecurityInfos` returns no descriptor; and when the
records before it were classified, so that this record is dispatched to the
PACE-info handler, the call does not return at all: it panics with the
message of `log.Panicf`, and no error value reaches the caller. -/
theorem DecodeSecurityInfos_pace_version (env : Env) (b : List Byte)
    (pre post : List SecurityInfoOid) (r : SecurityInfoOid) (p : PaceInfo)
    (hs : env.parseOidSet b = .ok (pre ++ r :: post))
    (hd : isPACEInfo env r.Protocol = true)
    (hp : env.parsePaceInfo r.Raw = .ok p) (hv : p.Version ≠ 2) :
    (∀ d e, DecodeSecurityInfos env b ≠ .returned (some d, e)) ∧
    (∀ s, processRecords env pre (emptySecurityInfos b) = .returned (some s, none) →
      DecodeSecurityInfos env b = .panicked (paceVersionPanic p.Version)) := by
  have hstep : ∀ s, processRecords env (r :: post) s = .panicked (paceVersionPanic p.Version) := by
    intro s
    rw [processRecords_cons, runHandlers_pace_version env _ _ s p hd hp hv]
  have hdec : DecodeSecurityInfos env b
      = processRecords env (pre ++ r :: post) (emptySecurityInfos b) := by
    simp [DecodeSecurityInfos, hs]
  rw [hdec, processRecords_append]
  constructor
  · intro d e
    split
    · simp
    · next s' heq => rw [hstep]; simp
    · next x hx heq =>
      intro hret
      simp only [Outcome.returned.injEq] at hret
      subst hret
      rcases processRecords_shape env pre _ _ _ heq with ⟨h1, _⟩ | ⟨_, h2⟩
      · simp at h1
      · subst h2; exact hx d rfl
  · intro s hpre
    rw [hpre]
    exact hstep s

/-- Three records whose second one is a PACE record with version 1. -/
theorem DecodeSecurityInfos_pace_version_witness :
    (∀ d e, DecodeSecurityInfos sampleEnv sampleVersionInput ≠ .returned (some d, e)) ∧
    (∀ s, processRecords sampleEnv [⟨samplePaceRecord, [0, 4, 0, 127, 0, 7, 2, 2, 4, 2, 2]⟩]
          (emptySecurityInfos sampleVersionInput) = .returned (some s, none) →
      DecodeSecurityInfos sampleEnv sampleVersionInput = .panicked (paceVersionPanic 1)) :=
  DecodeSecurityInfos_pace_version sampleEnv sampleVersionInput
    [⟨samplePaceRecord, [0, 4, 0, 127, 0, 7, 2, 2, 4, 2, 2]⟩]
    [⟨sampleTaRecord, [0, 4, 0, 127, 0, 7, 2, 2, 2]⟩]
    ⟨samplePaceRecordV1, [0, 4, 0, 127, 0, 7, 2, 2, 4, 2, 2]⟩
    { Raw := samplePaceRecordV1, Protocol := [0, 4, 0, 127, 0, 7, 2, 2, 4, 2, 2], Version := 1,
      ParameterId := none }
    rfl (by decide) rfl (by decide)

/-- **C5, counterexample** A two-record input whose second record is a PACE
record with version 1: `DecodeSecurityInfos` panics; it does not return an
error. -/
theorem DecodeSecurityInfos_pace_version_panics :
    isPACEInfo sampleEnv [0, 4, 0, 127, 0, 7, 2, 2, 4, 2, 2] = true ∧
    (sampleEnv.parsePaceInfo samplePaceRecordV1).toOption.map (fun p => p.Version) = some 1 ∧
    DecodeSecurityInfos sampleEnv (samplePaceRecord ++ samplePaceRecordV1)
      = .panicked "PaceInfo version must be 2 (Version:1)" ∧
    ¬ ∃ err, DecodeSecurityInfos sampleEnv (samplePaceRecord ++ samplePaceRecordV1)
      = .returned (none, some err) := by
  refine ⟨by decide, by decide, by decide, ?_⟩
  rintro ⟨err, h⟩
  have : DecodeSecurityInfos sampleEnv (samplePaceRecord ++ samplePaceRecordV1)
      = .panicked "PaceInfo version must be 2 (Version:1)" := by decide
  rw [this] at h
  simp at h

/-- When the structured decode of the handler a record is dispatched to
fails, the handler chain reports that error and leaves the descriptor as it
was. -/
theorem runHandlers_decode_error (env : Env) (r : SecurityInfoOid) (s : SecurityInfos)
    (err : Error) (h : matchedDecodeError env r = some err) :
    runHandlers (securityInfoHandleFnArr env) r.Protocol r.Raw s
      = .returned (s, false, some err) := by
  rw [runHandlers_dispatch]
  unfold matchedDecodeError at h
  have key : ∀ {α : Type} (x : Except Error α), errorOf x = some err → x = .error err := by
    intro α x hx
    cases x with
    | error e => simp [errorOf] at hx; rw [hx]
    | ok a => simp [errorOf] at hx
  split at h
  · next h1 => rw [if_pos h1]; simp [handlePaceInfo, h1, key _ h]
  · next h1 =>
    rw [if_neg h1]
    split at h
    · next h2 => rw [if_pos h2]; simp [handlePaceDomainParameterInfo, h2, key _ h]
    · next h2 =>
      rw [if_neg h2]
      split at h
      · next h3 => rw [if_pos h3]; simp [handleActiveAuthenticationInfo, h3, key _ h]
      · next h3 =>
        rw [if_neg h3]
        split at h
        · next h4 => rw [if_pos h4]; simp [handleChipAuthenticationInfo, h4, key _ h]
        · next h4 =>
          rw [if_neg h4]
          split at h
          · next h5 =>
            rw [if_pos h5]; simp [handleChipAuthenticationPublicKeyInfo, h5, key _ h]
          · next h5 =>
            rw [if_neg h5]
            split at h
            · next h6 =>
              rw [if_pos h6]; simp [handleTerminalAuthenticationInfo, h6, key _ h]
            · next h6 =>
              rw [if_neg h6]
              split at h
              · next h7 => rw [if_pos h7]; simp [handleEfDirInfo, h7, key _ h]
              · next h7 => rw [if_neg h7]; simp [handleUnsupportedInfo, key _ h]

/-- **C6** Atomicity of classification: a failed sniff is returned with a nil
descriptor; when the structured decode of the handler matched by a record
fails, whatever the number of records classified before it and after it, that
error is returned with a nil descriptor; and no result of
`DecodeSecurityInfos` carries both a descriptor and an error. -/
theorem DecodeSecurityInfos_atomic (env : Env) (b : List Byte) :
    (∀ err, env.parseOidSet b = .error err →
      DecodeSecurityInfos env b = .returned (none, some err)) ∧
    (∀ pre post r s err, env.parseOidSet b = .ok (pre ++ r :: post) →
      processRecords env pre (emptySecurityInfos b) = .returned (some s, none) →
      matchedDecodeError env r = some err →
      DecodeSecurityInfos env b = .returned (none, some err)) ∧
    (∀ d err, DecodeSecurityInfos env b = .returned (d, some err) → d = none) := by
  refine ⟨?_, ?_, ?_⟩
  · intro err h
    simp [DecodeSecurityInfos, h]
  · intro pre post r s err hs hpre hrun
    have hdec : DecodeSecurityInfos env b
        = processRecords env (pre ++ r :: post) (emptySecurityInfos b) := by
      simp [DecodeSecurityInfos, hs]
    rw [hdec, processRecords_append, hpre]
    simp only
    rw [processRecords_cons, runHandlers_decode_error env r s err hrun]
  · intro d err h
    unfold DecodeSecurityInfos at h
    split at h
    · simp at h; exact h.1.symm
    · rcases processRecords_shape env _ _ _ _ h with ⟨h1, _⟩ | ⟨_, h2⟩
      · exact h1
      · simp at h2

end document

namespace document

theorem handlePaceInfo_lengths (env : Env) (oid : ObjectIdentifier) (data : List Byte)
    (s s' : SecurityInfos) (e : Option Error)
    (h : handlePaceInfo env oid data s = .returned (s', true, e)) (k : Nat) :
    s'.listLength k = s.listLength k + (if 0 = k then 1 else 0) := by
  unfold handlePaceInfo at h
  repeat' split at h
  all_goals simp at h
  all_goals obtain ⟨rfl, -⟩ := h
  all_goals rcases k with _ | _ | _ | _ | _ | _ | _ | _ | k <;> simp [SecurityInfos.listLength]

theorem handlePaceDomainParameterInfo_lengths (env : Env) (oid : ObjectIdentifier) (data : List Byte)
    (s s' : SecurityInfos) (e : Option Error)
    (h : handlePaceDomainParameterInfo env oid data s = .returned (s', true, e)) (k : Nat) :
    s'.listLength k = s.listLength k + (if 1 = k then 1 else 0) := by
  unfold handlePaceDomainParameterInfo at h
  repeat' split at h
  all_goals simp at h
  all_goals obtain ⟨rfl, -⟩ := h
  all_goals rcases k with _ | _ | _ | _ | _ | _ | _ | _ | k <;> simp [SecurityInfos.listLength]

theorem handleActiveAuthenticationInfo_lengths (env : Env) (oid : ObjectIdentifier) (data : List Byte)
    (s s' : SecurityInfos) (e : Option Error)
    (h : handleActiveAuthenticationInfo env oid data s = .returned (s', true, e)) (k : Nat) :
    s'.listLength k = s.listLength k + (if 2 = k then 1 else 0) := by
  unfold handleActiveAuthenticationInfo at h
  repeat' split at h
  all_goals simp at h
  all_goals obtain ⟨rfl, -⟩ := h
  all_goals rcases k with _ | _ | _ | _ | _ | _ | _ | _ | k <;> simp [SecurityInfos.listLength]

theorem handleChipAuthenticationInfo_lengths (env : Env) (oid : ObjectIdentifier) (data : List Byte)
    (s s' : SecurityInfos) (e : Option Error)
    (h : handleChipAuthenticationInfo env oid data s = .returned (s', true, e)) (k : Nat) :
    s'.listLength k = s.listLength k + (if 3 = k then 1 else 0) := by
  unfold handleChipAuthenticationInfo at h
  repeat' split at h
  all_goals simp at h
  all_goals obtain ⟨rfl, -⟩ := h
  all_goals rcases k with _ | _ | _ | _ | _ | _ | _ | _ | k <;> simp [SecurityInfos.listLength]

theorem handleChipAuthenticationPublicKeyInfo_lengths (env : Env) (oid : ObjectIdentifier) (data : List Byte)
    (s s' : SecurityInfos) (e : Option Error)
    (h : handleChipAuthenticationPublicKeyInfo env oid data s = .returned (s', true, e)) (k : Nat) :
    s'.listLength k = s.listLength k + (if 4 = k then 1 else 0) := by
  unfold handleChipAuthenticationPublicKeyInfo at h
  repeat' split at h
  all_goals simp at h
  all_goals obtain ⟨rfl, -⟩ := h
  all_goals rcases k with _ | _ | _ | _ | _ | _ | _ | _ | k <;> simp [SecurityInfos.listLength]

theorem handleTerminalAuthenticationInfo_lengths (env : Env) (oid : ObjectIdentifier) (data : List Byte)
    (s s' : SecurityInfos) (e : Option Error)
    (h : handleTerminalAuthenticationInfo env oid data s = .returned (s', true, e)) (k : Nat) :
    s'.listLength k = s.listLength k + (if 5 = k then 1 else 0) := by
  unfold handleTerminalAuthenticationInfo at h
  repeat' split at h
  all_goals simp at h
  all_goals obtain ⟨rfl, -⟩ := h
  all_goals rcases k with _ | _ | _ | _ | _ | _ | _ | _ | k <;> simp [SecurityInfos.listLength]

theorem handleEfDirInfo_lengths (env : Env) (oid : ObjectIdentifier) (data : List Byte)
    (s s' : SecurityInfos) (e : Option Error)
    (h : handleEfDirInfo env oid data s = .returned (s', true, e)) (k : Nat) :
    s'.listLength k = s.listLength k + (if 6 = k then 1 else 0) := by
  unfold handleEfDirInfo at h
  repeat' split at h
  all_goals simp at h
  all_goals obtain ⟨rfl, -⟩ := h
  all_goals rcases k with _ | _ | _ | _ | _ | _ | _ | _ | k <;> simp [SecurityInfos.listLength]

theorem handleUnsupportedInfo_lengths (env : Env) (oid : ObjectIdentifier) (data : List Byte)
    (s s' : SecurityInfos) (e : Option Error)
    (h : handleUnsupportedInfo env oid data s = .returned (s', true, e)) (k : Nat) :
    s'.listLength k = s.listLength k + (if 7 = k then 1 else 0) := by
  unfold handleUnsupportedInfo at h
  repeat' split at h
  all_goals simp at h
  all_goals obtain ⟨rfl, -⟩ := h
  all_goals rcases k with _ | _ | _ | _ | _ | _ | _ | _ | k <;> simp [SecurityInfos.listLength]

/-- A record that the handler chain takes adds one entry to the list of the
first handler whose predicate holds, and none to the other lists. -/
theorem runHandlers_lengths (env : Env) (oid : ObjectIdentifier) (data : List Byte)
    (s s' : SecurityInfos) (e : Option Error)
    (h : runHandlers (securityInfoHandleFnArr env) oid data s = .returned (s', true, e))
    (k : Nat) :
    s'.listLength k = s.listLength k + (if handlerIndex env oid = k then 1 else 0) := by
  rw [runHandlers_dispatch] at h
  unfold handlerIndex
  cases h_isPACEInfo : isPACEInfo env oid with
  | true =>
    simp only [h_isPACEInfo, if_true, Bool.false_eq_true, if_false] at h ⊢
    exact handlePaceInfo_lengths env oid data s s' e h k
  | false =>
    cases h_isPACEDomainParameterInfo : isPACEDomainParameterInfo env oid with
    | true =>
      simp only [h_isPACEInfo, h_isPACEDomainParameterInfo, if_true, Bool.false_eq_true, if_false] at h ⊢
      exact handlePaceDomainParameterInfo_lengths env oid data s s' e h k
    | false =>
      cases h_isActiveAuthenticationInfo : isActiveAuthenticationInfo env oid with
      | true =>
        simp only [h_isPACEInfo, h_isPACEDomainParameterInfo, h_isActiveAuthenticationInfo, if_true, Bool.false_eq_true, if_false] at h ⊢
        exact handleActiveAuthenticationInfo_lengths env oid data s s' e h k
      | false =>
        cases h_isChipAuthenticationInfo : isChipAuthenticationInfo env oid with
        | true =>
          simp only [h_isPACEInfo, h_isPACEDomainParameterInfo, h_isActiveAuthenticationInfo, h_isChipAuthenticationInfo, if_true, Bool.false_eq_true, if_false] at h ⊢
          exact handleChipAuthenticationInfo_lengths env oid data s s' e h k
        | false =>
          cases h_isChipAuthenticationPublicKeyInfo : isChipAuthenticationPublicKeyInfo env oid with
          | true =>
            simp only [h_isPACEInfo, h_isPACEDomainParameterInfo, h_isActiveAuthenticationInfo, h_isChipAuthenticationInfo, h_isChipAuthenticationPublicKeyInfo, if_true, Bool.false_eq_true, if_false] at h ⊢
            exact handleChipAuthenticationPublicKeyInfo_lengths env oid data s s' e h k
          | false =>
            cases h_isTerminalAuthenticationInfo : isTerminalAuthenticationInfo env oid with
            | true =>
              simp only [h_isPACEInfo, h_isPACEDomainParameterInfo, h_isActiveAuthenticationInfo, h_isChipAuthenticationInfo, h_isChipAuthenticationPublicKeyInfo, h_isTerminalAuthenticationInfo, if_true, Bool.false_eq_true, if_false] at h ⊢
              exact handleTerminalAuthenticationInfo_lengths env oid data s s' e h k
            | false =>
              cases h_isEFDIRInfo : isEFDIRInfo env oid with
              | true =>
                simp only [h_isPACEInfo, h_isPACEDomainParameterInfo, h_isActiveAuthenticationInfo, h_isChipAuthenticationInfo, h_isChipAuthenticationPublicKeyInfo, h_isTerminalAuthenticationInfo, h_isEFDIRInfo, if_true, Bool.false_eq_true, if_false] at h ⊢
                exact handleEfDirInfo_lengths env oid data s s' e h k
              | false =>
                simp only [h_isPACEInfo, h_isPACEDomainParameterInfo, h_isActiveAuthenticationInfo, h_isChipAuthenticationInfo, h_isChipAuthenticationPublicKeyInfo, h_isTerminalAuthenticationInfo, h_isEFDIRInfo, Bool.false_eq_true, if_false] at h ⊢
                exact handleUnsupportedInfo_lengths env oid data s s' e h k

end document

namespace document

/-- The record loop adds, to each list, one entry per record whose first
matching handler is the one of that list. -/
theorem processRecords_lengths (env : Env) (recs : List SecurityInfoOid)
    (s d : SecurityInfos) (e : Option Error)
    (h : processRecords env recs s = .returned (some d, e)) (k : Nat) :
    d.listLength k
      = s.listLength k + recs.countP (fun r => decide (handlerIndex env r.Protocol = k)) := by
  induction recs generalizing s with
  | nil => simp [processRecords] at h; obtain ⟨rfl, -⟩ := h; simp
  | cons r rs ih =>
    rw [processRecords_cons] at h
    split at h
    · simp at h
    · simp at h
    · next s1 hd heq =>
      cases hd with
      | false => simp at h
      | true =>
        simp only [Bool.not_true, Bool.false_eq_true, if_false] at h
        have h1 := runHandlers_lengths env _ _ _ _ _ heq k
        have h2 := ih s1 h
        rw [h2, h1, List.countP_cons]
        by_cases hk : handlerIndex env r.Protocol = k <;> simp [hk]; omega

/-- **C2** Classifier totality: whenever `DecodeSecurityInfos` returns a
descriptor, the input was sniffed into a record sequence, every sniffed record
was appended to exactly one of the eight lists (the list at position `k` has
one entry per record whose first matching handler is at position `k`), and
`GetTotalCnt` of the descriptor, the sum of the eight list lengths, is the
number of sniffed records. -/
theorem DecodeSecurityInfos_total_count (env : Env) (b : List Byte) (d : SecurityInfos)
    (e : Option Error) (h : DecodeSecurityInfos env b = .returned (some d, e)) :
    ∃ recs, env.parseOidSet b = .ok recs ∧ d.GetTotalCnt = recs.length ∧
      d.GetTotalCnt = ((List.range 8).map d.listLength).sum ∧
      ∀ k, d.listLength k = recs.countP (fun r => decide (handlerIndex env r.Protocol = k)) := by
  unfold DecodeSecurityInfos at h
  split at h
  · simp at h
  · next recs heq =>
    refine ⟨recs, heq, ?_, ?_, ?_⟩
    · have := (processRecords_count env recs _ d e h).1
      simpa [emptySecurityInfos, SecurityInfos.GetTotalCnt] using this
    · simp [SecurityInfos.GetTotalCnt, SecurityInfos.listLength, List.range, List.range.loop]
      omega
    · intro k
      rw [processRecords_lengths env recs _ d e h k]
      rcases k with _ | _ | _ | _ | _ | _ | _ | _ | k <;>
        simp [SecurityInfos.listLength, emptySecurityInfos]

/-- Three records, one PACE, one Terminal Authentication, one unknown: three
entries. -/
theorem DecodeSecurityInfos_total_count_witness :
    ∃ recs, sampleEnv.parseOidSet sampleInput = .ok recs ∧
      sampleDescriptor.GetTotalCnt = recs.length ∧
      sampleDescriptor.GetTotalCnt = ((List.range 8).map sampleDescriptor.listLength).sum ∧
      ∀ k, sampleDescriptor.listLength k
        = recs.countP (fun r => decide (handlerIndex sampleEnv r.Protocol = k)) :=
  DecodeSecurityInfos_total_count sampleEnv sampleInput sampleDescriptor none (by decide)

/-- **C3** Classifier order: for every record the handler loop of
`DecodeSecurityInfos` ends with the result of the first handler, in the order
PACE info, PACE domain-parameter info, Active Authentication, Chip
Authentication, Chip Authentication public key, Terminal Authentication,
EF.DIR, unhandled, whose predicate holds; a record whose identifier satisfies
both `isPACEInfo` and `isPACEDomainParameterInfo` gets the result of
`handlePaceInfo` and leaves `PaceDomainParamInfos` as it was; and in a returned
descriptor the list at position `k` has one entry per sniffed record whose
first matching handler is at position `k`. -/
theorem DecodeSecurityInfos_first_match (env : Env) :
    (∀ oid data s,
      runHandlers (securityInfoHandleFnArr env) oid data s =
        if isPACEInfo env oid then handlePaceInfo env oid data s
        else if isPACEDomainParameterInfo env oid then
          handlePaceDomainParameterInfo env oid data s
        else if isActiveAuthenticationInfo env oid then
          handleActiveAuthenticationInfo env oid data s
        else if isChipAuthenticationInfo env oid then
          handleChipAuthenticationInfo env oid data s
        else if isChipAuthenticationPublicKeyInfo env oid then
          handleChipAuthenticationPublicKeyInfo env oid data s
        else if isTerminalAuthenticationInfo env oid then
          handleTerminalAuthenticationInfo env oid data s
        else if isEFDIRInfo env oid then handleEfDirInfo env oid data s
        else handleUnsupportedInfo env oid data s) ∧
    (∀ oid data s, isPACEInfo env oid = true → isPACEDomainParameterInfo env oid = true →
      runHandlers (securityInfoHandleFnArr env) oid data s = handlePaceInfo env oid data s ∧
      ∀ s' hd e, runHandlers (securityInfoHandleFnArr env) oid data s = .returned (s', hd, e) →
        s'.PaceDomainParamInfos = s.PaceDomainParamInfos) ∧
    (∀ b recs d e, env.parseOidSet b = .ok recs →
      DecodeSecurityInfos env b = .returned (some d, e) →
      ∀ k, d.listLength k = recs.countP (fun r => decide (handlerIndex env r.Protocol = k))) := by
  refine ⟨fun oid data s => runHandlers_dispatch env oid data s, ?_, ?_⟩
  · intro oid data s h1 _
    have hrun : runHandlers (securityInfoHandleFnArr env) oid data s
        = handlePaceInfo env oid data s := by
      rw [runHandlers_dispatch]; simp [h1]
    refine ⟨hrun, ?_⟩
    intro s' hd e h
    rw [hrun] at h
    cases hd with
    | false => rw [(handlePaceInfo_ok env _ _ _ _ _ _ h).1 rfl]
    | true =>
      unfold handlePaceInfo at h
      repeat' split at h
      all_goals simp at h
      obtain ⟨rfl, -⟩ := h
      rfl
  · intro b recs d e hs h k
    have hdec : DecodeSecurityInfos env b = processRecords env recs (emptySecurityInfos b) := by
      simp [DecodeSecurityInfos, hs]
    rw [hdec] at h
    rw [processRecords_lengths env recs _ d e h k]
    rcases k with _ | _ | _ | _ | _ | _ | _ | _ | k <;>
      simp [SecurityInfos.listLength, emptySecurityInfos]

/-- With `OidHasPrefix` read as "starts with", the identifier id-PACE-ECDH-GM
satisfies both PACE predicates, and the record goes to `handlePaceInfo`. -/
theorem DecodeSecurityInfos_first_match_witness :
    isPACEInfo sampleEnv [0, 4, 0, 127, 0, 7, 2, 2, 4, 2] = true ∧
    isPACEDomainParameterInfo sampleEnv [0, 4, 0, 127, 0, 7, 2, 2, 4, 2] = true ∧
    runHandlers (securityInfoHandleFnArr sampleEnv) [0, 4, 0, 127, 0, 7, 2, 2, 4, 2]
      samplePaceRootRecord (emptySecurityInfos samplePaceRootRecord)
      = handlePaceInfo sampleEnv [0, 4, 0, 127, 0, 7, 2, 2, 4, 2] samplePaceRootRecord
          (emptySecurityInfos samplePaceRootRecord) ∧
    ∀ s' hd e, runHandlers (securityInfoHandleFnArr sampleEnv) [0, 4, 0, 127, 0, 7, 2, 2, 4, 2]
        samplePaceRootRecord (emptySecurityInfos samplePaceRootRecord) = .returned (s', hd, e) →
      s'.PaceDomainParamInfos = (emptySecurityInfos samplePaceRootRecord).PaceDomainParamInfos :=
  ⟨by decide, by decide,
    (DecodeSecurityInfos_first_match sampleEnv).2.1 [0, 4, 0, 127, 0, 7, 2, 2, 4, 2]
      samplePaceRootRecord (emptySecurityInfos samplePaceRootRecord) (by decide) (by decide)⟩

/-- Three records whose second one does not decode: the error is returned
with a nil descriptor, though the first record was classified. -/
theorem DecodeSecurityInfos_atomic_witness :
    DecodeSecurityInfos sampleEnv sampleBadInput
      = .returned (none, some (.asn1 "structure error")) :=
  (DecodeSecurityInfos_atomic sampleEnv sampleBadInput).2.1
    [⟨samplePaceRecord, [0, 4, 0, 127, 0, 7, 2, 2, 4, 2, 2]⟩]
    [⟨sampleTaRecord, [0, 4, 0, 127, 0, 7, 2, 2, 2]⟩]
    ⟨sampleBadCaRecord, [0, 4, 0, 127, 0, 7, 2, 2, 3, 2, 2]⟩
    (sampleAfterPace sampleBadInput) (.asn1 "structure error") rfl (by decide) (by decide)

end document

namespace document

/-! ## The catch-all handler -/

/-- When none of the seven predicates holds, the handler chain ends with the
result of the catch-all handler. -/
theorem runHandlers_unsupported (env : Env) (oid : ObjectIdentifier) (data : List Byte)
    (s : SecurityInfos) (h : handlerIndex env oid = 7) :
    runHandlers (securityInfoHandleFnArr env) oid data s = handleUnsupportedInfo env oid data s := by
  rw [runHandlers_dispatch]
  unfold handlerIndex at h
  repeat' split at h
  all_goals first | omega | simp [*]

/-- The record loop started on `pre ++ r :: post`, once `pre` is classified. -/
theorem DecodeSecurityInfos_reached (env : Env) (b : List Byte)
    (pre post : List SecurityInfoOid) (r : SecurityInfoOid) (s : SecurityInfos)
    (hs : env.parseOidSet b = .ok (pre ++ r :: post))
    (hpre : processRecords env pre (emptySecurityInfos b) = .returned (some s, none)) :
    DecodeSecurityInfos env b = processRecords env (r :: post) s := by
  have hdec : DecodeSecurityInfos env b
      = processRecords env (pre ++ r :: post) (emptySecurityInfos b) := by
    simp [DecodeSecurityInfos, hs]
  rw [hdec, processRecords_append, hpre]

/-- **C13** Unknown protocols are never an error: a sniffed record whose
identifier satisfies none of the seven specific predicates, and whose raw bytes
`utils.ParseAsn1` reads back as the `{Raw, Protocol}` pair it was sniffed as,
is taken by the catch-all handler without an error: one entry with the
record's `Raw` and `Protocol` is appended to `UnhandledInfos`, the other lists
and `RawData` are unchanged, and `DecodeSecurityInfos` goes on with the next
record. -/
theorem unknown_protocol_unhandled (env : Env) (b : List Byte)
    (pre post : List SecurityInfoOid) (r : SecurityInfoOid) (s : SecurityInfos)
    (hs : env.parseOidSet b = .ok (pre ++ r :: post))
    (hpre : processRecords env pre (emptySecurityInfos b) = .returned (some s, none))
    (h1 : isPACEInfo env r.Protocol = false)
    (h2 : isPACEDomainParameterInfo env r.Protocol = false)
    (h3 : isActiveAuthenticationInfo env r.Protocol = false)
    (h4 : isChipAuthenticationInfo env r.Protocol = false)
    (h5 : isChipAuthenticationPublicKeyInfo env r.Protocol = false)
    (h6 : isTerminalAuthenticationInfo env r.Protocol = false)
    (h7 : isEFDIRInfo env r.Protocol = false)
    (hre : env.parseUnhandledInfo r.Raw = .ok { Raw := r.Raw, Protocol := r.Protocol }) :
    runHandlers (securityInfoHandleFnArr env) r.Protocol r.Raw s
      = .returned ({ s with UnhandledInfos :=
          s.UnhandledInfos ++ [{ Raw := r.Raw, Protocol := r.Protocol }] }, true, none) ∧
    DecodeSecurityInfos env b
      = processRecords env post { s with UnhandledInfos :=
          s.UnhandledInfos ++ [{ Raw := r.Raw, Protocol := r.Protocol }] } := by
  have hidx : handlerIndex env r.Protocol = 7 := by
    simp [handlerIndex, h1, h2, h3, h4, h5, h6, h7]
  have hrun : runHandlers (securityInfoHandleFnArr env) r.Protocol r.Raw s
      = .returned ({ s with UnhandledInfos :=
          s.UnhandledInfos ++ [{ Raw := r.Raw, Protocol := r.Protocol }] }, true, none) := by
    rw [runHandlers_unsupported env _ _ _ hidx]
    simp [handleUnsupportedInfo, hre]
  refine ⟨hrun, ?_⟩
  rw [DecodeSecurityInfos_reached env b pre post r s hs hpre, processRecords_cons, hrun]
  simp

/-- A PACE record followed by a record with the unknown identifier 1.2.3. -/
theorem unknown_protocol_unhandled_witness :
    runHandlers (securityInfoHandleFnArr sampleEnv) [1, 2, 3] sampleUnknownRecord
        (sampleAfterPace sampleUnknownInput)
      = .returned ({ sampleAfterPace sampleUnknownInput with UnhandledInfos :=
          [{ Raw := sampleUnknownRecord, Protocol := [1, 2, 3] }] }, true, none) ∧
    DecodeSecurityInfos sampleEnv sampleUnknownInput
      = processRecords sampleEnv [] { sampleAfterPace sampleUnknownInput with UnhandledInfos :=
          [{ Raw := sampleUnknownRecord, Protocol := [1, 2, 3] }] } :=
  unknown_protocol_unhandled sampleEnv sampleUnknownInput
    [⟨samplePaceRecord, [0, 4, 0, 127, 0, 7, 2, 2, 4, 2, 2]⟩] []
    ⟨sampleUnknownRecord, [1, 2, 3]⟩ (sampleAfterPace sampleUnknownInput)
    rfl (by decide) (by decide) (by decide) (by decide) (by decide) (by decide) (by decide)
    (by decide) rfl

/-! ## The closing panic of the record loop -/

/-- The handler chain never ends with `handled = false` and no error. -/
theorem runHandlers_handled (env : Env) (oid : ObjectIdentifier) (data : List Byte)
    (s s' : SecurityInfos) (hd : Bool)
    (h : runHandlers (securityInfoHandleFnArr env) oid data s = .returned (s', hd, none)) :
    hd = true := by
  rw [runHandlers_dispatch] at h
  cases hd with
  | true => rfl
  | false =>
    exfalso
    repeat' split at h
    · exact handlePaceInfo_take env oid data s (by assumption) s' h
    · exact handlePaceDomainParameterInfo_take env oid data s (by assumption) s' h
    · exact handleActiveAuthenticationInfo_take env oid data s (by assumption) s' h
    · exact handleChipAuthenticationInfo_take env oid data s (by assumption) s' h
    · exact handleChipAuthenticationPublicKeyInfo_take env oid data s (by assumption) s' h
    · exact handleTerminalAuthenticationInfo_take env oid data s (by assumption) s' h
    · exact handleEfDirInfo_take env oid data s (by assumption) s' h
    · unfold handleUnsupportedInfo at h
      split at h <;> simp at h

/-- Every panic of the record loop is the PACE version panic. -/
theorem processRecords_panic (env : Env) (recs : List SecurityInfoOid) (s : SecurityInfos)
    (msg : String) (h : processRecords env recs s = .panicked msg) :
    ∃ v : Int, v ≠ 2 ∧ msg = paceVersionPanic v := by
  induction recs generalizing s with
  | nil => simp [processRecords] at h
  | cons r rs ih =>
    rw [processRecords_cons] at h
    split at h
    · next m hrun =>
      simp at h; subst h
      rw [runHandlers_dispatch] at hrun
      repeat' split at hrun
      · unfold handlePaceInfo at hrun
        repeat' split at hrun
        all_goals first
          | (simp at hrun; done)
          | (next p _ hv => simp at hrun; exact ⟨p.Version, hv, hrun.symm⟩)
      · unfold handlePaceDomainParameterInfo at hrun
        repeat' split at hrun
        all_goals simp at hrun
      · unfold handleActiveAuthenticationInfo at hrun
        repeat' split at hrun
        all_goals simp at hrun
      · unfold handleChipAuthenticationInfo at hrun
        repeat' split at hrun
        all_goals simp at hrun
      · unfold handleChipAuthenticationPublicKeyInfo at hrun
        repeat' split at hrun
        all_goals simp at hrun
      · unfold handleTerminalAuthenticationInfo at hrun
        repeat' split at hrun
        all_goals simp at hrun
      · unfold handleEfDirInfo at hrun
        repeat' split at hrun
        all_goals simp at hrun
      · unfold handleUnsupportedInfo at hrun
        repeat' split at hrun
        all_goals simp at hrun
    · simp at h
    · next s1 hd hrun =>
      have := runHandlers_handled env _ _ _ _ _ hrun
      subst this
      simp only [Bool.not_true, Bool.false_eq_true, if_false] at h
      exact ih s1 h

theorem paceVersionPanic_ne (v : Int) : paceVersionPanic v ≠ notHandledPanic := by
  intro h
  have h1 := congrArg (fun s => s.data.head?) h
  simp [paceVersionPanic, notHandledPanic, String.data_append] at h1

/-- **C17** The panic "secInfo should have been handled" of
`DecodeSecurityInfos` is unreachable: whenever the handler loop ends for a
record without an error, `handled` is true, because the catch-all handler
returns either `(true, nil)` or `(false, err)` with `err` non-nil; hence no
input makes `DecodeSecurityInfos` panic with that message. -/
theorem not_handled_panic_unreachable (env : Env) :
    (∀ oid data s s' hd,
      runHandlers (securityInfoHandleFnArr env) oid data s = .returned (s', hd, none) →
      hd = true) ∧
    (∀ oid data s s' hd e, handleUnsupportedInfo env oid data s = .returned (s', hd, e) →
      (hd = true ∧ e = none) ∨ (hd = false ∧ e ≠ none)) ∧
    (∀ oid data s msg, handleUnsupportedInfo env oid data s ≠ .panicked msg) ∧
    (∀ b, DecodeSecurityInfos env b ≠ .panicked notHandledPanic) := by
  refine ⟨fun oid data s s' hd h => runHandlers_handled env oid data s s' hd h, ?_, ?_, ?_⟩
  · intro oid data s s' hd e h
    unfold handleUnsupportedInfo at h
    split at h
    · simp at h; obtain ⟨-, rfl, rfl⟩ := h; right; simp
    · simp at h; obtain ⟨-, rfl, rfl⟩ := h; left; simp
  · intro oid data s msg h
    unfold handleUnsupportedInfo at h
    split at h <;> simp at h
  · intro b h
    unfold DecodeSecurityInfos at h
    split at h
    · simp at h
    · obtain ⟨v, -, hv⟩ := processRecords_panic env _ _ _ h
      exact paceVersionPanic_ne v hv.symm

/-- The three-record sample, whose last record only the catch-all takes, is
classified without that panic. -/
theorem not_handled_panic_unreachable_witness :
    DecodeSecurityInfos sampleEnv sampleInput = .returned (some sampleDescriptor, none) ∧
    DecodeSecurityInfos sampleEnv sampleInput ≠ .panicked notHandledPanic :=
  ⟨by decide, (not_handled_panic_unreachable sampleEnv).2.2.2 sampleInput⟩

/-! ## `Contains` on data that does not sniff -/

/-- **C20** `Contains` fails closed: when the raw data of the receiver or of
the candidate cannot be sniffed into a record sequence, `Contains` is false,
whatever the other descriptor is, also when the candidate's raw data would
give no record to look for. -/
theorem Contains_unparsable (env : Env) (secInfos subset : SecurityInfos) :
    (∀ err, env.parseOidSet secInfos.RawData = .error err →
      secInfos.Contains env subset = false) ∧
    (∀ err, env.parseOidSet subset.RawData = .error err →
      secInfos.Contains env subset = false) := by
  constructor
  · intro err h
    simp [SecurityInfos.Contains, h]
  · intro err h
    unfold SecurityInfos.Contains
    split
    · rfl
    · simp [h]

/-- With the stand-in parser, which rejects an empty buffer: a descriptor
without raw data is contained in nothing and contains nothing, not even
itself. -/
theorem Contains_unparsable_witness :
    sampleDescriptor.Contains sampleEnv (emptySecurityInfos []) = false ∧
    (emptySecurityInfos []).Contains sampleEnv sampleDescriptor = false ∧
    (emptySecurityInfos []).Contains sampleEnv (emptySecurityInfos []) = false :=
  ⟨(Contains_unparsable sampleEnv sampleDescriptor (emptySecurityInfos [])).2
      (.asn1 "empty input") rfl,
   (Contains_unparsable sampleEnv (emptySecurityInfos []) sampleDescriptor).1
      (.asn1 "empty input") rfl,
   by decide⟩

/-! ## PACE domain parameters -/

/-- With `OidHasPrefix` read as "is a child under", an identifier is not a
child under an identifier with the same number of arcs. -/
theorem OidHasPrefix_same_length (a c : ObjectIdentifier) (h : a.length = c.length) :
    OidHasPrefix a c = false := by
  simp [OidHasPrefix, h]

/-- **C14** PACE domain-parameter classification: with `OidHasPrefix` as the
spec describes it ("is a child under") and the five PACE root identifiers
having the same number of arcs, a record whose identifier exactly equals one
of the five roots and whose body decodes as `{protocol, domainParameter,
optional parameterId}` is taken by `handlePaceDomainParameterInfo`: the decoded
entry is appended to `PaceDomainParamInfos`, no other list changes, and
`DecodeSecurityInfos` goes on with the next record. -/
theorem pace_domain_parameter_classified (env : Env) (b : List Byte)
    (pre post : List SecurityInfoOid) (r : SecurityInfoOid) (s : SecurityInfos)
    (p : PaceDomainParameterInfo)
    (hoid : env.OidHasPrefix = OidHasPrefix)
    (hroots : ∀ a ∈ paceRoots env, ∀ c ∈ paceRoots env, a.length = c.length)
    (hs : env.parseOidSet b = .ok (pre ++ r :: post))
    (hpre : processRecords env pre (emptySecurityInfos b) = .returned (some s, none))
    (hr : isPACEDomainParameterInfo env r.Protocol = true)
    (hp : env.parsePaceDomainParameterInfo r.Raw = .ok p) :
    isPACEInfo env r.Protocol = false ∧
    runHandlers (securityInfoHandleFnArr env) r.Protocol r.Raw s
      = .returned ({ s with PaceDomainParamInfos := s.PaceDomainParamInfos ++ [p] },
          true, none) ∧
    DecodeSecurityInfos env b
      = processRecords env post
          { s with PaceDomainParamInfos := s.PaceDomainParamInfos ++ [p] } := by
  have hmem : r.Protocol ∈ paceRoots env := by
    simp only [isPACEDomainParameterInfo, Bool.or_eq_true, beq_iff_eq] at hr
    simp only [paceRoots, List.mem_cons, List.mem_singleton, List.not_mem_nil, or_false]
    tauto
  have hno : ∀ c ∈ paceRoots env, env.OidHasPrefix r.Protocol c = false := by
    intro c hc
    rw [hoid]
    exact OidHasPrefix_same_length _ _ (hroots _ hmem _ hc)
  have h1 : isPACEInfo env r.Protocol = false := by
    simp only [isPACEInfo]
    rw [hno _ (by simp [paceRoots]), hno _ (by simp [paceRoots]), hno _ (by simp [paceRoots]),
      hno _ (by simp [paceRoots]), hno _ (by simp [paceRoots])]
    rfl
  have hrun : runHandlers (securityInfoHandleFnArr env) r.Protocol r.Raw s
      = .returned ({ s with PaceDomainParamInfos := s.PaceDomainParamInfos ++ [p] },
          true, none) := by
    rw [runHandlers_dispatch]
    simp [h1, hr, handlePaceDomainParameterInfo, hp]
  refine ⟨h1, hrun, ?_⟩
  rw [DecodeSecurityInfos_reached env b pre post r s hs hpre, processRecords_cons, hrun]
  simp

/-- A PACE record followed by a record whose identifier is exactly
id-PACE-ECDH-GM, with `OidHasPrefix` as the spec describes it. -/
theorem pace_domain_parameter_classified_witness :
    isPACEInfo sampleEnvChild [0, 4, 0, 127, 0, 7, 2, 2, 4, 2] = false ∧
    runHandlers (securityInfoHandleFnArr sampleEnvChild) [0, 4, 0, 127, 0, 7, 2, 2, 4, 2]
        samplePaceRootRecord (sampleAfterPace sampleRootInput)
      = .returned ({ sampleAfterPace sampleRootInput with PaceDomainParamInfos :=
          [{ Raw := samplePaceRootRecord, Protocol := [0, 4, 0, 127, 0, 7, 2, 2, 4, 2],
             DomainParameter := ⟨samplePaceRootRecord⟩, ParameterId := none }] }, true, none) ∧
    DecodeSecurityInfos sampleEnvChild sampleRootInput
      = processRecords sampleEnvChild []
          { sampleAfterPace sampleRootInput with PaceDomainParamInfos :=
            [{ Raw := samplePaceRootRecord, Protocol := [0, 4, 0, 127, 0, 7, 2, 2, 4, 2],
               DomainParameter := ⟨samplePaceRootRecord⟩, ParameterId := none }] } :=
  pace_domain_parameter_classified sampleEnvChild sampleRootInput
    [⟨samplePaceRecord, [0, 4, 0, 127, 0, 7, 2, 2, 4, 2, 2]⟩] []
    ⟨samplePaceRootRecord, [0, 4, 0, 127, 0, 7, 2, 2, 4, 2]⟩ (sampleAfterPace sampleRootInput)
    { Raw := samplePaceRootRecord, Protocol := [0, 4, 0, 127, 0, 7, 2, 2, 4, 2],
      DomainParameter := ⟨samplePaceRootRecord⟩, ParameterId := none }
    rfl (by decide) rfl (by decide) (by decide) rfl

/-! ## Document constructors on empty input -/

/-- **C16** No data, no document: on input of length zero (a nil or an empty
slice) `NewEFDIR`, `NewDG1`, `NewDG13` and `NewDG15` return a nil document and
a nil error, whatever the decoders they would call do. -/
theorem no_data_no_document {MRZ EFDIR : Type}
    (MrzDecode : List Byte → Option MRZ × Option Error)
    (build : List Byte → tlv.TlvNodes → Option EFDIR × Option Error)
    (GetBytesFromBuffer : List Byte → Int → Except Error (List Byte)) (indefinite : Int)
    (data : List Byte) (h : data.length = 0) :
    NewEFDIR build data = (none, none) ∧
    NewDG1 MrzDecode data = (none, none) ∧
    NewDG13 GetBytesFromBuffer indefinite data = (none, none) ∧
    NewDG15 data = (none, none) := by
  have hl : data.length < 1 := by omega
  refine ⟨?_, ?_, ?_, ?_⟩
  · simp [NewEFDIR, hl]
  · simp [NewDG1, hl]
  · simp [NewDG13, hl]
  · simp [NewDG15, hl]

/-- The empty input, with decoders that would report an error if they were
called. -/
theorem no_data_no_document_witness :
    NewEFDIR (fun (_ : List Byte) (_ : tlv.TlvNodes) =>
        ((none : Option Unit), some (Error.text "called"))) [] = (none, none) ∧
    NewDG1 (fun (_ : List Byte) => ((none : Option Unit), some (Error.text "called"))) []
      = (none, none) ∧
    NewDG13 (fun _ _ => .error (Error.text "called")) 0 [] = (none, none) ∧
    NewDG15 [] = (none, none) :=
  no_data_no_document _ _ _ 0 [] rfl

end document

namespace document

/-! ## Order of the entries -/

theorem handlePaceInfo_entries (env : Env) (oid : ObjectIdentifier) (data : List Byte)
    (s s' : SecurityInfos) (e : Option Error)
    (h : handlePaceInfo env oid data s = .returned (s', true, e)) :
    ∃ p, env.parsePaceInfo data = .ok p ∧
      ∀ k, s'.entries k = s.entries k ++ (if 0 = k then [Entry.pace p] else []) := by
  unfold handlePaceInfo at h
  repeat' split at h
  all_goals simp at h
  all_goals obtain ⟨rfl, -⟩ := h
  all_goals (
    refine ⟨_, by assumption, ?_⟩
    intro k
    rcases k with _ | _ | _ | _ | _ | _ | _ | _ | k <;> simp [SecurityInfos.entries])

theorem handlePaceDomainParameterInfo_entries (env : Env) (oid : ObjectIdentifier) (data : List Byte)
    (s s' : SecurityInfos) (e : Option Error)
    (h : handlePaceDomainParameterInfo env oid data s = .returned (s', true, e)) :
    ∃ p, env.parsePaceDomainParameterInfo data = .ok p ∧
      ∀ k, s'.entries k = s.entries k ++ (if 1 = k then [Entry.paceDomainParam p] else []) := by
  unfold handlePaceDomainParameterInfo at h
  repeat' split at h
  all_goals simp at h
  all_goals obtain ⟨rfl, -⟩ := h
  all_goals (
    refine ⟨_, by assumption, ?_⟩
    intro k
    rcases k with _ | _ | _ | _ | _ | _ | _ | _ | k <;> simp [SecurityInfos.entries])

theorem handleActiveAuthenticationInfo_entries (env : Env) (oid : ObjectIdentifier) (data : List Byte)
    (s s' : SecurityInfos) (e : Option Error)
    (h : handleActiveAuthenticationInfo env oid data s = .returned (s', true, e)) :
    ∃ p, env.parseActiveAuthenticationInfo data = .ok p ∧
      ∀ k, s'.entries k = s.entries k ++ (if 2 = k then [Entry.activeAuth p] else []) := by
  unfold handleActiveAuthenticationInfo at h
  repeat' split at h
  all_goals simp at h
  all_goals obtain ⟨rfl, -⟩ := h
  all_goals (
    refine ⟨_, by assumption, ?_⟩
    intro k
    rcases k with _ | _ | _ | _ | _ | _ | _ | _ | k <;> simp [SecurityInfos.entries])

theorem handleChipAuthenticationInfo_entries (env : Env) (oid : ObjectIdentifier) (data : List Byte)
    (s s' : SecurityInfos) (e : Option Error)
    (h : handleChipAuthenticationInfo env oid data s = .returned (s', true, e)) :
    ∃ p, env.parseChipAuthenticationInfo data = .ok p ∧
      ∀ k, s'.entries k = s.entries k ++ (if 3 = k then [Entry.chipAuth p] else []) := by
  unfold handleChipAuthenticationInfo at h
  repeat' split at h
  all_goals simp at h
  all_goals obtain ⟨rfl, -⟩ := h
  all_goals (
    refine ⟨_, by assumption, ?_⟩
    intro k
    rcases k with _ | _ | _ | _ | _ | _ | _ | _ | k <;> simp [SecurityInfos.entries])

theorem handleChipAuthenticationPublicKeyInfo_entries (env : Env) (oid : ObjectIdentifier) (data : List Byte)
    (s s' : SecurityInfos) (e : Option Error)
    (h : handleChipAuthenticationPublicKeyInfo env oid data s = .returned (s', true, e)) :
    ∃ p, env.parseChipAuthenticationPublicKeyInfo data = .ok p ∧
      ∀ k, s'.entries k = s.entries k ++ (if 4 = k then [Entry.chipAuthPubKey p] else []) := by
  unfold handleChipAuthenticationPublicKeyInfo at h
  repeat' split at h
  all_goals simp at h
  all_goals obtain ⟨rfl, -⟩ := h
  all_goals (
    refine ⟨_, by assumption, ?_⟩
    intro k
    rcases k with _ | _ | _ | _ | _ | _ | _ | _ | k <;> simp [SecurityInfos.entries])

theorem handleTerminalAuthenticationInfo_entries (env : Env) (oid : ObjectIdentifier) (data : List Byte)
    (s s' : SecurityInfos) (e : Option Error)
    (h : handleTerminalAuthenticationInfo env oid data s = .returned (s', true, e)) :
    ∃ p, env.parseTerminalAuthenticationInfo data = .ok p ∧
      ∀ k, s'.entries k = s.entries k ++ (if 5 = k then [Entry.termAuth p] else []) := by
  unfold handleTerminalAuthenticationInfo at h
  repeat' split at h
  all_goals simp at h
  all_goals obtain ⟨rfl, -⟩ := h
  all_goals (
    refine ⟨_, by assumption, ?_⟩
    intro k
    rcases k with _ | _ | _ | _ | _ | _ | _ | _ | k <;> simp [SecurityInfos.entries])

theorem handleEfDirInfo_entries (env : Env) (oid : ObjectIdentifier) (data : List Byte)
    (s s' : SecurityInfos) (e : Option Error)
    (h : handleEfDirInfo env oid data s = .returned (s', true, e)) :
    ∃ p, env.parseEFDirInfo data = .ok p ∧
      ∀ k, s'.entries k = s.entries k ++ (if 6 = k then [Entry.efDir p] else []) := by
  unfold handleEfDirInfo at h
  repeat' split at h
  all_goals simp at h
  all_goals obtain ⟨rfl, -⟩ := h
  all_goals (
    refine ⟨_, by assumption, ?_⟩
    intro k
    rcases k with _ | _ | _ | _ | _ | _ | _ | _ | k <;> simp [SecurityInfos.entries])

theorem handleUnsupportedInfo_entries (env : Env) (oid : ObjectIdentifier) (data : List Byte)
    (s s' : SecurityInfos) (e : Option Error)
    (h : handleUnsupportedInfo env oid data s = .returned (s', true, e)) :
    ∃ p, env.parseUnhandledInfo data = .ok p ∧
      ∀ k, s'.entries k = s.entries k ++ (if 7 = k then [Entry.unhandled p] else []) := by
  unfold handleUnsupportedInfo at h
  repeat' split at h
  all_goals simp at h
  all_goals obtain ⟨rfl, -⟩ := h
  all_goals (
    refine ⟨_, by assumption, ?_⟩
    intro k
    rcases k with _ | _ | _ | _ | _ | _ | _ | _ | k <;> simp [SecurityInfos.entries])

/-- A record that the handler chain takes adds the entry decoded from it at
the end of the list of the first handler whose predicate holds, and leaves the
other lists as they were. -/
theorem runHandlers_entries (env : Env) (r : SecurityInfoOid)
    (s s' : SecurityInfos) (e : Option Error)
    (h : runHandlers (securityInfoHandleFnArr env) r.Protocol r.Raw s = .returned (s', true, e))
    (k : Nat) :
    s'.entries k = s.entries k
      ++ (if handlerIndex env r.Protocol = k then (decodeEntry env r).toList else []) := by
  rw [runHandlers_dispatch] at h
  unfold handlerIndex decodeEntry
  cases h_isPACEInfo : isPACEInfo env r.Protocol with
  | true =>
    simp only [h_isPACEInfo, if_true, Bool.false_eq_true, if_false] at h ⊢
    obtain ⟨p, hp, hk⟩ := handlePaceInfo_entries env _ _ s s' e h
    rw [hk k, hp]
    rfl
  | false =>
    cases h_isPACEDomainParameterInfo : isPACEDomainParameterInfo env r.Protocol with
    | true =>
      simp only [h_isPACEInfo, h_isPACEDomainParameterInfo, if_true, Bool.false_eq_true, if_false] at h ⊢
      obtain ⟨p, hp, hk⟩ := handlePaceDomainParameterInfo_entries env _ _ s s' e h
      rw [hk k, hp]
      rfl
    | false =>
      cases h_isActiveAuthenticationInfo : isActiveAuthenticationInfo env r.Protocol with
      | true =>
        simp only [h_isPACEInfo, h_isPACEDomainParameterInfo, h_isActiveAuthenticationInfo, if_true, Bool.false_eq_true, if_false] at h ⊢
        obtain ⟨p, hp, hk⟩ := handleActiveAuthenticationInfo_entries env _ _ s s' e h
        rw [hk k, hp]
        rfl
      | false =>
        cases h_isChipAuthenticationInfo : isChipAuthenticationInfo env r.Protocol with
        | true =>
          simp only [h_isPACEInfo, h_isPACEDomainParameterInfo, h_isActiveAuthenticationInfo, h_isChipAuthenticationInfo, if_true, Bool.false_eq_true, if_false] at h ⊢
          obtain ⟨p, hp, hk⟩ := handleChipAuthenticationInfo_entries env _ _ s s' e h
          rw [hk k, hp]
          rfl
        | false =>
          cases h_isChipAuthenticationPublicKeyInfo : isChipAuthenticationPublicKeyInfo env r.Protocol with
          | true =>
            simp only [h_isPACEInfo, h_isPACEDomainParameterInfo, h_isActiveAuthenticationInfo, h_isChipAuthenticationInfo, h_isChipAuthenticationPublicKeyInfo, if_true, Bool.false_eq_true, if_false] at h ⊢
            obtain ⟨p, hp, hk⟩ := handleChipAuthenticationPublicKeyInfo_entries env _ _ s s' e h
            rw [hk k, hp]
            rfl
          | false =>
            cases h_isTerminalAuthenticationInfo : isTerminalAuthenticationInfo env r.Protocol with
            | true =>
              simp only [h_isPACEInfo, h_isPACEDomainParameterInfo, h_isActiveAuthenticationInfo, h_isChipAuthenticationInfo, h_isChipAuthenticationPublicKeyInfo, h_isTerminalAuthenticationInfo, if_true, Bool.false_eq_true, if_false] at h ⊢
              obtain ⟨p, hp, hk⟩ := handleTerminalAuthenticationInfo_entries env _ _ s s' e h
              rw [hk k, hp]
              rfl
            | false =>
              cases h_isEFDIRInfo : isEFDIRInfo env r.Protocol with
              | true =>
                simp only [h_isPACEInfo, h_isPACEDomainParameterInfo, h_isActiveAuthenticationInfo, h_isChipAuthenticationInfo, h_isChipAuthenticationPublicKeyInfo, h_isTerminalAuthenticationInfo, h_isEFDIRInfo, if_true, Bool.false_eq_true, if_false] at h ⊢
                obtain ⟨p, hp, hk⟩ := handleEfDirInfo_entries env _ _ s s' e h
                rw [hk k, hp]
                rfl
              | false =>
                simp only [h_isPACEInfo, h_isPACEDomainParameterInfo, h_isActiveAuthenticationInfo, h_isChipAuthenticationInfo, h_isChipAuthenticationPublicKeyInfo, h_isTerminalAuthenticationInfo, h_isEFDIRInfo, Bool.false_eq_true, if_false] at h ⊢
                obtain ⟨p, hp, hk⟩ := handleUnsupportedInfo_entries env _ _ s s' e h
                rw [hk k, hp]
                rfl

/-- The record loop appends to each list, in input order, the entries decoded
from the records whose first matching handler is the one of that list. -/
theorem processRecords_entries (env : Env) (recs : List SecurityInfoOid)
    (s d : SecurityInfos) (e : Option Error)
    (h : processRecords env recs s = .returned (some d, e)) (k : Nat) :
    d.entries k = s.entries k
      ++ (recs.filter (fun r => decide (handlerIndex env r.Protocol = k))).filterMap
          (decodeEntry env) := by
  induction recs generalizing s with
  | nil => simp [processRecords] at h; obtain ⟨rfl, -⟩ := h; simp
  | cons r rs ih =>
    rw [processRecords_cons] at h
    split at h
    · simp at h
    · simp at h
    · next s1 hd heq =>
      cases hd with
      | false => simp at h
      | true =>
        simp only [Bool.not_true, Bool.false_eq_true, if_false] at h
        rw [ih s1 h, runHandlers_entries env r s s1 _ heq k]
        by_cases hk : handlerIndex env r.Protocol = k
        · simp only [hk, if_true, List.filter_cons, decide_True, List.filterMap_cons,
            List.append_assoc]
          cases decodeEntry env r <;> simp
        · simp [hk]

/-- **C15** Input order is preserved per list: in a descriptor returned by
`DecodeSecurityInfos`, the list at each position `k` is, in this order, the
entries decoded from the sniffed records whose first matching handler is at
position `k`: the order-preserving subsequence of the records consumed by the
handler of that list, each replaced by its entry. -/
theorem DecodeSecurityInfos_order (env : Env) (b : List Byte) (recs : List SecurityInfoOid)
    (d : SecurityInfos) (e : Option Error)
    (hs : env.parseOidSet b = .ok recs)
    (h : DecodeSecurityInfos env b = .returned (some d, e)) (k : Nat) :
    d.entries k
      = (recs.filter (fun r => decide (handlerIndex env r.Protocol = k))).filterMap
          (decodeEntry env) ∧
    (recs.filter (fun r => decide (handlerIndex env r.Protocol = k))).Sublist recs ∧
    (d.entries k).length
      = (recs.filter (fun r => decide (handlerIndex env r.Protocol = k))).length := by
  have hdec : DecodeSecurityInfos env b = processRecords env recs (emptySecurityInfos b) := by
    simp [DecodeSecurityInfos, hs]
  rw [hdec] at h
  have h1 := processRecords_entries env recs _ d e h k
  have h0 : (emptySecurityInfos b).entries k = [] := by
    rcases k with _ | _ | _ | _ | _ | _ | _ | _ | k <;>
      simp [SecurityInfos.entries, emptySecurityInfos]
  rw [h0, List.nil_append] at h1
  refine ⟨h1, List.filter_sublist _, ?_⟩
  have h2 := processRecords_lengths env recs _ d e h k
  have h3 : (d.entries k).length = d.listLength k := by
    rcases k with _ | _ | _ | _ | _ | _ | _ | _ | k <;>
      simp [SecurityInfos.entries, SecurityInfos.listLength]
  have h4 : (emptySecurityInfos b).listLength k = 0 := by
    rcases k with _ | _ | _ | _ | _ | _ | _ | _ | k <;>
      simp [SecurityInfos.listLength, emptySecurityInfos]
  rw [h3, h2, h4, Nat.zero_add, List.countP_eq_length_filter]

/-- Four records, PACE, Terminal Authentication, unknown, PACE: the two PACE
entries are in `PaceInfos` in input order. -/
theorem DecodeSecurityInfos_order_witness :
    sampleOrderDescriptor.entries 0
      = (sampleOrderRecords.filter
          (fun r => decide (handlerIndex sampleEnv r.Protocol = 0))).filterMap
          (decodeEntry sampleEnv) ∧
    (sampleOrderRecords.filter
      (fun r => decide (handlerIndex sampleEnv r.Protocol = 0))).Sublist sampleOrderRecords ∧
    (sampleOrderDescriptor.entries 0).length
      = (sampleOrderRecords.filter
          (fun r => decide (handlerIndex sampleEnv r.Protocol = 0))).length :=
  DecodeSecurityInfos_order sampleEnv sampleOrderInput sampleOrderRecords sampleOrderDescriptor
    none rfl (by decide) 0

end document

namespace tlv

/-! ## Missing terminator -/

/-- The leading `00 00` test of the decoder, on the first two bytes. -/
theorem not_terminator (indef : Bool) (b0 b1 : Byte) (tl : List Byte)
    (h : ¬ (indef = true ∧ (b0 :: b1 :: tl).take 2 = [0, 0])) :
    ¬ (indef = true ∧ b0.val = 0 ∧ b1.val = 0) := by
  rintro ⟨h1, h2, h3⟩
  apply h
  refine ⟨h1, ?_⟩
  have e0 : b0 = 0 := Fin.ext h2
  have e1 : b1 = 0 := Fin.ext h3
  simp [e0, e1]

/-- An indefinite-length element whose content reaches the end of the buffer
makes the decoder fail, whatever the recursion bound. -/
theorem decodeNodes_missingTerminator (fuel : Nat) (indef : Bool) (buf : List Byte)
    (h : MissingTerminator indef buf) : ∃ e, decodeNodes fuel indef buf = .error e := by
  induction h generalizing fuel with
  | atEnd buf hlen =>
    cases fuel with
    | zero => exact ⟨_, rfl⟩
    | succ fuel =>
      match buf, hlen with
      | [], _ => exact ⟨.malformedTlv, by simp [decodeNodes]⟩
      | [_], _ => exact ⟨.malformedTlv, by simp [decodeNodes]⟩
  | later indef buf tag len rest hnt hdr hlen _ ih =>
    cases fuel with
    | zero => exact ⟨_, rfl⟩
    | succ fuel =>
      obtain ⟨b0, b1, tl, rfl⟩ := GetTagAndLength_two _ _ _ _ hdr
      obtain ⟨e, he⟩ := ih fuel
      rw [decodeNodes_succ, if_neg (not_terminator _ _ _ _ hnt), hdr]
      simp only [if_neg (Nat.not_lt.2 hlen), he]
      split
      · split <;> exact ⟨_, rfl⟩
      · exact ⟨_, rfl⟩
  | inside indef buf tag len rest hnt hdr hlen hcb _ ih =>
    cases fuel with
    | zero => exact ⟨_, rfl⟩
    | succ fuel =>
      obtain ⟨b0, b1, tl, rfl⟩ := GetTagAndLength_two _ _ _ _ hdr
      obtain ⟨e, he⟩ := ih fuel
      rw [decodeNodes_succ, if_neg (not_terminator _ _ _ _ hnt), hdr]
      simp only [if_neg (Nat.not_lt.2 hlen), hcb, if_true, he]
      exact ⟨_, rfl⟩
  | insideIndef indef buf tag rest hnt hdr hcb _ ih =>
    cases fuel with
    | zero => exact ⟨_, rfl⟩
    | succ fuel =>
      obtain ⟨b0, b1, tl, rfl⟩ := GetTagAndLength_two _ _ _ _ hdr
      obtain ⟨e, he⟩ := ih fuel
      rw [decodeNodes_succ, if_neg (not_terminator _ _ _ _ hnt), hdr]
      simp only [hcb, if_true, he]
      exact ⟨_, rfl⟩
  | laterIndef indef buf tag rest children rest' hnt hdr hcb hch _ ih =>
    cases fuel with
    | zero => exact ⟨_, rfl⟩
    | succ fuel =>
      obtain ⟨b0, b1, tl, rfl⟩ := GetTagAndLength_two _ _ _ _ hdr
      obtain ⟨e, he⟩ := ih fuel
      rw [decodeNodes_succ, if_neg (not_terminator _ _ _ _ hnt), hdr]
      simp only [hcb, if_true]
      cases hc : decodeNodes fuel true rest with
      | error e1 => exact ⟨_, rfl⟩
      | ok r =>
        have := decodeNodes_agree _ _ _ _ _ _ hc hch
        subst this
        simp only [he]
        exact ⟨_, rfl⟩

/-- **C19** Missing terminator is rejected: for every buffer in which the
content of an indefinite-length constructed element (length byte `0x80`)
reaches the end of the enclosing buffer without a matching `00 00` terminator,
`Decode` returns the error `MalformedTlv` and no forest. -/
theorem Decode_missing_terminator (data : List Byte) (h : MissingTerminator false data) :
    Decode data = .error .malformedTlv := by
  obtain ⟨e, he⟩ := decodeNodes_missingTerminator (data.length + 1) false data h
  have hd : Decode data = .error e := by simp [Decode, he]
  rw [hd, Decode_error data e hd]

/-- The buffer `A0 80 01 01 FF`: the content `01 01 FF` of the indefinite-length
element ends with the buffer. -/
theorem Decode_missing_terminator_witness :
    MissingTerminator false testNoTerminator ∧
    Decode testNoTerminator = .error .malformedTlv :=
  have h : MissingTerminator false testNoTerminator :=
    .insideIndef false testNoTerminator 0xA0 [0x01, 0x01, 0xFF] (by decide) rfl (by decide)
      (.later true [0x01, 0x01, 0xFF] 0x01 1 [0xFF] (by decide) rfl (by decide)
        (.atEnd [] (by decide)))
  ⟨h, Decode_missing_terminator testNoTerminator h⟩

/-! ## Chains of lookups -/

theorem noSentinel_cons (n : TlvNode) (rest : List TlvNode) :
    noSentinel (n :: rest) = (n.hasNoSentinel && noSentinel rest) := by
  rw [noSentinel]

theorem noSentinel_mem (l : List TlvNode) (h : noSentinel l = true) (n : TlvNode)
    (hn : n ∈ l) : n.hasNoSentinel = true := by
  induction l with
  | nil => simp at hn
  | cons x rest ih =>
    rw [noSentinel_cons, Bool.and_eq_true] at h
    rcases List.mem_cons.1 hn with rfl | hmem
    · exact h.1
    · exact ih h.2 hmem

theorem hasNoSentinel_children (n : TlvNode) (h : n.hasNoSentinel = true) :
    noSentinel n.children = true := by
  cases n with
  | simple tag value => rfl
  | constructed tag children => rw [TlvNode.hasNoSentinel] at h; exact h
  | nilNode => rfl

theorem hasNoSentinel_valid (n : TlvNode) (h : n.hasNoSentinel = true) :
    n.IsValidNode = true := by
  cases n with
  | simple tag value => rfl
  | constructed tag children => rfl
  | nilNode => rw [TlvNode.hasNoSentinel] at h; exact absurd h (by decide)

/-- The decoder never puts the sentinel in a forest. -/
theorem decodeNodes_noSentinel (fuel : Nat) (indef : Bool) (buf : List Byte)
    (nodes : List TlvNode) (left : List Byte)
    (h : decodeNodes fuel indef buf = .ok (nodes, left)) : noSentinel nodes = true := by
  induction fuel generalizing indef buf nodes left with
  | zero => simp [decodeNodes] at h
  | succ fuel ih =>
    match buf, indef with
    | [], false => simp [decodeNodes] at h; rw [h.1]; rfl
    | [], true => simp [decodeNodes] at h
    | [_], false => simp [decodeNodes] at h
    | [_], true => simp [decodeNodes] at h
    | b0 :: b1 :: tl, indef =>
      rw [decodeNodes_succ] at h
      split at h
      · simp at h; rw [h.1]; rfl
      · split at h
        · simp at h
        · split at h
          · simp at h
          · split at h
            · split at h
              · simp at h
              · next ch lf h1 =>
                split at h
                · simp at h
                · next sib left' h2 =>
                  simp at h; obtain ⟨rfl, -⟩ := h
                  rw [noSentinel_cons, TlvNode.hasNoSentinel, ih _ _ _ _ h1, ih _ _ _ _ h2]
                  rfl
            · split at h
              · simp at h
              · next sib left' h2 =>
                simp at h; obtain ⟨rfl, -⟩ := h
                rw [noSentinel_cons, TlvNode.hasNoSentinel, ih _ _ _ _ h2]
                rfl
        · split at h
          · split at h
            · simp at h
            · next ch rest' h1 =>
              split at h
              · simp at h
              · next sib left' h2 =>
                simp at h; obtain ⟨rfl, -⟩ := h
                rw [noSentinel_cons, TlvNode.hasNoSentinel, ih _ _ _ _ h1, ih _ _ _ _ h2]
                rfl
          · simp at h

theorem Decode_noSentinel (b : List Byte) (f : TlvNodes) (h : Decode b = .ok f) :
    noSentinel f = true := by
  unfold Decode at h
  split at h
  · next nodes left hd =>
    simp at h; subst h
    exact decodeNodes_noSentinel _ _ _ _ _ hd
  · simp at h

theorem Lookup.onNode_eq_run (l : Lookup) (n : TlvNode) : l.onNode n = l.run n.children := by
  cases l <;> rfl

/-- A lookup that hits returns one of the nodes it ran over. -/
theorem Lookup.run_hit (l : Lookup) (c : List TlvNode) (h : l.hits c = true) : l.run c ∈ c := by
  cases l with
  | GetNode tag =>
    simp only [Lookup.hits, decide_eq_true_eq] at h
    simp only [Lookup.run, TlvNodes.GetNode]
    rw [firstWithTag_eq]
    cases hf : c.filter (fun c => decide (c.GetTag = tag)) with
    | nil => rw [hf] at h; simp at h
    | cons x xs =>
      simp only [List.head?_cons, Option.getD_some]
      have : x ∈ c.filter (fun c => decide (c.GetTag = tag)) := by rw [hf]; simp
      exact (List.mem_filter.1 this).1
  | GetNodeByOccur tag occurrence =>
    simp only [Lookup.hits, decide_eq_true_eq] at h
    simp only [Lookup.run, TlvNodes.GetNodeByOccur]
    rw [scanOccur_eq, if_pos (by omega)]
    have hidx : (occurrence - 0 - 1).toNat
        < (c.filter (fun c => decide (c.GetTag = tag))).length := by
      have : occurrence - 0 - 1 = occurrence - 1 := by omega
      rw [this]; exact h.2
    rw [List.getElem?_eq_getElem hidx]
    simp only [Option.getD_some]
    exact (List.mem_filter.1 (List.getElem_mem _)).1

/-- A lookup that misses returns the sentinel. -/
theorem Lookup.run_miss (l : Lookup) (c : List TlvNode) (h : l.hits c = false) :
    l.run c = NewTlvNilNode := by
  cases l with
  | GetNode tag =>
    simp only [Lookup.hits, decide_eq_false_iff_not, Nat.not_lt, Nat.le_zero,
      List.length_eq_zero] at h
    simp only [Lookup.run, TlvNodes.GetNode]
    rw [firstWithTag_eq, h]
    rfl
  | GetNodeByOccur tag occurrence =>
    simp only [Lookup.hits, decide_eq_false_iff_not] at h
    simp only [Lookup.run, TlvNodes.GetNodeByOccur]
    rw [scanOccur_eq]
    by_cases h0 : (0 : Int) < occurrence
    · rw [if_pos h0]
      have hidx : (c.filter (fun c => decide (c.GetTag = tag))).length
          ≤ (occurrence - 0 - 1).toNat := by
        have : occurrence - 0 - 1 = occurrence - 1 := by omega
        rw [this]
        by_contra hlt
        exact h ⟨by omega, by omega⟩
      rw [List.getElem?_eq_none hidx]
      rfl
    · rw [if_neg h0]

theorem chain_nil (ls : List Lookup) : chain NewTlvNilNode ls = NewTlvNilNode := by
  induction ls with
  | nil => rfl
  | cons l ls ih =>
    have h : l.onNode NewTlvNilNode = NewTlvNilNode := by cases l <;> rfl
    simp only [chain, List.foldl_cons] at ih ⊢
    rw [h]
    exact ih

theorem chain_append (start : TlvNode) (ls1 ls2 : List Lookup) :
    chain start (ls1 ++ ls2) = chain (chain start ls1) ls2 := by
  simp [chain, List.foldl_append]

theorem IsValidNode_false_iff (n : TlvNode) : n.IsValidNode = false ↔ n = NewTlvNilNode := by
  cases n <;> simp [TlvNode.IsValidNode, NewTlvNilNode]

/-- On a node that is the sentinel or holds no sentinel, a chain of lookups
ends on a valid node exactly when the node is valid and all lookups hit. -/
theorem chain_valid (start : TlvNode)
    (hs : start = NewTlvNilNode ∨ start.hasNoSentinel = true) (ls : List Lookup) :
    (chain start ls).IsValidNode = (start.IsValidNode && chainHits start ls) := by
  induction ls generalizing start with
  | nil => simp [chain, chainHits]
  | cons l ls ih =>
    have hstep : chain start (l :: ls) = chain (l.onNode start) ls := rfl
    rw [hstep, chainHits]
    rcases hs with rfl | hs
    · have h : l.onNode NewTlvNilNode = NewTlvNilNode := by cases l <;> rfl
      rw [h, chain_nil]
      rfl
    · rw [hasNoSentinel_valid _ hs, Bool.true_and]
      have hc := hasNoSentinel_children _ hs
      cases hh : l.hits start.children with
      | true =>
        have hmem := Lookup.run_hit l _ hh
        rw [← Lookup.onNode_eq_run] at hmem
        have hn := noSentinel_mem _ hc _ hmem
        rw [ih _ (Or.inr hn), hasNoSentinel_valid _ hn]
      | false =>
        have hm := Lookup.run_miss l _ hh
        rw [← Lookup.onNode_eq_run] at hm
        rw [hm, chain_nil]
        rfl

/-- **C11** Sentinel totality and absorption: on a decoded forest, a chain of
`GetNode` / `GetNodeByOccur` calls ends on a valid node exactly when every
lookup of the chain hits; once one lookup misses, every later link of the
chain is the sentinel, for which `IsValidNode` is false, `GetTag` is `-1` and
`GetValue`, `Encode` and `String` are empty; `IsValidNode` is false exactly for
the sentinel, and true for the forest itself. Every call is a total function:
none fails. -/
theorem sentinel_absorption (b : List Byte) (f : TlvNodes) (h : Decode b = .ok f) :
    TlvNodes.IsValidNode f = true ∧
    (∀ n : TlvNode, n.IsValidNode = false ↔ n = NewTlvNilNode) ∧
    (∀ (l0 : Lookup) (ls : List Lookup),
      (chain (l0.run f) ls).IsValidNode = (l0.hits f && chainHits (l0.run f) ls)) ∧
    (∀ (l0 : Lookup) (ls1 ls2 : List Lookup), (chain (l0.run f) ls1).IsValidNode = false →
      chain (l0.run f) (ls1 ++ ls2) = NewTlvNilNode) ∧
    (∀ (l0 : Lookup) (ls : List Lookup), l0.hits f = false →
      chain (l0.run f) ls = NewTlvNilNode) ∧
    (∀ (l0 : Lookup) (ls : List Lookup), (chain (l0.run f) ls).IsValidNode = false →
      (chain (l0.run f) ls).GetTag = -1 ∧ (chain (l0.run f) ls).GetValue = [] ∧
      (chain (l0.run f) ls).Encode = [] ∧ (chain (l0.run f) ls).String = "") := by
  have hf := Decode_noSentinel b f h
  have hstart : ∀ l0 : Lookup,
      (l0.run f = NewTlvNilNode ∨ (l0.run f).hasNoSentinel = true) ∧
      (l0.run f).IsValidNode = l0.hits f := by
    intro l0
    cases hh : l0.hits f with
    | true =>
      have hn := noSentinel_mem _ hf _ (Lookup.run_hit l0 f hh)
      exact ⟨Or.inr hn, hasNoSentinel_valid _ hn⟩
    | false =>
      have hm := Lookup.run_miss l0 f hh
      exact ⟨Or.inl hm, by rw [hm]; rfl⟩
  refine ⟨rfl, IsValidNode_false_iff, ?_, ?_, ?_, ?_⟩
  · intro l0 ls
    rw [chain_valid _ (hstart l0).1 ls, (hstart l0).2]
  · intro l0 ls1 ls2 hv
    rw [chain_append, (IsValidNode_false_iff _).1 hv, chain_nil]
  · intro l0 ls hm
    rw [Lookup.run_miss l0 f hm, chain_nil]
  · intro l0 ls hv
    rw [(IsValidNode_false_iff _).1 hv]
    exact ⟨rfl, rfl, rfl, rfl⟩

/-- The chains of `TestDecodeAndAccess`: `GetNode(0x70).GetNode(0xA0)` hits
twice and is valid; `GetNode(0x70).GetNode(0x02).GetNode(0x01).GetNode(0x01)`
misses at its third lookup and is the sentinel. -/
theorem sentinel_absorption_witness :
    Decode testAccessData = .ok testAccessForest ∧
    (chain ((Lookup.GetNode 0x70).run testAccessForest) [.GetNode 0xA0]).IsValidNode = true ∧
    (chain ((Lookup.GetNode 0x70).run testAccessForest) [.GetNode 0x02, .GetNode 0x01]).IsValidNode
      = false ∧
    chain ((Lookup.GetNode 0x70).run testAccessForest)
        ([.GetNode 0x02, .GetNode 0x01] ++ [.GetNode 0x01]) = NewTlvNilNode :=
  ⟨rfl, by decide, by decide,
    (sentinel_absorption testAccessData testAccessForest rfl).2.2.2.1 (.GetNode 0x70)
      [.GetNode 0x02, .GetNode 0x01] [.GetNode 0x01] (by decide)⟩

end tlv

namespace tlv

/-! ## The decoder and its recursion bound, continued -/

/-- A run of the decoder that did not stop for lack of fuel gives the same
result with one more unit of fuel. -/
theorem decodeNodes_stable (fuel : Nat) (indef : Bool) (buf : List Byte)
    (h : decodeNodes fuel indef buf ≠ .error .fuelExhausted) :
    decodeNodes (fuel + 1) indef buf = decodeNodes fuel indef buf := by
  induction fuel generalizing indef buf with
  | zero => simp [decodeNodes] at h
  | succ fuel ih =>
    match buf, indef with
    | [], false => simp [decodeNodes]
    | [], true => simp [decodeNodes]
    | [_], false => simp [decodeNodes]
    | [_], true => simp [decodeNodes]
    | b0 :: b1 :: tl, indef =>
      rw [decodeNodes_succ] at h
      rw [decodeNodes_succ (fuel + 1), decodeNodes_succ fuel]
      split
      · rfl
      · next hterm =>
        rw [if_neg hterm] at h
        split
        · rfl
        · next tag len rest hdr =>
          rw [hdr] at h
          simp only at h
          split
          · rfl
          · next hlen =>
            rw [if_neg hlen] at h
            split
            · next hcb =>
              rw [if_pos hcb] at h
              have h1 : decodeNodes fuel false (rest.take len) ≠ .error .fuelExhausted := by
                intro hc; rw [hc] at h; exact h rfl
              rw [ih _ _ h1]
              cases hc : decodeNodes fuel false (rest.take len) with
              | error e => rfl
              | ok r =>
                rw [hc] at h
                simp only at h ⊢
                have h2 : decodeNodes fuel indef (rest.drop len) ≠ .error .fuelExhausted := by
                  intro hc2; rw [hc2] at h; exact h rfl
                rw [ih _ _ h2]
            · next hcb =>
              rw [if_neg hcb] at h
              have h2 : decodeNodes fuel indef (rest.drop len) ≠ .error .fuelExhausted := by
                intro hc2; rw [hc2] at h; exact h rfl
              rw [ih _ _ h2]
        · next tag rest hdr =>
          rw [hdr] at h
          simp only at h
          split
          · next hcb =>
            rw [if_pos hcb] at h
            have h1 : decodeNodes fuel true rest ≠ .error .fuelExhausted := by
              intro hc; rw [hc] at h; exact h rfl
            rw [ih _ _ h1]
            cases hc : decodeNodes fuel true rest with
            | error e => rfl
            | ok r =>
              rw [hc] at h
              simp only at h ⊢
              have h2 : decodeNodes fuel indef r.2 ≠ .error .fuelExhausted := by
                intro hc2; rw [hc2] at h; exact h rfl
              rw [ih _ _ h2]
          · rfl

/-- Any recursion bound above the buffer length gives the result of
`buf.length + 1`. -/
theorem decodeNodes_enough (k : Nat) (indef : Bool) (buf : List Byte) :
    decodeNodes (buf.length + 1 + k) indef buf = decodeNodes (buf.length + 1) indef buf := by
  induction k with
  | zero => rfl
  | succ k ih =>
    have h := decodeNodes_fuel (buf.length + 1 + k) indef buf (by omega)
    rw [← ih, ← decodeNodes_stable _ _ _ h]
    rfl

/-- A successful run of the decoder with any recursion bound is the result of
`Decode`. -/
theorem Decode_of_decodeNodes (fuel : Nat) (buf : List Byte) (f : List TlvNode)
    (left : List Byte) (h : decodeNodes fuel false buf = .ok (f, left)) :
    Decode buf = .ok f := by
  have h1 := decodeNodes_mono fuel (buf.length + 1) false buf _ h
  have h2 := decodeNodes_enough fuel false buf
  have h3 : fuel + (buf.length + 1) = buf.length + 1 + fuel := by omega
  rw [h3, h2] at h1
  simp [Decode, h1]

/-- What `Decode` returns is a run of the decoder. -/
theorem decodeNodes_of_Decode (buf : List Byte) (f : List TlvNode) (h : Decode buf = .ok f) :
    ∃ left, decodeNodes (buf.length + 1) false buf = .ok (f, left) := by
  unfold Decode at h
  split at h
  · next nodes left hd => simp at h; subst h; exact ⟨left, hd⟩
  · simp at h

/-! ## Headers followed by more bytes -/

theorem getTagMore_append (l : List Byte) (acc t : Nat) (rest sfx : List Byte)
    (h : getTagMore l acc = .ok (t, rest)) :
    getTagMore (l ++ sfx) acc = .ok (t, rest ++ sfx) := by
  induction l generalizing acc with
  | nil => simp [getTagMore] at h
  | cons b tl ih =>
    rw [getTagMore] at h
    rw [List.cons_append, getTagMore]
    split at h
    · next hb => rw [if_pos hb]; exact ih _ h
    · next hb =>
      rw [if_neg hb]
      simp at h
      obtain ⟨rfl, rfl⟩ := h
      rfl

theorem GetTag_append (buf : List Byte) (t : Int) (rest sfx : List Byte)
    (h : GetTag buf = .ok (t, rest)) : GetTag (buf ++ sfx) = .ok (t, rest ++ sfx) := by
  cases buf with
  | nil => simp [GetTag] at h
  | cons b tl =>
    rw [GetTag] at h
    rw [List.cons_append, GetTag]
    split at h
    · next hb =>
      rw [if_pos hb]
      split at h
      · next t' rest' heq =>
        simp at h; obtain ⟨rfl, rfl⟩ := h
        rw [getTagMore_append _ _ _ _ sfx heq]
      · simp at h
    · next hb =>
      rw [if_neg hb]
      simp at h; obtain ⟨rfl, rfl⟩ := h
      rfl

theorem GetLength_append (buf : List Byte) (len : TlvLength) (rest sfx : List Byte)
    (h : GetLength buf = .ok (len, rest)) :
    GetLength (buf ++ sfx) = .ok (len, rest ++ sfx) := by
  cases buf with
  | nil => simp [GetLength] at h
  | cons b tl =>
    rw [GetLength] at h
    rw [List.cons_append, GetLength]
    split at h
    · next hb => rw [if_pos hb]; simp at h; obtain ⟨rfl, rfl⟩ := h; rfl
    · next hb =>
      rw [if_neg hb]
      split at h
      · next hb2 => rw [if_pos hb2]; simp at h; obtain ⟨rfl, rfl⟩ := h; rfl
      · next hb2 =>
        rw [if_neg hb2]
        split at h
        · simp at h
        · next hlen =>
          simp at h; obtain ⟨rfl, rfl⟩ := h
          have hle : b.val % 128 ≤ tl.length := Nat.not_lt.1 hlen
          rw [if_neg (by simp only [List.length_append]; omega),
            List.take_append_of_le_length hle, List.drop_append_of_le_length hle]

theorem GetTagAndLength_append (buf : List Byte) (t : Int) (len : TlvLength)
    (rest sfx : List Byte) (h : GetTagAndLength buf = .ok (t, len, rest)) :
    GetTagAndLength (buf ++ sfx) = .ok (t, len, rest ++ sfx) := by
  unfold GetTagAndLength at h ⊢
  split at h
  · simp at h
  · next tag r1 h1 =>
    split at h
    · simp at h
    · next len' r2 h2 =>
      simp at h; obtain ⟨rfl, rfl, rfl⟩ := h
      rw [GetTag_append _ _ _ sfx h1]
      simp only
      rw [GetLength_append _ _ _ sfx h2]

/-- At a definite-length level the decoder reads the whole buffer. -/
theorem decodeNodes_false_left (fuel : Nat) (buf : List Byte) (nodes : List TlvNode)
    (left : List Byte) (h : decodeNodes fuel false buf = .ok (nodes, left)) : left = [] := by
  induction fuel generalizing buf nodes left with
  | zero => simp [decodeNodes] at h
  | succ fuel ih =>
    match buf with
    | [] => simp [decodeNodes] at h; exact h.2
    | [_] => simp [decodeNodes] at h
    | b0 :: b1 :: tl =>
      rw [decodeNodes_succ] at h
      rw [if_neg (by simp)] at h
      split at h
      · simp at h
      · split at h
        · simp at h
        · split at h
          · split at h
            · simp at h
            · split at h
              · simp at h
              · next sib left' h2 =>
                simp at h; obtain ⟨-, rfl⟩ := h
                exact ih _ _ _ h2
          · split at h
            · simp at h
            · next sib left' h2 =>
              simp at h; obtain ⟨-, rfl⟩ := h
              exact ih _ _ _ h2
      · split at h
        · split at h
          · simp at h
          · split at h
            · simp at h
            · next sib left' h2 =>
              simp at h; obtain ⟨-, rfl⟩ := h
              exact ih _ _ _ h2
        · simp at h

/-- The content of an indefinite-length element is read up to its terminator:
bytes added after the bytes left unread do not change the result. -/
theorem decodeNodes_true_append (fuel : Nat) (buf : List Byte) (nodes : List TlvNode)
    (left sfx : List Byte) (h : decodeNodes fuel true buf = .ok (nodes, left)) :
    decodeNodes fuel true (buf ++ sfx) = .ok (nodes, left ++ sfx) := by
  induction fuel generalizing buf nodes left with
  | zero => simp [decodeNodes] at h
  | succ fuel ih =>
    match buf with
    | [] => simp [decodeNodes] at h
    | [_] => simp [decodeNodes] at h
    | b0 :: b1 :: tl =>
      rw [decodeNodes_succ] at h
      rw [List.cons_append, List.cons_append, decodeNodes_succ]
      split at h
      · next hc => rw [if_pos hc]; simp at h; obtain ⟨rfl, rfl⟩ := h; rfl
      · next hc =>
        rw [if_neg hc]
        split at h
        · simp at h
        · next tag len rest hdr =>
          have hdr' := GetTagAndLength_append _ _ _ _ sfx hdr
          simp only [List.cons_append] at hdr'
          rw [hdr']
          simp only
          have hcb : constructedBit (b0 :: b1 :: (tl ++ sfx)) = constructedBit (b0 :: b1 :: tl) :=
            rfl
          rw [hcb]
          split at h
          · simp at h
          · next hlen =>
            have hle : len ≤ rest.length := Nat.not_lt.1 hlen
            rw [if_neg (by simp only [List.length_append]; omega),
              List.take_append_of_le_length hle, List.drop_append_of_le_length hle]
            split at h
            · next hcb1 =>
              rw [if_pos hcb1]
              split at h
              · simp at h
              · next ch lf h1 =>
                split at h
                · simp at h
                · next sib left' h2 =>
                  rw [ih _ _ _ h2]
                  simp at h; obtain ⟨rfl, rfl⟩ := h
                  rfl
            · next hcb1 =>
              rw [if_neg hcb1]
              split at h
              · simp at h
              · next sib left' h2 =>
                rw [ih _ _ _ h2]
                simp at h; obtain ⟨rfl, rfl⟩ := h
                rfl
        · next tag rest hdr =>
          have hdr' := GetTagAndLength_append _ _ _ _ sfx hdr
          simp only [List.cons_append] at hdr'
          rw [hdr']
          simp only
          have hcb : constructedBit (b0 :: b1 :: (tl ++ sfx)) = constructedBit (b0 :: b1 :: tl) :=
            rfl
          rw [hcb]
          split at h
          · next hcb1 =>
            rw [if_pos hcb1]
            split at h
            · simp at h
            · next ch rest' h1 =>
              rw [ih _ _ _ h1]
              simp only
              split at h
              · simp at h
              · next sib left' h2 =>
                rw [ih _ _ _ h2]
                simp at h; obtain ⟨rfl, rfl⟩ := h
                rfl
          · simp at h

end tlv

namespace tlv

/-! ## Elements in sequence -/

/-- A sequence of elements followed by more bytes: the decoder reads the
elements, then goes on with the bytes that follow, in the mode of the level.
In the content of an indefinite-length element this needs the elements not to
start with `00 00`, which holds when none has tag 0. -/
theorem decodeNodes_append (fuel fy : Nat) (indef : Bool) (x y : List Byte)
    (fx fyN : List TlvNode) (lx left : List Byte)
    (hx : decodeNodes fuel false x = .ok (fx, lx))
    (htag : indef = true → ∀ n ∈ fx, n.GetTag ≠ 0)
    (hy : decodeNodes fy indef y = .ok (fyN, left)) :
    decodeNodes (fuel + fy) indef (x ++ y) = .ok (fx ++ fyN, left) := by
  induction fuel generalizing x fx lx with
  | zero => simp [decodeNodes] at hx
  | succ fuel ih =>
    match x with
    | [] =>
      simp [decodeNodes] at hx
      obtain ⟨rfl, -⟩ := hx
      have := decodeNodes_mono fy (fuel + 1) indef y _ hy
      rw [Nat.add_comm] at this
      simpa using this
    | [_] => simp [decodeNodes] at hx
    | b0 :: b1 :: tl =>
      rw [decodeNodes_succ, if_neg (by simp)] at hx
      have hfuel : fuel + 1 + fy = (fuel + fy) + 1 := by omega
      rw [hfuel, List.cons_append, List.cons_append, decodeNodes_succ]
      have hnt : ¬ (indef = true ∧ b0.val = 0 ∧ b1.val = 0) := by
        rintro ⟨hi, h0, h1⟩
        have e0 : b0 = 0 := Fin.ext h0
        have e1 : b1 = 0 := Fin.ext h1
        subst e0 e1
        have hdr0 : GetTagAndLength ((0 : Byte) :: 0 :: tl) = .ok (0, .definite 0, tl) := by
          simp [GetTagAndLength, GetTag, GetLength]
        rw [hdr0] at hx
        simp only [constructedBit] at hx
        simp at hx
        split at hx
        · simp at hx
        · simp at hx
          obtain ⟨rfl, -⟩ := hx
          exact htag hi _ (List.mem_cons_self _ _) rfl
      rw [if_neg hnt]
      have hcbeq : constructedBit (b0 :: b1 :: (tl ++ y)) = constructedBit (b0 :: b1 :: tl) := rfl
      rw [hcbeq]
      split at hx
      · simp at hx
      · next tag len rest hdr =>
        have hdr' := GetTagAndLength_append _ _ _ _ y hdr
        simp only [List.cons_append] at hdr'
        rw [hdr']
        simp only
        split at hx
        · simp at hx
        · next hlen =>
          have hle : len ≤ rest.length := Nat.not_lt.1 hlen
          rw [if_neg (by simp only [List.length_append]; omega),
            List.take_append_of_le_length hle, List.drop_append_of_le_length hle]
          split at hx
          · next hcb1 =>
            rw [if_pos hcb1]
            split at hx
            · simp at hx
            · next ch lf h1 =>
              rw [decodeNodes_mono fuel fy false _ _ h1]
              simp only
              split at hx
              · simp at hx
              · next sib left' h2 =>
                simp at hx; obtain ⟨rfl, -⟩ := hx
                rw [ih _ _ _ h2 (fun hi n hn => htag hi n (List.mem_cons_of_mem _ hn))]
                rfl
          · next hcb1 =>
            rw [if_neg hcb1]
            split at hx
            · simp at hx
            · next sib left' h2 =>
              simp at hx; obtain ⟨rfl, -⟩ := hx
              rw [ih _ _ _ h2 (fun hi n hn => htag hi n (List.mem_cons_of_mem _ hn))]
              rfl
      · next tag rest hdr =>
        have hdr' := GetTagAndLength_append _ _ _ _ y hdr
        simp only [List.cons_append] at hdr'
        rw [hdr']
        simp only
        split at hx
        · next hcb1 =>
          rw [if_pos hcb1]
          split at hx
          · simp at hx
          · next ch rest' h1 =>
            rw [decodeNodes_true_append _ _ _ _ y (decodeNodes_mono fuel fy true _ _ h1)]
            simp only
            split at hx
            · simp at hx
            · next sib left' h2 =>
              simp at hx; obtain ⟨rfl, -⟩ := hx
              rw [ih _ _ _ h2 (fun hi n hn => htag hi n (List.mem_cons_of_mem _ hn))]
              rfl
        · simp at hx

/-- The header made of tag octets and of a length field. -/
theorem GetTagAndLength_of (t l rest : List Byte) (len : TlvLength)
    (ht : isTagOctets t = true) (hl : GetLength (l ++ rest) = .ok (len, rest)) :
    GetTagAndLength (t ++ l ++ rest) = .ok ((beNat t : Nat), len, rest) := by
  unfold GetTagAndLength
  rw [List.append_assoc, (GetTag_tagOctets t (l ++ rest) ht).1]
  simp only
  rw [hl]

/-- Definite length octets of BER, in any of their forms, are read as the
length they stand for. -/
theorem GetLength_ber (n : Nat) (l rest : List Byte) (h : IsBerLength n l) :
    GetLength (l ++ rest) = .ok (.definite n, rest) := by
  rcases h with ⟨hn, rfl⟩ | ⟨body, h1, h2, rfl, hval⟩
  · have hv : ((Fin.ofNat n : Byte)).val = n := by rw [Byte_val_ofNat]; omega
    simp only [List.singleton_append, GetLength, hv]
    rw [if_pos hn]
  · have hv : ((Fin.ofNat (128 + body.length) : Byte)).val = 128 + body.length := by
      rw [Byte_val_ofNat]; omega
    simp only [List.cons_append, GetLength, hv]
    rw [if_neg (by omega), if_neg (by omega), if_neg (by simp; omega)]
    have hm : (128 + body.length) % 128 = body.length := by omega
    rw [hm, List.take_left, List.drop_left, hval]

theorem GetLength_indefinite (rest : List Byte) :
    GetLength ((0x80 : Byte) :: rest) = .ok (.indefinite, rest) := by
  rw [GetLength, if_neg (by decide), if_pos (by decide)]

/-- The first tag octet of a constructed tag is not zero. -/
theorem constructedBit_head (t rest : List Byte) (h : constructedBit t = true) :
    ∃ b0 tl, t ++ rest = b0 :: tl ∧ b0.val ≠ 0 := by
  cases t with
  | nil => simp [constructedBit] at h
  | cons b tl =>
    refine ⟨b, tl ++ rest, rfl, ?_⟩
    simp only [constructedBit, decide_eq_true_eq] at h
    omega

/-- A constructed element in indefinite-length form, and in any
definite-length form, wherever the decoder reaches it: both are decoded as one
node with the children of the content, followed by what the bytes after the
element (after the terminator, in the indefinite-length form) give. -/
theorem decodeNodes_constructed (fc fa : Nat) (indef : Bool) (t c l after : List Byte)
    (ch sibs : List TlvNode) (lc left : List Byte)
    (ht : isTagOctets t = true) (hcb : constructedBit t = true)
    (hc : decodeNodes fc false c = .ok (ch, lc)) (htags : ∀ n ∈ ch, n.GetTag ≠ 0)
    (hl : IsBerLength c.length l)
    (ha : decodeNodes fa indef after = .ok (sibs, left)) :
    decodeNodes (fc + 1 + fa + 1) indef (t ++ [0x80] ++ (c ++ 0 :: 0 :: after))
      = .ok (.constructed (beNat t : Nat) ch :: sibs, left) ∧
    decodeNodes (fc + 1 + fa + 1) indef (t ++ l ++ (c ++ after))
      = .ok (.constructed (beNat t : Nat) ch :: sibs, left) := by
  have hterm : decodeNodes 1 true (0 :: 0 :: after) = .ok ([], after) := by
    rw [decodeNodes_succ]; simp
  have hchild := decodeNodes_append fc 1 true c (0 :: 0 :: after) ch [] lc after hc
    (fun _ => htags) hterm
  rw [List.append_nil] at hchild
  have hchild' := decodeNodes_mono _ fa true _ _ hchild
  have hsib : decodeNodes (fc + 1 + fa) indef after = .ok (sibs, left) := by
    have := decodeNodes_mono fa (fc + 1) indef after _ ha
    rw [Nat.add_comm] at this
    exact this
  have hc' : decodeNodes (fc + 1 + fa) false c = .ok (ch, lc) := by
    have := decodeNodes_mono fc (1 + fa) false c _ hc
    rw [← Nat.add_assoc] at this
    exact this
  constructor
  · have hdr := GetTagAndLength_of t [0x80] (c ++ 0 :: 0 :: after) .indefinite ht
      (GetLength_indefinite _)
    obtain ⟨b0, b1, tl, hb⟩ := GetTagAndLength_two _ _ _ _ hdr
    obtain ⟨x0, xs, hx0, hne⟩ := constructedBit_head t ([0x80] ++ (c ++ 0 :: 0 :: after)) hcb
    have hcb' : constructedBit (t ++ [0x80] ++ (c ++ 0 :: 0 :: after)) = true := by
      rw [List.append_assoc, constructedBit_append _ _ (isTagOctets_ne_nil t ht)]
      exact hcb
    rw [List.append_assoc] at hb
    rw [hx0] at hb
    rw [List.append_assoc] at hdr hcb' ⊢
    rw [hx0] at hdr hcb' ⊢
    simp only [List.cons.injEq] at hb
    obtain ⟨rfl, rfl⟩ := hb
    rw [decodeNodes_succ, if_neg (fun h => hne h.2.1), hdr]
    simp only [hcb', if_true, hchild', hsib]
  · have hdr := GetTagAndLength_of t l (c ++ after) (.definite c.length) ht
      (GetLength_ber _ _ _ hl)
    obtain ⟨b0, b1, tl, hb⟩ := GetTagAndLength_two _ _ _ _ hdr
    obtain ⟨x0, xs, hx0, hne⟩ := constructedBit_head t (l ++ (c ++ after)) hcb
    have hcb' : constructedBit (t ++ l ++ (c ++ after)) = true := by
      rw [List.append_assoc, constructedBit_append _ _ (isTagOctets_ne_nil t ht)]
      exact hcb
    rw [List.append_assoc] at hb
    rw [hx0] at hb
    rw [List.append_assoc] at hdr hcb' ⊢
    rw [hx0] at hdr hcb' ⊢
    simp only [List.cons.injEq] at hb
    obtain ⟨rfl, rfl⟩ := hb
    rw [decodeNodes_succ, if_neg (fun h => hne h.2.1), hdr]
    simp only [hcb', if_true, List.length_append, List.take_left, List.drop_left, hc', hsib]
    rw [if_neg (by omega)]

/-- **C12** Indefinite-length decode: a constructed element encoded with
length byte `0x80`, content `c` and the `00 00` terminator is decoded as the
same node (same tag, same children in the same order) as the element encoded
with any definite length field for `c`; the terminator is not a child, and the
decoder goes on with the bytes after the terminator. Here `c` is a sequence of
elements none of which has tag 0 (in the content of an indefinite-length
element a leading `00 00` is the terminator); the element may follow other
elements, and the same holds wherever the decoder reaches the element, in the
content of an indefinite-length element as well. -/
theorem indefinite_as_definite (before t c l after : List Byte) (pre ch sibs : TlvNodes)
    (ht : isTagOctets t = true) (hcb : constructedBit t = true)
    (hb : Decode before = .ok pre)
    (hc : Decode c = .ok ch) (htags : ∀ n ∈ ch, n.GetTag ≠ 0)
    (hl : IsBerLength c.length l)
    (ha : Decode after = .ok sibs) :
    Decode (before ++ (t ++ [0x80] ++ (c ++ 0 :: 0 :: after)))
      = .ok (pre ++ .constructed (beNat t : Nat) ch :: sibs) ∧
    Decode (before ++ (t ++ l ++ (c ++ after)))
      = .ok (pre ++ .constructed (beNat t : Nat) ch :: sibs) ∧
    (∀ (indef : Bool) (fa : Nat) (follow : List Byte) (next : List TlvNode) (left : List Byte),
      decodeNodes fa indef follow = .ok (next, left) →
      ∃ fuel,
        decodeNodes fuel indef (t ++ [0x80] ++ (c ++ 0 :: 0 :: follow))
          = .ok (.constructed (beNat t : Nat) ch :: next, left) ∧
        decodeNodes fuel indef (t ++ l ++ (c ++ follow))
          = .ok (.constructed (beNat t : Nat) ch :: next, left)) := by
  obtain ⟨lb, hb'⟩ := decodeNodes_of_Decode _ _ hb
  obtain ⟨lc, hc'⟩ := decodeNodes_of_Decode _ _ hc
  obtain ⟨la, ha'⟩ := decodeNodes_of_Decode _ _ ha
  have hel := decodeNodes_constructed _ _ false t c l after ch sibs lc la ht hcb hc' htags hl ha'
  refine ⟨?_, ?_, ?_⟩
  · have := decodeNodes_append _ _ false before _ pre _ lb la hb' (by simp) hel.1
    exact Decode_of_decodeNodes _ _ _ _ this
  · have := decodeNodes_append _ _ false before _ pre _ lb la hb' (by simp) hel.2
    exact Decode_of_decodeNodes _ _ _ _ this
  · intro indef fa follow next left hf
    exact ⟨_, decodeNodes_constructed _ fa indef t c l follow ch next lc left ht hcb hc' htags hl
      hf⟩

/-- The value of the root `70` of `TestDecodeAndAccessIndefiniteLength`:
`02 03 123456`, then `A0 80 ... 00 00` with content
`01 02 7890 02 01 45 01 01 67`, then `A0 04 01 02 1234`; the first `A0` has
children `01 = 7890`, `02 = 45`, `01 = 67` in both forms, and the second `A0`
follows it. -/
theorem indefinite_as_definite_witness :
    Decode testIndefData = .ok testIndefForest ∧
    Decode testIndefReencoded = .ok testIndefForest ∧
    Decode ([0x02, 0x03, 0x12, 0x34, 0x56] ++ ([0xA0] ++ [0x80]
        ++ ([0x01, 0x02, 0x78, 0x90, 0x02, 0x01, 0x45, 0x01, 0x01, 0x67]
          ++ 0 :: 0 :: [0xA0, 0x04, 0x01, 0x02, 0x12, 0x34])))
      = .ok ([.simple 0x02 [0x12, 0x34, 0x56]]
          ++ .constructed (beNat [0xA0] : Nat)
              [.simple 0x01 [0x78, 0x90], .simple 0x02 [0x45], .simple 0x01 [0x67]]
            :: [.constructed 0xA0 [.simple 0x01 [0x12, 0x34]]]) ∧
    Decode ([0x02, 0x03, 0x12, 0x34, 0x56] ++ ([0xA0] ++ [0x0A]
        ++ ([0x01, 0x02, 0x78, 0x90, 0x02, 0x01, 0x45, 0x01, 0x01, 0x67]
          ++ [0xA0, 0x04, 0x01, 0x02, 0x12, 0x34])))
      = .ok ([.simple 0x02 [0x12, 0x34, 0x56]]
          ++ .constructed (beNat [0xA0] : Nat)
              [.simple 0x01 [0x78, 0x90], .simple 0x02 [0x45], .simple 0x01 [0x67]]
            :: [.constructed 0xA0 [.simple 0x01 [0x12, 0x34]]]) :=
  have h := indefinite_as_definite [0x02, 0x03, 0x12, 0x34, 0x56] [0xA0]
    [0x01, 0x02, 0x78, 0x90, 0x02, 0x01, 0x45, 0x01, 0x01, 0x67] [0x0A]
    [0xA0, 0x04, 0x01, 0x02, 0x12, 0x34]
    [.simple 0x02 [0x12, 0x34, 0x56]]
    [.simple 0x01 [0x78, 0x90], .simple 0x02 [0x45], .simple 0x01 [0x67]]
    [.constructed 0xA0 [.simple 0x01 [0x12, 0x34]]]
    (by decide) (by decide) rfl rfl (by decide) (Or.inl ⟨by decide, rfl⟩) rfl
  ⟨rfl, rfl, h.1, h.2.1⟩

end tlv

namespace tlv

/-! ## What `Encode` writes -/

theorem beNat_natBytes (n : Nat) : beNat (natBytes n) = n := by
  induction n using Nat.strong_induction_on with
  | _ n ih =>
    by_cases h0 : n = 0
    · subst h0; rfl
    · rw [natBytes_pos n (by omega), beNat_append_singleton, ih (n / 256) (by omega),
        Byte_val_ofNat]
      omega

theorem natBytes_head (n : Nat) (h : 0 < n) :
    ∃ b body, natBytes n = b :: body ∧ b.val ≠ 0 := by
  induction n using Nat.strong_induction_on with
  | _ n ih =>
    rw [natBytes_pos n h]
    by_cases hlt : n < 256
    · have hd : n / 256 = 0 := by omega
      rw [hd, natBytes_zero]
      refine ⟨Fin.ofNat (n % 256), [], rfl, ?_⟩
      rw [Byte_val_ofNat]
      omega
    · obtain ⟨b, body, hb, hne⟩ := ih (n / 256) (by omega) (by omega)
      rw [hb]
      exact ⟨b, body ++ [Fin.ofNat (n % 256)], by simp, hne⟩

theorem natBytes_length (k n : Nat) (h : n < 256 ^ k) : (natBytes n).length ≤ k := by
  induction k generalizing n with
  | zero =>
    have : n = 0 := by simpa using h
    subst this; simp [natBytes_zero]
  | succ k ih =>
    by_cases h0 : n = 0
    · subst h0; simp [natBytes_zero]
    · rw [natBytes_pos n (by omega)]
      have hdiv : n / 256 < 256 ^ k := by
        rw [Nat.div_lt_iff_lt_mul (by decide)]
        rw [pow_succ] at h
        exact h
      have := ih (n / 256) hdiv
      simp only [List.length_append, List.length_singleton]
      omega

/-- The length octets that `Encode` writes are the shortest definite form
(for the lengths a Go slice can have). -/
theorem encodeLength_minimal (n : Nat) (h : n < 2 ^ 63) : IsMinimalLength n (encodeLength n) := by
  by_cases hn : n < 128
  · exact Or.inl ⟨hn, by simp [encodeLength, hn]⟩
  · obtain ⟨b, body, hb, hne⟩ := natBytes_head n (by omega)
    have hlen := natBytes_length 8 n (by
      have : (2 : Nat) ^ 63 < 256 ^ 8 := by decide
      omega)
    rw [hb] at hlen
    simp only [List.length_cons] at hlen
    refine Or.inr ⟨by omega, b, body, hne, by omega, ?_, ?_⟩
    · unfold encodeLength
      rw [if_neg hn, hb]
      rfl
    · rw [← hb]
      exact beNat_natBytes n

/-! ## Tag octets read by the decoder -/

theorem isTagTail_ne_nil (l : List Byte) (h : isTagTail l = true) : l ≠ [] := by
  intro hl; subst hl; simp [isTagTail] at h

theorem isTagTail_cons (b : Byte) (l : List Byte) (hb : 128 ≤ b.val) (h : isTagTail l = true) :
    isTagTail (b :: l) = true := by
  cases l with
  | nil => simp [isTagTail] at h
  | cons c tl => simp only [isTagTail, Bool.and_eq_true, decide_eq_true_eq]; exact ⟨hb, h⟩

theorem getTagMore_octets (l : List Byte) (acc v : Nat) (rest : List Byte)
    (h : getTagMore l acc = .ok (v, rest)) :
    ∃ tail, l = tail ++ rest ∧ isTagTail tail = true ∧
      v = tail.foldl (fun a b => a * 256 + b.val) acc := by
  induction l generalizing acc with
  | nil => simp [getTagMore] at h
  | cons b tl ih =>
    rw [getTagMore] at h
    split at h
    · next hb =>
      obtain ⟨tail, h1, h2, h3⟩ := ih _ h
      exact ⟨b :: tail, by rw [h1]; rfl, isTagTail_cons b tail hb h2, by rw [h3]; rfl⟩
    · next hb =>
      simp at h; obtain ⟨rfl, rfl⟩ := h
      refine ⟨[b], rfl, ?_, rfl⟩
      simp only [isTagTail, decide_eq_true_eq]
      omega

/-- The tag that the decoder reads is the value of well-formed tag octets at
the head of the buffer. -/
theorem GetTag_octets (buf : List Byte) (tag : Int) (rest : List Byte)
    (h : GetTag buf = .ok (tag, rest)) :
    ∃ t, buf = t ++ rest ∧ isTagOctets t = true ∧ tag = ((beNat t : Nat) : Int) := by
  cases buf with
  | nil => simp [GetTag] at h
  | cons b tl =>
    rw [GetTag] at h
    split at h
    · next hb =>
      split at h
      · next v rest' heq =>
        simp at h; obtain ⟨rfl, rfl⟩ := h
        obtain ⟨tail, h1, h2, h3⟩ := getTagMore_octets _ _ _ _ heq
        refine ⟨b :: tail, by rw [h1]; rfl, ?_, ?_⟩
        · rw [isTagOctets, if_pos hb]; exact h2
        · rw [h3]; simp [beNat]
      · simp at h
    · next hb =>
      simp at h; obtain ⟨rfl, rfl⟩ := h
      refine ⟨[b], rfl, ?_, ?_⟩
      · rw [isTagOctets, if_neg hb]; simp
      · simp [beNat]

theorem GetTagAndLength_octets (buf : List Byte) (tag : Int) (len : TlvLength)
    (rest : List Byte) (h : GetTagAndLength buf = .ok (tag, len, rest)) :
    ∃ t, isTagOctets t = true ∧ tag = ((beNat t : Nat) : Int) ∧
      constructedBit buf = constructedBit t := by
  unfold GetTagAndLength at h
  split at h
  · simp at h
  · next tag' r1 h1 =>
    split at h
    · simp at h
    · next len' r2 h2 =>
      simp at h; obtain ⟨rfl, -, -⟩ := h
      obtain ⟨t, hb, ht, htag⟩ := GetTag_octets _ _ _ h1
      refine ⟨t, ht, htag, ?_⟩
      rw [hb, constructedBit_append _ _ (isTagOctets_ne_nil t ht)]

/-! ## Decoding what `Encode` wrote -/

/-- A primitive element with shortest length octets, and what follows it. -/
theorem decodeNodes_primitive (fuel : Nat) (t l v rest : List Byte) (sib : List TlvNode)
    (left : List Byte) (ht : isTagOctets t = true) (hcb : constructedBit t = false)
    (hl : IsMinimalLength v.length l)
    (hr : decodeNodes fuel false rest = .ok (sib, left)) :
    decodeNodes (fuel + 1) false (t ++ l ++ v ++ rest)
      = .ok (.simple (beNat t : Nat) v :: sib, left) := by
  have hdr := GetTagAndLength_wf t l v rest ht hl
  obtain ⟨b0, b1, tl, hb⟩ := GetTagAndLength_two _ _ _ _ hdr
  have hcb' : constructedBit (t ++ l ++ v ++ rest) = false := by
    rw [List.append_assoc, List.append_assoc, constructedBit_append _ _ (isTagOctets_ne_nil t ht)]
    exact hcb
  rw [hb] at hdr hcb' ⊢
  rw [decodeNodes_succ, if_neg (by simp), hdr]
  simp only [hcb', List.length_append, List.take_left, List.drop_left, hr]
  rw [if_neg (by omega)]
  simp

/-- A constructed element with shortest length octets, and what follows
it. -/
theorem decodeNodes_constructed_minimal (fuel : Nat) (t l v rest : List Byte)
    (ch sib : List TlvNode) (lv left : List Byte) (ht : isTagOctets t = true)
    (hcb : constructedBit t = true) (hl : IsMinimalLength v.length l)
    (hv : decodeNodes fuel false v = .ok (ch, lv))
    (hr : decodeNodes fuel false rest = .ok (sib, left)) :
    decodeNodes (fuel + 1) false (t ++ l ++ v ++ rest)
      = .ok (.constructed (beNat t : Nat) ch :: sib, left) := by
  have hdr := GetTagAndLength_wf t l v rest ht hl
  obtain ⟨b0, b1, tl, hb⟩ := GetTagAndLength_two _ _ _ _ hdr
  have hcb' : constructedBit (t ++ l ++ v ++ rest) = true := by
    rw [List.append_assoc, List.append_assoc, constructedBit_append _ _ (isTagOctets_ne_nil t ht)]
    exact hcb
  rw [hb] at hdr hcb' ⊢
  rw [decodeNodes_succ, if_neg (by simp), hdr]
  simp only [hcb', List.length_append, List.take_left, List.drop_left, hr, hv]
  rw [if_neg (by omega)]
  simp

end tlv

namespace tlv

/-- The encoding of a decoded forest is a well-formed definite-length buffer
with shortest length octets, and it decodes to the forest. -/
theorem decodeNodes_reencode (fuel : Nat) (indef : Bool) (buf : List Byte)
    (f : List TlvNode) (left : List Byte)
    (h : decodeNodes fuel indef buf = .ok (f, left))
    (hsize : (encodeNodes f).length < 2 ^ 63) :
    TlvBuffer IsMinimalLength (encodeNodes f) ∧
      ∃ fuel', decodeNodes fuel' false (encodeNodes f) = .ok (f, []) := by
  induction fuel generalizing indef buf f left with
  | zero => simp [decodeNodes] at h
  | succ fuel ih =>
    have hnil : TlvBuffer IsMinimalLength (encodeNodes []) ∧
        ∃ fuel', decodeNodes fuel' false (encodeNodes []) = .ok ([], []) :=
      ⟨.nil, 1, by simp [encodeNodes, decodeNodes]⟩
    have hcons : ∀ (tag : Int) (ch sib : List TlvNode) (t : List Byte),
        isTagOctets t = true → tag = ((beNat t : Nat) : Int) → constructedBit t = true →
        (encodeNodes (.constructed tag ch :: sib)).length < 2 ^ 63 →
        (TlvBuffer IsMinimalLength (encodeNodes ch) ∧
          ∃ fuel', decodeNodes fuel' false (encodeNodes ch) = .ok (ch, [])) →
        (TlvBuffer IsMinimalLength (encodeNodes sib) ∧
          ∃ fuel', decodeNodes fuel' false (encodeNodes sib) = .ok (sib, [])) →
        TlvBuffer IsMinimalLength (encodeNodes (.constructed tag ch :: sib)) ∧
          ∃ fuel', decodeNodes fuel' false (encodeNodes (.constructed tag ch :: sib))
            = .ok (.constructed tag ch :: sib, []) := by
      intro tag ch sib t ht htag hcbt hsz ⟨wf1, F1, d1⟩ ⟨wf2, F2, d2⟩
      subst htag
      rw [encodeNodes_cons, Encode_constructed, (GetTag_tagOctets t [] ht).2] at hsz ⊢
      simp only [List.length_append] at hsz
      have hl := encodeLength_minimal (encodeNodes ch).length (by omega)
      refine ⟨.constructed t _ _ _ ht hcbt hl wf1 wf2, F1 + F2 + 1, ?_⟩
      have d1' := decodeNodes_mono F1 F2 false _ _ d1
      have d2' := decodeNodes_mono F2 F1 false _ _ d2
      rw [Nat.add_comm] at d2'
      exact decodeNodes_constructed_minimal (F1 + F2) t _ _ _ ch sib [] [] ht hcbt hl d1' d2'
    have hsizes : ∀ (tag : Int) (ch sib : List TlvNode),
        (encodeNodes (.constructed tag ch :: sib)).length < 2 ^ 63 →
        (encodeNodes ch).length < 2 ^ 63 ∧ (encodeNodes sib).length < 2 ^ 63 := by
      intro tag ch sib hsz
      rw [encodeNodes_cons, Encode_constructed] at hsz
      simp only [List.length_append] at hsz
      omega
    match buf, indef with
    | [], false => simp [decodeNodes] at h; rw [h.1]; exact hnil
    | [], true => simp [decodeNodes] at h
    | [_], false => simp [decodeNodes] at h
    | [_], true => simp [decodeNodes] at h
    | b0 :: b1 :: tl, indef =>
      rw [decodeNodes_succ] at h
      split at h
      · simp at h; rw [h.1]; exact hnil
      · split at h
        · simp at h
        · next tag len rest hdr =>
          obtain ⟨t, ht, htag, hcbt⟩ := GetTagAndLength_octets _ _ _ _ hdr
          split at h
          · simp at h
          · split at h
            · next hcb1 =>
              split at h
              · simp at h
              · next ch lf h1 =>
                split at h
                · simp at h
                · next sib left' h2 =>
                  simp at h; obtain ⟨rfl, -⟩ := h
                  have hs := hsizes _ _ _ hsize
                  exact hcons tag ch sib t ht htag (by rw [← hcbt]; exact hcb1) hsize
                    (ih _ _ _ _ h1 hs.1) (ih _ _ _ _ h2 hs.2)
            · next hcb1 =>
              split at h
              · simp at h
              · next sib left' h2 =>
                simp at h; obtain ⟨rfl, -⟩ := h
                subst htag
                rw [encodeNodes_cons, Encode_simple, (GetTag_tagOctets t [] ht).2] at hsize ⊢
                simp only [List.length_append] at hsize
                have hl := encodeLength_minimal (rest.take len).length (by omega)
                obtain ⟨wf2, F2, d2⟩ := ih _ _ _ _ h2 (by omega)
                have hcbf : constructedBit t = false := by
                  rw [← hcbt]; simpa using hcb1
                exact ⟨.primitive t _ _ _ ht hcbf hl wf2, F2 + 1,
                  decodeNodes_primitive F2 t _ _ _ sib [] ht hcbf hl d2⟩
        · next tag rest hdr =>
          obtain ⟨t, ht, htag, hcbt⟩ := GetTagAndLength_octets _ _ _ _ hdr
          split at h
          · next hcb1 =>
            split at h
            · simp at h
            · next ch rest' h1 =>
              split at h
              · simp at h
              · next sib left' h2 =>
                simp at h; obtain ⟨rfl, -⟩ := h
                have hs := hsizes _ _ _ hsize
                exact hcons tag ch sib t ht htag (by rw [← hcbt]; exact hcb1) hsize
                  (ih _ _ _ _ h1 hs.1) (ih _ _ _ _ h2 hs.2)
          · simp at h

/-- **C18** `Encode` always emits definite-form lengths: for every buffer that
`Decode` accepts, with or without indefinite-length elements, the encoding of
the decoded forest (of a length that fits a Go `int`) is a well-formed buffer
in which every element has a definite length in its shortest form, so without
indefinite-length marker or terminator, and decoding it again yields the same
forest: same tags, values and child order. -/
theorem Decode_Encode_Decode (b : List Byte) (f : TlvNodes) (h : Decode b = .ok f)
    (hsize : (TlvNodes.Encode f).length < 2 ^ 63) :
    TlvBuffer IsMinimalLength (TlvNodes.Encode f) ∧ Decode (TlvNodes.Encode f) = .ok f := by
  obtain ⟨left, hd⟩ := decodeNodes_of_Decode b f h
  obtain ⟨wf, F, hF⟩ := decodeNodes_reencode _ _ _ _ _ hd hsize
  exact ⟨wf, Decode_of_decodeNodes F _ _ _ hF⟩

/-- The buffer of `TestDecodeAndAccessIndefiniteLength` re-encodes to
`70 17 02 03 123456 A0 0A 01 02 7890 02 01 45 01 01 67 A0 04 01 02 1234`, which
decodes to the same forest. -/
theorem Decode_Encode_Decode_witness :
    Decode testIndefData = .ok testIndefForest ∧
    TlvNodes.Encode testIndefForest = testIndefReencoded ∧
    TlvBuffer IsMinimalLength (TlvNodes.Encode testIndefForest) ∧
    Decode (TlvNodes.Encode testIndefForest) = .ok testIndefForest :=
  ⟨rfl, by decide, Decode_Encode_Decode testIndefData testIndefForest rfl (by decide)⟩

end tlv

namespace document

/-! ## `Contains` as a relation on descriptors -/

/-- **C21** `Contains` is reflexive on decoded descriptors: for every buffer
`b` for which `DecodeSecurityInfos` returns a descriptor `d`, with or without
an error beside it, `d.RawData` equals `b` and `d.Contains(d)` is true. -/
theorem Contains_reflexive (env : Env) (b : List Byte) (d : SecurityInfos)
    (e : Option Error) (h : DecodeSecurityInfos env b = .returned (some d, e)) :
    d.RawData = b ∧ d.Contains env d = true := by
  unfold DecodeSecurityInfos at h
  cases hp : env.parseOidSet b with
  | error err => rw [hp] at h; simp at h
  | ok recs =>
    rw [hp] at h
    simp only at h
    have hraw : d.RawData = b := (processRecords_count env recs _ d e h).2
    refine ⟨hraw, ?_⟩
    unfold SecurityInfos.Contains
    rw [hraw, hp]
    simp only
    exact (containsLoop_iff recs recs).2 (fun x hx => ⟨x, hx, rfl⟩)

/-- The descriptor decoded from the three records of `sampleInput` contains
itself. -/
theorem Contains_reflexive_witness :
    DecodeSecurityInfos sampleEnv sampleInput = .returned (some sampleDescriptor, none) ∧
    sampleDescriptor.RawData = sampleInput ∧
    sampleDescriptor.Contains sampleEnv sampleDescriptor = true :=
  ⟨by decide, Contains_reflexive sampleEnv sampleInput sampleDescriptor none (by decide)⟩

/-- **C22** `Contains` is transitive: for all descriptors `a`, `b`, `c`, if
`a.Contains(b)` and `b.Contains(c)` are both true then `a.Contains(c)` is
true. -/
theorem Contains_transitive (env : Env) (a b c : SecurityInfos)
    (hab : a.Contains env b = true) (hbc : b.Contains env c = true) :
    a.Contains env c = true := by
  unfold SecurityInfos.Contains at hab hbc ⊢
  cases ha : env.parseOidSet a.RawData with
  | error _ => rw [ha] at hab; simp at hab
  | ok ra =>
    cases hb : env.parseOidSet b.RawData with
    | error _ => rw [ha, hb] at hab; simp at hab
    | ok rb =>
      cases hc : env.parseOidSet c.RawData with
      | error _ => rw [hb, hc] at hbc; simp at hbc
      | ok rc =>
        rw [ha, hb] at hab
        rw [hb, hc] at hbc
        simp only at hab hbc ⊢
        rw [containsLoop_iff] at hab hbc ⊢
        intro x hx
        obtain ⟨y, hy, hxy⟩ := hbc x hx
        obtain ⟨z, hz, hyz⟩ := hab y hy
        exact ⟨z, hz, hxy.trans hyz⟩

/-- Three records contain two of them, which contain one of these. -/
theorem Contains_transitive_witness :
    sampleDescriptor.Contains sampleEnv sampleSubset = true ∧
    sampleSubset.Contains sampleEnv sampleSubSubset = true ∧
    sampleDescriptor.Contains sampleEnv sampleSubSubset = true :=
  ⟨by decide, by decide,
    Contains_transitive sampleEnv sampleDescriptor sampleSubset sampleSubSubset
      (by decide) (by decide)⟩

/-! ## DG13 -/

theorem sampleGetBytes_reads : ReadsBytes sampleGetBytes := by
  intro buf n
  constructor
  · intro h
    unfold sampleGetBytes
    rw [if_neg (by omega)]
    rfl
  · intro h
    unfold sampleGetBytes
    rw [if_pos (by omega)]
    exact ⟨_, rfl⟩

/-- The header of a file whose root tag is the single octet `6D`. -/
theorem GetTagAndLength_DG13 (l content extra : List Byte)
    (hl : tlv.IsBerLength content.length l) :
    tlv.GetTagAndLength ([0x6D] ++ l ++ content ++ extra)
      = .ok (DG13Tag, .definite content.length, content ++ extra) := by
  have h := tlv.GetTagAndLength_of [0x6D] l (content ++ extra) (.definite content.length)
    (by decide) (tlv.GetLength_ber content.length l (content ++ extra) hl)
  rw [List.append_assoc ([0x6D] ++ l)]
  exact h

/-- **C23** `NewDG13` extracts the root content without decoding it. For
non-empty data, with a byte reader that hands out the next `n` bytes when that
many are left and fails otherwise: an unreadable tag/length header is returned
as an error; a root tag other than `0x6D` is an error; a declared length `n`
with fewer than `n` bytes after the header is an error; otherwise the result is
a DG13 whose `RawData` is the input and whose `Content` is the first `n` bytes
after the header. In particular for a root `6D`, any definite length octets of
`content` and any bytes `extra` after the content, `Content` is `content`,
whatever these bytes are. -/
theorem NewDG13_content (GetBytesFromBuffer : List Byte → Int → Except Error (List Byte))
    (indefinite : Int) (data : List Byte)
    (hg : ReadsBytes GetBytesFromBuffer) (hne : 1 ≤ data.length) :
    (∀ err, tlv.GetTagAndLength data = .error err →
      NewDG13 GetBytesFromBuffer indefinite data
        = (none, some (.wrapped "[NewDG13] GetTagAndLength error: " (.tlv err)))) ∧
    (∀ tag len rest, tlv.GetTagAndLength data = .ok (tag, len, rest) → tag ≠ 0x6D →
      ∃ err, NewDG13 GetBytesFromBuffer indefinite data = (none, some err)) ∧
    (∀ n rest, tlv.GetTagAndLength data = .ok (0x6D, .definite n, rest) → rest.length < n →
      ∃ err, NewDG13 GetBytesFromBuffer indefinite data = (none, some err)) ∧
    (∀ n rest, tlv.GetTagAndLength data = .ok (0x6D, .definite n, rest) → n ≤ rest.length →
      NewDG13 GetBytesFromBuffer indefinite data
        = (some { RawData := data, Content := rest.take n }, none)) ∧
    (∀ l content extra, tlv.IsBerLength content.length l →
      data = [0x6D] ++ l ++ content ++ extra →
      NewDG13 GetBytesFromBuffer indefinite data
        = (some { RawData := data, Content := content }, none)) := by
  have hlen : ¬ data.length < 1 := by omega
  have hok : ∀ n rest, tlv.GetTagAndLength data = .ok (0x6D, .definite n, rest) →
      n ≤ rest.length →
      NewDG13 GetBytesFromBuffer indefinite data
        = (some { RawData := data, Content := rest.take n }, none) := by
    intro n rest h hn
    unfold NewDG13
    rw [if_neg hlen, h]
    simp only
    rw [if_neg (by decide)]
    simp only [lengthToInt]
    rw [(hg rest n).1 hn]
  refine ⟨?_, ?_, ?_, hok, ?_⟩
  · intro err h
    unfold NewDG13
    rw [if_neg hlen, h]
  · intro tag len rest h ht
    unfold NewDG13
    rw [if_neg hlen, h]
    simp only
    rw [if_pos (show tag ≠ DG13Tag from ht)]
    exact ⟨_, rfl⟩
  · intro n rest h hn
    obtain ⟨err, he⟩ := (hg rest n).2 hn
    unfold NewDG13
    rw [if_neg hlen, h]
    simp only
    rw [if_neg (by decide)]
    simp only [lengthToInt]
    rw [he]
    exact ⟨_, rfl⟩
  · intro l content extra hl hd
    have h := GetTagAndLength_DG13 l content extra hl
    rw [← hd] at h
    have := hok content.length (content ++ extra) h (by simp)
    rw [List.take_left] at this
    exact this

/-- The file `6D 03 AA BB CC DD`: the content is `AA BB CC`, which is not TLV,
and `DD` is ignored. -/
theorem NewDG13_content_witness :
    ReadsBytes sampleGetBytes ∧ 1 ≤ testDG13.length ∧
    NewDG13 sampleGetBytes 0 testDG13
      = (some { RawData := testDG13, Content := [0xAA, 0xBB, 0xCC] }, none) :=
  ⟨sampleGetBytes_reads, by decide,
    (NewDG13_content sampleGetBytes 0 testDG13 sampleGetBytes_reads (by decide)).2.2.2.2
      [3] [0xAA, 0xBB, 0xCC] [0xDD] (Or.inl ⟨by decide, rfl⟩) rfl⟩

end document

namespace iso7816

/-! ## Response APDU -/

/-- The last two bytes of a buffer of at least two bytes. -/
theorem drop_last_two (d : List Byte) (h : 2 ≤ d.length) :
    ∃ b0 b1 : Byte, d.drop (d.length - 2) = [b0, b1] ∧
      d[d.length - 2]? = some b0 ∧ d[d.length - 1]? = some b1 := by
  have hl : (d.drop (d.length - 2)).length = 2 := by rw [List.length_drop]; omega
  have h0 : (d.drop (d.length - 2))[0]? = d[d.length - 2]? := by
    rw [List.getElem?_drop]; rfl
  have h1 : (d.drop (d.length - 2))[1]? = d[d.length - 1]? := by
    rw [List.getElem?_drop]
    congr 1
    omega
  match hd : d.drop (d.length - 2), hl with
  | [b0, b1], _ =>
    rw [hd] at h0 h1
    exact ⟨b0, b1, rfl, h0.symm, h1.symm⟩

/-- Go's `b[1] | b[0]<<8` on two bytes is the big-endian number. -/
theorem BigEndianUint16_pair (b0 b1 : Byte) (rest : List Byte) :
    BigEndianUint16 (b0 :: b1 :: rest) = 256 * b0.val + b1.val := by
  have h0 := b0.isLt
  have h1 := b1.isLt
  have hor : b1.val ||| (b0.val <<< 8) = 256 * b0.val + b1.val := by
    rw [Nat.shiftLeft_eq, Nat.lor_comm, Nat.mul_comm]
    exact (Nat.mul_add_lt_is_or (show b1.val < 2 ^ 8 from h1) b0.val).symm
  show (b1.val ||| (b0.val <<< 8)) % 65536 = _
  rw [hor]
  omega

theorem bigEndian16_pair (b0 b1 : Byte) : bigEndian16 (256 * b0.val + b1.val) = [b0, b1] := by
  have h0 := b0.isLt
  have h1 := b1.isLt
  have e0 : (256 * b0.val + b1.val) / 256 = b0.val := by omega
  have e1 : (256 * b0.val + b1.val) % 256 = b1.val := by omega
  unfold bigEndian16
  rw [e0, e1, tlv.Byte_ofNat_val, tlv.Byte_ofNat_val]

/-- What `ParseRApdu` returns on a buffer of at least two bytes. -/
theorem ParseRApdu_ok (d : List Byte) (h : 2 ≤ d.length) :
    ∃ b0 b1 : Byte, d[d.length - 2]? = some b0 ∧ d[d.length - 1]? = some b1 ∧
      d = d.take (d.length - 2) ++ [b0, b1] ∧
      ParseRApdu d
        = (some { Status := 256 * b0.val + b1.val, Data := d.take (d.length - 2) }, none) := by
  obtain ⟨b0, b1, hd, h0, h1⟩ := drop_last_two d h
  refine ⟨b0, b1, h0, h1, ?_, ?_⟩
  · rw [← hd, List.take_append_drop]
  · unfold ParseRApdu
    rw [if_neg (by omega), hd, BigEndianUint16_pair]

/-- `ParseRApdu` of data followed by the two status bytes. -/
theorem ParseRApdu_append (x : List Byte) (b0 b1 : Byte) :
    ParseRApdu (x ++ [b0, b1]) = (some { Status := 256 * b0.val + b1.val, Data := x }, none) := by
  unfold ParseRApdu
  have hl : (x ++ [b0, b1]).length - 2 = x.length := by simp
  rw [if_neg (by simp), hl, List.drop_left, List.take_left, BigEndianUint16_pair]

/-- **C24** R-APDU round trip, with `utils.UInt16ToBytes` writing a 16-bit
number as its two big-endian bytes: for every byte string `d` of at least two
bytes `ParseRApdu d` succeeds and `Encode` of the result is `d`; and for every
16-bit status `s` and data `x`, `ParseRApdu` of the encoding of
`NewRApdu(s, x)` succeeds with `Status` equal to `s` and `Data` equal to
`x`. -/
theorem RApdu_roundtrip (UInt16ToBytes : Nat → List Byte)
    (hu : ∀ s, s < 65536 → UInt16ToBytes s = bigEndian16 s) :
    (∀ d : List Byte, 2 ≤ d.length →
      ∃ r, ParseRApdu d = (some r, none) ∧ r.Encode UInt16ToBytes = d) ∧
    (∀ (s : Nat) (x : List Byte), s < 65536 →
      ParseRApdu ((NewRApdu s x).Encode UInt16ToBytes)
        = (some { Status := s, Data := x }, none)) := by
  constructor
  · intro d h
    obtain ⟨b0, b1, -, -, hd, hp⟩ := ParseRApdu_ok d h
    refine ⟨_, hp, ?_⟩
    have h0 := b0.isLt
    have h1 := b1.isLt
    show d.take (d.length - 2) ++ UInt16ToBytes (256 * b0.val + b1.val) = d
    rw [hu _ (by omega), bigEndian16_pair]
    exact hd.symm
  · intro s x hs
    show ParseRApdu (x ++ UInt16ToBytes s) = _
    rw [hu s hs]
    have h := ParseRApdu_append x (Fin.ofNat (s / 256)) (Fin.ofNat (s % 256))
    have e : 256 * ((Fin.ofNat (s / 256) : Byte)).val + ((Fin.ofNat (s % 256) : Byte)).val = s := by
      rw [tlv.Byte_val_ofNat, tlv.Byte_val_ofNat]
      omega
    rw [e] at h
    exact h

/-- The response `01 02 90 00` and the status `0x6A82` with data `AA`. -/
theorem RApdu_roundtrip_witness :
    (∃ r, ParseRApdu [0x01, 0x02, 0x90, 0x00] = (some r, none) ∧
      r.Encode bigEndian16 = [0x01, 0x02, 0x90, 0x00]) ∧
    ParseRApdu ((NewRApdu 0x6A82 [0xAA]).Encode bigEndian16)
      = (some { Status := 0x6A82, Data := [0xAA] }, none) :=
  ⟨(RApdu_roundtrip bigEndian16 (fun _ _ => rfl)).1 [0x01, 0x02, 0x90, 0x00] (by decide),
    (RApdu_roundtrip bigEndian16 (fun _ _ => rfl)).2 0x6A82 [0xAA] (by decide)⟩

/-- **C25** `ParseRApdu` fails, returning no R-APDU and an error, if and only
if the input has fewer than two bytes. On an input of `n ≥ 2` bytes it returns
no error and an R-APDU whose `Status` is `256 * data[n-2] + data[n-1]` and
whose `Data` is `data[0 .. n-2)`, so the empty string for a 2-byte input, and
`IsSuccess` holds exactly when the last two bytes are `90 00`. -/
theorem ParseRApdu_spec (data : List Byte) :
    ((∃ err, ParseRApdu data = (none, some err)) ↔ data.length < 2) ∧
    (2 ≤ data.length →
      ∃ b0 b1 : Byte, data[data.length - 2]? = some b0 ∧ data[data.length - 1]? = some b1 ∧
        ∃ r, ParseRApdu data = (some r, none) ∧
          r.Status = 256 * b0.val + b1.val ∧
          r.Data = data.take (data.length - 2) ∧
          (data.length = 2 → r.Data = []) ∧
          (r.IsSuccess = true ↔ b0 = 0x90 ∧ b1 = 0x00)) := by
  constructor
  · constructor
    · rintro ⟨err, he⟩
      by_contra hn
      obtain ⟨b0, b1, -, -, -, hp⟩ := ParseRApdu_ok data (by omega)
      rw [hp] at he
      simp at he
    · intro h
      unfold ParseRApdu
      rw [if_pos h]
      exact ⟨_, rfl⟩
  · intro h
    obtain ⟨b0, b1, h0, h1, -, hp⟩ := ParseRApdu_ok data h
    refine ⟨b0, b1, h0, h1, _, hp, rfl, rfl, ?_, ?_⟩
    · intro h2
      show data.take (data.length - 2) = []
      rw [h2]
      rfl
    · have l0 := b0.isLt
      have l1 := b1.isLt
      show ((256 * b0.val + b1.val == RAPDU_STATUS_SUCCESS) = true) ↔ _
      rw [beq_iff_eq]
      unfold RAPDU_STATUS_SUCCESS
      constructor
      · intro he
        exact ⟨Fin.ext (by show b0.val = 144; omega), Fin.ext (by show b1.val = 0; omega)⟩
      · rintro ⟨rfl, rfl⟩
        rfl

/-- The two-byte response `90 00`: success, no data. -/
theorem ParseRApdu_spec_witness :
    2 ≤ ([0x90, 0x00] : List Byte).length ∧
    ParseRApdu [0x90, 0x00] = (some { Status := 0x9000, Data := [] }, none) ∧
    ∃ b0 b1 : Byte, ([0x90, 0x00] : List Byte)[0]? = some b0 ∧
      ([0x90, 0x00] : List Byte)[1]? = some b1 ∧
      ∃ r, ParseRApdu [0x90, 0x00] = (some r, none) ∧
        r.Status = 256 * b0.val + b1.val ∧
        r.Data = List.take 0 [0x90, 0x00] ∧
        (([0x90, 0x00] : List Byte).length = 2 → r.Data = []) ∧
        (r.IsSuccess = true ↔ b0 = 0x90 ∧ b1 = 0x00) :=
  ⟨by decide, by decide, (ParseRApdu_spec [0x90, 0x00]).2 (by decide)⟩

end iso7816
